import Mathlib

/-!
# media_helpers: audio capture resampler and video frame ring

A shallow embedding of `src/AudioCapture.cpp` and `src/VideoConsumer.cpp`.

Conventions of the embedding

* A `float` or `double` value is an `IEEE` value: a finite rational, an infinity or NaN. An
  arithmetic operation on finite values rounds its exact result to the nearest `float`
  (24 significant bits) or `double` (53 significant bits), a tie to the even neighbour, with the
  subnormal range and with overflow to an infinity. Every operation is rounded by itself in its
  own type (no fused multiply-add, no excess precision). The two zeros are not told apart; the
  only operation that could tell them apart, a division by zero, divides a positive value by the
  `+0.0` that `x / inf` yields.
* `size_t`, `uint32` are `Nat`. The sizes derived from the byte length of a delivered block stay
  below the word size; `maxOutputFrames` and the byte size derived from it come from a quotient of
  doubles and are reduced modulo `2 ^ 64`. The conversion to `size_t` of a double that is not
  finite or not in range is undefined behaviour and is reported as a `Fault`.
* A heap block `(pointer, byte size)` such as `(mDeviceFloatBuffer, mDeviceFloatBufferSize)` is
  one list of floats; its byte size is four times the length of the list, a freed block is the
  empty list.
* A loop that the C++ writes as `while (true)` takes a fuel argument; running out of fuel, reading
  past the end of an input block and writing past the end of an output block are reported as a
  `Fault`.
* Answers of the host (media roster, recorder, allocator) are explicit arguments.
-/

/-- Ways in which a run of the embedded code can fail to produce a result. -/
inductive Fault where
  | outOfFuel
  | readOutOfBounds
  | writeOutOfBounds
  | nullDereference
  | undefinedConversion
  deriving DecidableEq, Repr

/-! ## Binary floating point -/

/-- Round to the nearest integer, a tie to the even neighbour. -/
def roundHalfEven (y : ℚ) : ℤ :=
  if y - ⌊y⌋ < 1 / 2 then ⌊y⌋
  else if 1 / 2 < y - ⌊y⌋ then ⌊y⌋ + 1
  else if ⌊y⌋ % 2 = 0 then ⌊y⌋ else ⌊y⌋ + 1

/-- Exponent of the spacing, around `x`, of the binary floating-point numbers with `prec`
significant bits whose least exponent (that of the subnormals) is `emin`. -/
def quantum (prec : ℕ) (emin : ℤ) (x : ℚ) : ℤ :=
  max (Int.log 2 |x| - ((prec : ℤ) - 1)) emin

/-- Round-to-nearest-even onto the binary floating-point numbers with `prec` significant bits
and least exponent `emin`, the exponent range unbounded above. -/
def roundTo (prec : ℕ) (emin : ℤ) (x : ℚ) : ℚ :=
  roundHalfEven (x / 2 ^ quantum prec emin x) * 2 ^ quantum prec emin x

/-- The finite `double` nearest to `x` (binary64: 53 bits, least exponent -1074). -/
def fl64 (x : ℚ) : ℚ := roundTo 53 (-1074) x

/-- The finite `float` nearest to `x` (binary32: 24 bits, least exponent -149). -/
def fl32 (x : ℚ) : ℚ := roundTo 24 (-149) x

/-- A value of type `float` or `double`. -/
inductive IEEE where
  | fin (q : ℚ)
  | inf (negative : Bool)
  | nan
  deriving DecidableEq

namespace IEEE

instance instOfNat {n : ℕ} [OfNat ℚ n] : OfNat IEEE n := ⟨.fin (OfNat.ofNat n)⟩

/-- The `double` that an operation with exact result `x` yields. -/
def roundDouble (x : ℚ) : IEEE :=
  if |fl64 x| < 2 ^ 1024 then .fin (fl64 x) else .inf (decide (x < 0))

/-- The `float` that an operation with exact result `x` yields. -/
def roundFloat (x : ℚ) : IEEE :=
  if |fl32 x| < 2 ^ 128 then .fin (fl32 x) else .inf (decide (x < 0))

/-- Unary minus. -/
def neg : IEEE → IEEE
  | fin q => fin (-q)
  | inf s => inf (!s)
  | nan => nan

/-- Addition, rounded by `rnd`. -/
def add (rnd : ℚ → IEEE) : IEEE → IEEE → IEEE
  | fin a, fin b => rnd (a + b)
  | fin _, inf s => inf s
  | inf s, fin _ => inf s
  | inf s, inf t => if s = t then inf s else nan
  | _, _ => nan

/-- Subtraction, rounded by `rnd`. -/
def sub (rnd : ℚ → IEEE) (a b : IEEE) : IEEE := add rnd a (neg b)

/-- Multiplication, rounded by `rnd`. -/
def mul (rnd : ℚ → IEEE) : IEEE → IEEE → IEEE
  | fin a, fin b => rnd (a * b)
  | fin a, inf s => if a = 0 then nan else inf (s != decide (a < 0))
  | inf s, fin b => if b = 0 then nan else inf (s != decide (b < 0))
  | inf s, inf t => inf (s != t)
  | _, _ => nan

/-- Division, rounded by `rnd`; a zero divisor is `+0.0`. -/
def div (rnd : ℚ → IEEE) : IEEE → IEEE → IEEE
  | fin a, fin b =>
    if b = 0 then (if a = 0 then nan else inf (decide (a < 0))) else rnd (a / b)
  | fin _, inf _ => fin 0
  | inf s, fin b => inf (s != decide (b < 0))
  | _, _ => nan

/-- The comparison `a < b`; it is false when an operand is NaN. -/
def lt : IEEE → IEEE → Bool
  | fin a, fin b => decide (a < b)
  | fin _, inf s => !s
  | inf s, fin _ => s
  | inf s, inf t => s && !t
  | _, _ => false

/-- `fabs`, `fabsf`. -/
def abs : IEEE → IEEE
  | fin q => fin |q|
  | inf _ => inf false
  | nan => nan

/-- `floor`. -/
def floor : IEEE → IEEE
  | fin q => fin ⌊q⌋
  | x => x

/-- `ceil`. -/
def ceil : IEEE → IEEE
  | fin q => fin ⌈q⌉
  | x => x

/-- `fmax`: the larger operand, the other operand when one is NaN. -/
def fmax : IEEE → IEEE → IEEE
  | nan, b => b
  | a, nan => a
  | a, b => if lt a b then b else a

/-- `static_cast<size_t>` of a `double`: truncation toward zero, undefined when the truncated
value is not a `size_t`. -/
def toSizeT : IEEE → Except Fault ℕ
  | fin q => if -1 < q ∧ q < 2 ^ 64 then .ok ⌊q⌋₊ else .error .undefinedConversion
  | _ => .error .undefinedConversion

/-- Conversion of a `size_t` to `double`. -/
def ofSizeT (n : ℕ) : IEEE := roundDouble n

/-- Conversion of an integer to `float`. -/
def ofInt (n : ℤ) : IEEE := roundFloat n

/-- `static_cast<float>` of a `double`. -/
def toFloat : IEEE → IEEE
  | fin q => roundFloat q
  | x => x

end IEEE

/-- Read of `buf[i]` through a `const float*`. -/
def readAt (buf : List IEEE) (i : Nat) : Except Fault IEEE :=
  match buf[i]? with
  | some v => .ok v
  | none => .error .readOutOfBounds

/-- Store `buf[i] = v` through a `float*`. -/
def writeAt (buf : List IEEE) (i : Nat) (v : IEEE) : Except Fault (List IEEE) :=
  if i < buf.length then .ok (buf.set i v) else .error .writeOutOfBounds

/-- Modelled from the spec: the encoding kinds of `media_raw_audio_format::format`. The host
header that gives the five constants their numbers is not part of the sources; `other` stands for
every code that is none of the five. -/
inductive AudioFormat where
  | B_AUDIO_FLOAT
  | B_AUDIO_INT
  | B_AUDIO_SHORT
  | B_AUDIO_CHAR
  | B_AUDIO_UCHAR
  | other (code : Nat)
  deriving DecidableEq, Repr

/-- Modelled from the spec: the host's `status_t` codes that the sources name. `other` stands for
any further error code a host call may return. -/
inductive status_t where
  | B_OK
  | B_ERROR
  | B_NO_INIT
  | B_NO_MEMORY
  | B_MISMATCHED_VALUES
  | B_DEVICE_NOT_FOUND
  | B_MEDIA_BAD_FORMAT
  | B_MEDIA_BAD_DESTINATION
  | B_MEDIA_BAD_SOURCE
  | other (code : Int)
  deriving DecidableEq, Repr

/-- The fields of `media_raw_audio_format` the sources read; `frame_rate` is a `float`. -/
structure media_raw_audio_format where
  frame_rate : IEEE
  channel_count : Nat
  format : AudioFormat
  deriving DecidableEq

/-- The bytes of one raw delivery, seen through the typed reads `processData` makes on them:
the value found at a byte offset when it is read as `float`, `int32`, `int16`, `int8` or
`uint8`. -/
structure RawData where
  asFloat : Nat → IEEE
  asInt32 : Nat → ℤ
  asInt16 : Nat → ℤ
  asInt8 : Nat → ℤ
  asUInt8 : Nat → ℕ

/-- One invocation of the user callback `mUserCallback(stereoData, frameCount, mUserData)`:
the `2 * frameCount` floats found at `stereoData` and the frame count. -/
structure CallbackCall where
  stereoData : List IEEE
  frameCount : Nat
  deriving DecidableEq

/-- The members of `class AudioCapture` that the embedded methods read or write.
`mUserCallback`, `mRoster` and `mRecorder` record whether the pointer is non-null. The two
rates are `float`s, the ratio and the carryover `double`s. -/
structure AudioCapture where
  mUserCallback : Bool
  mRoster : Bool
  mRecorder : Bool
  mDeviceSampleRate : IEEE
  mDeviceChannelCount : Nat
  mDeviceMediaFormatCode : AudioFormat
  mIsInitialized : Bool
  mIsRecording : Bool
  mLastStatus : status_t
  mDeviceFloatBuffer : List IEEE
  mResampledBuffer : List IEEE
  mTargetSampleRate : IEEE
  mResamplingRatio : IEEE
  mInputBufferOffset : IEEE
  deriving DecidableEq

/-- `int16ToFloat`, line 8: the sample is converted to `float` and divided by `32768.0f`. -/
def int16ToFloat (sample : ℤ) : IEEE := IEEE.div .roundFloat (.ofInt sample) 32768

/-- `int8ToFloat`, line 9. -/
def int8ToFloat (sample : ℤ) : IEEE := IEEE.div .roundFloat (.ofInt sample) 128

/-- `uint8ToFloat`, line 10: the byte is widened to `int16` before 128 is subtracted. -/
def uint8ToFloat (sample : ℕ) : IEEE :=
  IEEE.div .roundFloat (.ofInt ((sample : ℤ) - 128)) 128

/-- `int32ToFloat`, line 11: the conversion of the `int32` to `float` rounds it to 24
significant bits before the division. -/
def int32ToFloat (sample : ℤ) : IEEE := IEEE.div .roundFloat (.ofInt sample) 2147483648

/-- `getSampleSize`, lines 13-23. -/
def getSampleSize (formatCode : AudioFormat) : Nat :=
  match formatCode with
  | .B_AUDIO_FLOAT => 4
  | .B_AUDIO_INT => 4
  | .B_AUDIO_SHORT => 2
  | .B_AUDIO_CHAR => 1
  | .B_AUDIO_UCHAR => 1
  | .other _ => 0

/-- Answers of the allocator to the two `realloc` calls of `processData`. -/
structure AllocOutcome where
  deviceFloatBuffer : Bool
  resampledBuffer : Bool
  deriving DecidableEq

/-- Answers of the media roster to the calls of `initializeDevice`: whether `CurrentRoster()`
and `Roster(&status)` return a roster, the status the latter stores, the status of
`GetAudioInput`, whether the node it yields is `media_node::null`, the status and count of
`GetFreeOutputsFor`, and the raw-audio format of the free output. -/
structure DeviceHost where
  currentRoster : Bool
  roster : Bool
  rosterStatus : status_t
  getAudioInput : status_t
  audioInputNodeIsNull : Bool
  getFreeOutputsFor : status_t
  count : Int
  format : media_raw_audio_format
  deriving DecidableEq

/-- Answers of the host to the calls of `Start`: whether `new BMediaRecorder` yields an object,
the statuses of `InitCheck`, `SetHooks`, `GetFreeOutputsFor` (with its count), `Connect` and
`BMediaRecorder::Start`, whether the accepted format has type `B_MEDIA_RAW_AUDIO`, and its
raw-audio part. -/
structure StartHost where
  recorderAllocated : Bool
  initCheck : status_t
  setHooks : status_t
  getFreeOutputsFor : status_t
  count : Int
  connect : status_t
  acceptedIsRawAudio : Bool
  accepted : media_raw_audio_format
  recorderStart : status_t
  deriving DecidableEq

/-- The literal `1e-5` of lines 50, 110, 196 and 197: the `double` nearest to 1/100000, which is
`5902958103587057 / 2 ^ 69`. -/
def epsilon : IEEE := .fin (5902958103587057 / 590295810358705651712)

namespace AudioCapture

/-- Byte size of the decoded-stereo block. -/
def mDeviceFloatBufferSize (self : AudioCapture) : Nat := 4 * self.mDeviceFloatBuffer.length

/-- Byte size of the resampled-output block. -/
def mResampledBufferSize (self : AudioCapture) : Nat := 4 * self.mResampledBuffer.length

/-- The expression of lines 434-435: `static_cast<float>(s1 * (1.0 - alpha) + s2 * alpha)`, the
samples promoted to `double`. -/
def interpolate (s1 s2 alpha : IEEE) : IEEE :=
  IEEE.toFloat (IEEE.add .roundDouble (IEEE.mul .roundDouble s1 (IEEE.sub .roundDouble 1 alpha))
    (IEEE.mul .roundDouble s2 alpha))

/-- The `while (true)` loop of `linearResample`, lines 417-442. The state is the input position,
the output block and the output frame count; the result adds the position at loop exit.
`index1` is the floor of a `double` below `2 ^ 64`, hence at most `2 ^ 64 - 2048`, so that
`index1 + 1` does not wrap. -/
def resampleLoop (mResamplingRatio : IEEE) (inBuffer : List IEEE) (inFrameCount : Nat) :
    Nat → IEEE → List IEEE → Nat → Except Fault (List IEEE × Nat × IEEE)
  | 0, _, _, _ => .error .outOfFuel
  | fuel + 1, currentInputPos, outBuffer, outFrameCount => do
    let index1 ← (IEEE.floor currentInputPos).toSizeT
    let alpha : IEEE := IEEE.sub .roundDouble currentInputPos (.ofSizeT index1)
    if index1 + 1 ≥ inFrameCount then
      .ok (outBuffer, outFrameCount, currentInputPos)
    else do
      let s10 ← readAt inBuffer (index1 * 2 + 0)
      let s11 ← readAt inBuffer (index1 * 2 + 1)
      let s20 ← readAt inBuffer ((index1 + 1) * 2 + 0)
      let s21 ← readAt inBuffer ((index1 + 1) * 2 + 1)
      let outL : IEEE := interpolate s10 s20 alpha
      let outR : IEEE := interpolate s11 s21 alpha
      let outBuffer ← writeAt outBuffer (outFrameCount * 2 + 0) outL
      let outBuffer ← writeAt outBuffer (outFrameCount * 2 + 1) outR
      resampleLoop mResamplingRatio inBuffer inFrameCount fuel
        (IEEE.add .roundDouble currentInputPos mResamplingRatio) outBuffer (outFrameCount + 1)

/-- `AudioCapture::linearResample`, lines 407-446. Returns the session with the new
`mInputBufferOffset`, the output block and `outFrameCount`. -/
def linearResample (self : AudioCapture) (fuel : Nat) (outBuffer : List IEEE)
    (inBuffer : List IEEE) (inFrameCount : Nat) :
    Except Fault (AudioCapture × List IEEE × Nat) :=
  if inFrameCount = 0 then
    .ok (self, outBuffer, 0)
  else do
    let (outBuffer, outFrameCount, currentInputPos) ←
      resampleLoop self.mResamplingRatio inBuffer inFrameCount fuel self.mInputBufferOffset
        outBuffer 0
    let mInputBufferOffset : IEEE :=
      IEEE.sub .roundDouble currentInputPos (.ofSizeT inFrameCount)
    let mInputBufferOffset : IEEE := IEEE.fmax 0 mInputBufferOffset
    .ok ({ self with mInputBufferOffset := mInputBufferOffset }, outBuffer, outFrameCount)

/-- The `switch (inputFormat.format)` of lines 342-349 and again of lines 354-361: the sample at
byte offset `ptr` of the delivery, converted to float. -/
def convertSample (format : AudioFormat) (data : RawData) (ptr : Nat) : IEEE :=
  match format with
  | .B_AUDIO_FLOAT => data.asFloat ptr
  | .B_AUDIO_INT => int32ToFloat (data.asInt32 ptr)
  | .B_AUDIO_SHORT => int16ToFloat (data.asInt16 ptr)
  | .B_AUDIO_UCHAR => uint8ToFloat (data.asUInt8 ptr)
  | .B_AUDIO_CHAR => int8ToFloat (data.asInt8 ptr)
  | .other _ => 0

/-- Left channel of the frame at byte offset `framePtr`, lines 337-350. -/
def decodeLeft (inputFormat : media_raw_audio_format) (data : RawData) (framePtr : Nat) : IEEE :=
  if inputFormat.channel_count ≥ 1 then convertSample inputFormat.format data framePtr else 0

/-- Right channel of the frame at byte offset `framePtr`, lines 351-364. -/
def decodeRight (inputFormat : media_raw_audio_format) (data : RawData) (framePtr : Nat) :
    IEEE :=
  if inputFormat.channel_count ≥ 2 then
    convertSample inputFormat.format data (framePtr + getSampleSize inputFormat.format)
  else
    decodeLeft inputFormat data framePtr

/-- The conversion loop of `processData`, lines 336-368: `todo` frames remain, `i` is the loop
counter, the third argument is `mDeviceFloatBuffer`. -/
def decodeLoop (inputFormat : media_raw_audio_format) (data : RawData) (inputFrameSize : Nat) :
    Nat → Nat → List IEEE → Except Fault (List IEEE)
  | 0, _, deviceFloatData => .ok deviceFloatData
  | todo + 1, i, deviceFloatData => do
    let framePtr : Nat := i * inputFrameSize
    let left : IEEE := decodeLeft inputFormat data framePtr
    let right : IEEE := decodeRight inputFormat data framePtr
    let deviceFloatData ← writeAt deviceFloatData (i * 2 + 0) left
    let deviceFloatData ← writeAt deviceFloatData (i * 2 + 1) right
    decodeLoop inputFormat data inputFrameSize todo (i + 1) deviceFloatData

/-- A successful `realloc(block, newSize)`: the old floats are kept as far as they fit, fresh
floats (here `0`) follow. -/
def realloc (block : List IEEE) (newSize : Nat) : List IEEE :=
  (block ++ List.replicate (newSize / 4) 0).take (newSize / 4)

/-- Capacity in frames that `processData` computes for the output block, line 376:
`static_cast<size_t>(ceil((inputFrameCount + mInputBufferOffset) / mResamplingRatio)) + 2`. -/
def maxOutputFrames (self : AudioCapture) (inputFrameCount : Nat) : Except Fault Nat := do
  let frames ← (IEEE.ceil (IEEE.div .roundDouble
    (IEEE.add .roundDouble (.ofSizeT inputFrameCount) self.mInputBufferOffset)
    self.mResamplingRatio)).toSizeT
  .ok ((frames + 2) % 2 ^ 64)

/-- `AudioCapture::processData`, lines 298-404. The result is the session after the delivery and
the user callback invocations it made, in order. -/
def processData (self : AudioCapture) (fuel : Nat) (alloc : AllocOutcome)
    (data : Option RawData) (size : Nat) (inputFormat : media_raw_audio_format) :
    Except Fault (AudioCapture × List CallbackCall) :=
  match data with
  | none => .ok (self, [])
  | some data =>
    if self.mUserCallback = false ∨ size = 0 then .ok (self, [])
    else
      let inputChannels : Nat := inputFormat.channel_count
      let bytesPerSample : Nat := getSampleSize inputFormat.format
      if inputChannels = 0 ∨ bytesPerSample = 0 then .ok (self, [])
      else
        let inputFrameSize : Nat := inputChannels * bytesPerSample
        let inputFrameCount : Nat := size / inputFrameSize
        if inputFrameCount = 0 then .ok (self, [])
        else
          let deviceFloatChannels : Nat := 2
          let deviceFrameSize : Nat := deviceFloatChannels * 4
          let neededDeviceBufferSize : Nat := inputFrameCount * deviceFrameSize
          if self.mDeviceFloatBufferSize < neededDeviceBufferSize
              ∧ alloc.deviceFloatBuffer = false then .ok (self, [])
          else
            let newBuffer : List IEEE :=
              if self.mDeviceFloatBufferSize < neededDeviceBufferSize then
                realloc self.mDeviceFloatBuffer neededDeviceBufferSize
              else self.mDeviceFloatBuffer
            let self : AudioCapture := { self with mDeviceFloatBuffer := newBuffer }
            do
              let deviceFloatData ←
                decodeLoop inputFormat data inputFrameSize inputFrameCount 0
                  self.mDeviceFloatBuffer
              let self : AudioCapture := { self with mDeviceFloatBuffer := deviceFloatData }
              let resamplingNeeded : Bool := decide (self.mResamplingRatio ≠ 1)
              if resamplingNeeded then do
                let maxOutputFrames ← self.maxOutputFrames inputFrameCount
                let neededResampledBufferSize : Nat := (maxOutputFrames * deviceFrameSize) % 2 ^ 64
                if self.mResampledBufferSize < neededResampledBufferSize
                    ∧ alloc.resampledBuffer = false then .ok (self, [])
                else
                  let newBuffer : List IEEE :=
                    if self.mResampledBufferSize < neededResampledBufferSize then
                      realloc self.mResampledBuffer neededResampledBufferSize
                    else self.mResampledBuffer
                  let self : AudioCapture := { self with mResampledBuffer := newBuffer }
                  let (self, outBuffer, outputFramesAvailable) ←
                    self.linearResample fuel self.mResampledBuffer self.mDeviceFloatBuffer
                      inputFrameCount
                  let self : AudioCapture := { self with mResampledBuffer := outBuffer }
                  if self.mUserCallback ∧ outputFramesAvailable > 0 then
                    .ok (self, [⟨self.mResampledBuffer.take (2 * outputFramesAvailable),
                      outputFramesAvailable⟩])
                  else .ok (self, [])
              else
                if self.mUserCallback ∧ inputFrameCount > 0 then
                  .ok (self, [⟨self.mDeviceFloatBuffer.take (2 * inputFrameCount),
                    inputFrameCount⟩])
                else .ok (self, [])

/-- The block that sets the ratio, written out three times in the sources (lines 50-55, 110-115
and 197-202): the difference of the two rates is a `float`, the quotient a `double`. -/
def setResamplingRatio (self : AudioCapture) : AudioCapture :=
  if IEEE.lt 0 self.mTargetSampleRate ∧ IEEE.lt 0 self.mDeviceSampleRate
      ∧ IEEE.lt epsilon
        (IEEE.abs (IEEE.sub .roundFloat self.mTargetSampleRate self.mDeviceSampleRate)) then
    { self with
      mResamplingRatio := IEEE.div .roundDouble self.mDeviceSampleRate self.mTargetSampleRate }
  else
    { self with mTargetSampleRate := 0, mResamplingRatio := 1 }

/-- `AudioCapture::initializeDevice`, lines 68-118. -/
def initializeDevice (self : AudioCapture) (host : DeviceHost) : AudioCapture × status_t :=
  if host.currentRoster = false
      ∧ (host.roster = false ∨ host.rosterStatus ≠ .B_OK) then
    ({ self with mRoster := host.roster },
      if host.rosterStatus ≠ .B_OK then host.rosterStatus else .B_ERROR)
  else
    let self : AudioCapture := { self with mRoster := true }
    if host.getAudioInput ≠ .B_OK then (self, host.getAudioInput)
    else if host.audioInputNodeIsNull then (self, .B_DEVICE_NOT_FOUND)
    else if host.getFreeOutputsFor ≠ .B_OK ∨ host.count < 1 then
      (self, if host.getFreeOutputsFor ≠ .B_OK then host.getFreeOutputsFor else .B_ERROR)
    else
      let self : AudioCapture :=
        { self with
          mDeviceSampleRate := host.format.frame_rate
          mDeviceChannelCount := host.format.channel_count
          mDeviceMediaFormatCode := host.format.format }
      (setResamplingRatio self, .B_OK)

/-- The member initialisers of the constructor, lines 27-44. -/
def init (callback : Bool) (targetSampleRate : IEEE) : AudioCapture :=
  { mUserCallback := callback
    mRoster := false
    mRecorder := false
    mDeviceSampleRate := 0
    mDeviceChannelCount := 0
    mDeviceMediaFormatCode := .other 0
    mIsInitialized := false
    mIsRecording := false
    mLastStatus := .B_NO_INIT
    mDeviceFloatBuffer := []
    mResampledBuffer := []
    mTargetSampleRate := targetSampleRate
    mResamplingRatio := 1
    mInputBufferOffset := 0 }

/-- The constructor `AudioCapture::AudioCapture`, lines 26-59: the member initialisers, then
the body of lines 46-58. -/
def new (host : DeviceHost) (callback : Bool) (targetSampleRate : IEEE) : AudioCapture :=
  let result := (init callback targetSampleRate).initializeDevice host
  let self : AudioCapture := { result.1 with mLastStatus := result.2 }
  if self.mLastStatus = .B_OK then
    setResamplingRatio { self with mIsInitialized := true }
  else self

/-- `AudioCapture::cleanupMediaResources`, lines 239-254. -/
def cleanupMediaResources (self : AudioCapture) : AudioCapture :=
  if self.mRecorder = false then self else { self with mRecorder := false }

/-- `AudioCapture::cleanupBuffers`, lines 257-268. -/
def cleanupBuffers (self : AudioCapture) : AudioCapture :=
  { self with mDeviceFloatBuffer := [], mResampledBuffer := [], mInputBufferOffset := 0 }

/-- `AudioCapture::Stop`, lines 221-236. -/
def Stop (self : AudioCapture) : AudioCapture × status_t :=
  let self : AudioCapture := { self with mIsRecording := false }
  if self.mRecorder then
    let self := self.cleanupMediaResources
    let self := self.cleanupBuffers
    let self : AudioCapture := { self with mLastStatus := .B_OK }
    (self, self.mLastStatus)
  else
    (self.cleanupBuffers, .B_OK)

/-- `AudioCapture::Start`, lines 121-218. -/
def Start (self : AudioCapture) (host : StartHost) : AudioCapture × status_t :=
  if self.mIsRecording then (self, .B_OK)
  else if self.mIsInitialized = false then (self, self.mLastStatus)
  else
    let self : AudioCapture :=
      if self.mRecorder then self.cleanupMediaResources.cleanupBuffers else self
    if host.recorderAllocated = false then
      ({ self with mLastStatus := .B_NO_MEMORY }, .B_NO_MEMORY)
    else
      let self : AudioCapture := { self with mRecorder := true }
      if host.initCheck ≠ .B_OK then
        ({ self with mRecorder := false, mLastStatus := host.initCheck }, host.initCheck)
      else if host.setHooks ≠ .B_OK then
        ({ self with mRecorder := false, mLastStatus := host.setHooks }, host.setHooks)
      else if host.getFreeOutputsFor ≠ .B_OK ∨ host.count < 1 then
        let self := self.cleanupMediaResources
        let status : status_t :=
          if host.getFreeOutputsFor ≠ .B_OK then host.getFreeOutputsFor else .B_ERROR
        ({ self with mLastStatus := status }, status)
      else if host.connect ≠ .B_OK then
        let self := self.cleanupMediaResources
        ({ self with mLastStatus := host.connect }, host.connect)
      else if host.acceptedIsRawAudio = false then
        let self := self.Stop.1
        ({ self with mLastStatus := .B_MISMATCHED_VALUES }, .B_MISMATCHED_VALUES)
      else
        let oldDeviceRate : IEEE := self.mDeviceSampleRate
        let self : AudioCapture :=
          { self with
            mDeviceSampleRate := host.accepted.frame_rate
            mDeviceChannelCount := host.accepted.channel_count
            mDeviceMediaFormatCode := host.accepted.format }
        let self : AudioCapture :=
          if IEEE.lt epsilon
              (IEEE.abs (IEEE.sub .roundFloat oldDeviceRate self.mDeviceSampleRate)) then
            setResamplingRatio self
          else self
        let self : AudioCapture := { self with mInputBufferOffset := 0 }
        if host.recorderStart ≠ .B_OK then
          let self := self.Stop.1
          ({ self with mLastStatus := host.recorderStart }, host.recorderStart)
        else
          ({ self with mIsRecording := true, mLastStatus := .B_OK }, .B_OK)

/-- `AudioCapture::readCallbackC`, lines 271-278; `self` is the cookie, `formatIsRawAudio`
says whether `format.type == B_MEDIA_RAW_AUDIO`. -/
def readCallbackC (self : AudioCapture) (fuel : Nat) (alloc : AllocOutcome)
    (data : Option RawData) (size : Nat) (formatIsRawAudio : Bool)
    (raw_audio : media_raw_audio_format) : Except Fault (AudioCapture × List CallbackCall) :=
  if self.mIsRecording ∧ formatIsRawAudio then
    self.processData fuel alloc data size raw_audio
  else .ok (self, [])

/-- `AudioCapture::notifyCallbackC`, lines 280-295; `willStop` says whether the code is
`BMediaRecorder::B_WILL_STOP`. -/
def notifyCallbackC (self : AudioCapture) (willStop : Bool) : AudioCapture :=
  if willStop then
    if self.mIsRecording then { self with mIsRecording := false } else self
  else self

end AudioCapture
/-! ## `VideoConsumer` -/

/-- `kBufferCount`, `VideoConsumer.h` line 29. -/
def kBufferCount : Nat := 4

/-- Modelled from the spec: the run states of the host's `BMediaEventLooper`, whose header is not
part of the sources. -/
inductive run_state where
  | B_IN_DISTRESS
  | B_UNREGISTERED
  | B_STOPPED
  | B_STARTED
  | B_QUITTING
  | B_TERMINATED
  deriving DecidableEq, Repr

/-- The test `status >= B_OK` of `CreateBuffers`, line 151: `B_OK` is zero and every named
error code is negative. -/
def status_t.geOK : status_t → Bool
  | .B_OK => true
  | .other code => decide (code ≥ 0)
  | _ => false

/-- What the sources read of a host `BBuffer`: its `ID()` and the `start_time` of its header. -/
structure BBuffer where
  id : Int
  start_time : Int
  deriving DecidableEq, Repr

/-- What the sources read of a slot surface `BBitmap`: its `BitsLength()`. -/
structure BBitmap where
  bitsLength : Nat
  deriving DecidableEq, Repr

/-- The observable actions of the video node, in the order they are made:
`buffer->Recycle()` on a delivered buffer (by identity), `fBufferMap[index]->Recycle()` on the
buffer of a ring slot (slot index and identity), `memcpy` of `length` bytes from the delivered
payload into the surface of slot `index`, `snooze`, the frame callback on the surface of slot
`index`, adding a buffer event to the host's event queue, and `FlushEvents` on that queue. -/
inductive VideoAction where
  | recycle (id : Int)
  | recycleSlot (index : Nat) (id : Int)
  | memcpy (index : Nat) (length : Nat)
  | snooze (duration : Int)
  | frameCallback (index : Nat)
  | addEvent (id : Int)
  | flushEvents (time : Int)
  deriving DecidableEq, Repr

/-- The members of `class VideoConsumer` that the embedded methods read or write, with the
host's `RunState()`. The arrays `fBitmap` and `fBufferMap` are lists; `none` is a pointer
without a live pointee (null, or left dangling by `delete`). `fBuffers` and `fFrameCallback`
record whether the pointer is non-null. -/
structure VideoConsumer where
  runState : run_state
  fConnectionActive : Bool
  fOurBuffers : Bool
  fBuffers : Bool
  fBitmap : List (Option BBitmap)
  fBufferMap : List (Option BBuffer)
  fLastBufferIndex : Int
  fPerformanceTimeBase : Int
  fFrameCallback : Bool
  deriving DecidableEq

/-- Answers of the host while `CreateBuffers` builds one slot: the status of the bitmap's
`InitCheck`, of `get_area_info` and of `AddBuffer`, the surface created and the buffer that
`AddBuffer` yields. -/
structure SlotHost where
  bitmapInitCheck : status_t
  getAreaInfo : status_t
  addBuffer : status_t
  bitmap : BBitmap
  buffer : BBuffer
  deriving DecidableEq

/-- Answers of the host to one call of `CreateBuffers`: the status of the buffer group's
`InitCheck` and the answers for the slots, in order. -/
structure CreateHost where
  groupInitCheck : status_t
  slots : List SlotHost
  deriving DecidableEq

/-- The events `HandleEvent` distinguishes, with the fields it reads. -/
inductive media_timed_event where
  | B_START (event_time : Int)
  | B_WARP (bigdata : Int)
  | B_SEEK (bigdata : Int)
  | B_STOP (event_time : Int)
  | B_HANDLE_BUFFER (pointer : BBuffer)
  | other
  deriving DecidableEq

/-- Modelled from the spec: the kinds of `media_format::type` that `AcceptFormat` tells apart.
The host header that numbers them is not part of the sources; `other` stands for every kind
that is neither of the two. -/
inductive media_type where
  | B_MEDIA_NO_TYPE
  | B_MEDIA_RAW_VIDEO
  | other (code : Nat)
  deriving DecidableEq, Repr

/-- Modelled from the spec: the values of the host's `color_space`. `wildcard` is the value of
`media_raw_video_format::wildcard.display.format`; `space code` is every other value. The host
header that numbers them is not part of the sources. -/
inductive color_space where
  | wildcard
  | space (code : Nat)
  deriving DecidableEq, Repr

/-- The fields of `media_format` that `AcceptFormat` reads or writes: `type` and
`u.raw_video.display.format`. -/
structure media_format where
  type : media_type
  display_format : color_space
  deriving DecidableEq, Repr

/-- Modelled from the spec: the flag `B_VIEWS_SUPPORT_DRAW_BITMAP` of the host's graphics
header, which is not part of the sources. It is a single bit; the development uses of its value
only that it is not zero. -/
def B_VIEWS_SUPPORT_DRAW_BITMAP : Nat := 1

namespace VideoConsumer

/-- The constructor `VideoConsumer::VideoConsumer`, lines 14-38; the node is not registered
yet. -/
def new : VideoConsumer :=
  { runState := .B_UNREGISTERED
    fConnectionActive := false
    fOurBuffers := false
    fBuffers := false
    fBitmap := List.replicate kBufferCount none
    fBufferMap := List.replicate kBufferCount none
    fLastBufferIndex := -1
    fPerformanceTimeBase := 0
    fFrameCallback := false }

/-- `VideoConsumer::SetFrameCallback`, lines 48-53; `callback` says whether the pointer is
non-null. -/
def SetFrameCallback (self : VideoConsumer) (callback : Bool) : VideoConsumer :=
  { self with fFrameCallback := callback }

/-- `VideoConsumer::DeleteBuffers`, lines 189-208. Deleting the buffer group deletes its
buffers, so the entries of `fBufferMap` lose their pointees. -/
def DeleteBuffers (self : VideoConsumer) : VideoConsumer :=
  if self.fBuffers then
    let fLastBufferIndex : Int := if self.fLastBufferIndex ≥ 0 then -1 else self.fLastBufferIndex
    { self with
      fLastBufferIndex := fLastBufferIndex
      fBuffers := false
      fBufferMap := self.fBufferMap.map (fun _ => none)
      fBitmap := self.fBitmap.map (fun _ => none) }
  else self

/-- The slot loop of `CreateBuffers`, lines 145-183: `todo` is `kBufferCount - i`. When the
loop ends `status` is `B_OK`, the status of the last `AddBuffer` (or of the group's
`InitCheck`). -/
def createSlots (host : CreateHost) : Nat → Nat → VideoConsumer → VideoConsumer × status_t
  | 0, _, self => (self, .B_OK)
  | todo + 1, i, self =>
    match host.slots[i]? with
    | none => (self, .B_ERROR)
    | some slot =>
      let self : VideoConsumer := { self with fBitmap := self.fBitmap.set i (some slot.bitmap) }
      if slot.bitmapInitCheck.geOK then
        if slot.getAreaInfo ≠ .B_OK then (self, slot.getAreaInfo)
        else if slot.addBuffer ≠ .B_OK then (self, slot.addBuffer)
        else
          let self : VideoConsumer :=
            { self with fBufferMap := self.fBufferMap.set i (some slot.buffer) }
          createSlots host todo (i + 1) self
      else (self, slot.bitmapInitCheck)

/-- `VideoConsumer::CreateBuffers`, lines 128-186. -/
def CreateBuffers (self : VideoConsumer) (host : CreateHost) : VideoConsumer × status_t :=
  let self := self.DeleteBuffers
  let self : VideoConsumer := { self with fBuffers := true }
  if host.groupInitCheck ≠ .B_OK then (self, host.groupInitCheck)
  else createSlots host kBufferCount 0 self

/-- `VideoConsumer::Connected`, lines 211-242. -/
def Connected (self : VideoConsumer) (host : CreateHost) : VideoConsumer × status_t :=
  let result := self.CreateBuffers host
  if result.2 = .B_OK then
    ({ result.1 with fConnectionActive := true }, .B_OK)
  else result

/-- `VideoConsumer::FormatChanged`, lines 340-354; the two flags say whether `consumer` is the
node's destination and `producer` its source. -/
def FormatChanged (self : VideoConsumer) (consumerMatches producerMatches : Bool)
    (host : CreateHost) : VideoConsumer × status_t :=
  if consumerMatches = false then (self, .B_MEDIA_BAD_DESTINATION)
  else if producerMatches = false then (self, .B_MEDIA_BAD_SOURCE)
  else self.CreateBuffers host

/-- `VideoConsumer::BufferReceived`, lines 105-116. -/
def BufferReceived (self : VideoConsumer) (buffer : BBuffer) : VideoConsumer × List VideoAction :=
  if self.runState = .B_STOPPED then (self, [.recycle buffer.id])
  else (self, [.addEvent buffer.id])

/-- The search loop of `_HandleBuffer`, lines 401-406: `todo` is `kBufferCount - index`. -/
def findSlot (fBufferMap : List (Option BBuffer)) (bufferID : Int) : Nat → Nat → Except Fault Nat
  | 0, index => .ok index
  | todo + 1, index =>
    match fBufferMap[index]? with
    | some (some slot) =>
      if bufferID = slot.id then .ok index
      else findSlot fBufferMap bufferID todo (index + 1)
    | _ => .error .nullDereference

/-- `VideoConsumer::_HandleBuffer`, lines 391-441; `now` is the answer of
`TimeSource()->Now()`. Returns the node afterwards and the actions made. The member
`fOurBuffers` is a local until it is stored at the end; `fLastBufferIndex + 1` is converted to
`unsigned` (modulo 2^32) before `% kBufferCount`. -/
def _HandleBuffer (self : VideoConsumer) (now : Int) (buffer : BBuffer) :
    Except Fault (VideoConsumer × List VideoAction) :=
  if self.runState ≠ .B_STARTED ∨ self.fConnectionActive = false then
    .ok (self, [.recycle buffer.id])
  else do
    let fOurBuffers : Bool := true
    let index ← findSlot self.fBufferMap buffer.id kBufferCount 0
    let fOurBuffers : Bool := if index = kBufferCount then false else fOurBuffers
    let index : Nat :=
      if index = kBufferCount then
        (((self.fLastBufferIndex + 1) % 4294967296) % (kBufferCount : Int)).toNat
      else index
    let recycle : Bool := true
    let copy : List VideoAction ←
      if fOurBuffers = false then
        match self.fBitmap[index]? with
        | some (some bitmap) => .ok [VideoAction.memcpy index bitmap.bitsLength]
        | _ => .error .nullDereference
      else .ok []
    let tooEarly : Int := buffer.start_time - now
    let wait : List VideoAction := if tooEarly > 3000 then [.snooze tooEarly] else []
    let call : List VideoAction := if self.fFrameCallback then [.frameCallback index] else []
    let release : List VideoAction ←
      if fOurBuffers then
        if self.fLastBufferIndex ≥ 0 then
          match self.fBufferMap[self.fLastBufferIndex.toNat]? with
          | some (some slot) =>
            .ok [VideoAction.recycleSlot self.fLastBufferIndex.toNat slot.id]
          | _ => .error .nullDereference
        else .ok []
      else .ok []
    let recycle : Bool := if fOurBuffers then false else recycle
    .ok ({ self with fOurBuffers := fOurBuffers, fLastBufferIndex := index },
      copy ++ wait ++ call ++ release
      ++ (if recycle then [VideoAction.recycle buffer.id] else []))

/-- `VideoConsumer::_UnsetTargetBuffer`, lines 444-454. -/
def _UnsetTargetBuffer (self : VideoConsumer) : Except Fault (VideoConsumer × List VideoAction) :=
  if self.fLastBufferIndex ≥ 0 then do
    let release : List VideoAction ←
      if self.fOurBuffers then
        match self.fBufferMap[self.fLastBufferIndex.toNat]? with
        | some (some slot) =>
          .ok [VideoAction.recycleSlot self.fLastBufferIndex.toNat slot.id]
        | _ => .error .nullDereference
      else .ok []
    .ok ({ self with fLastBufferIndex := -1 }, release)
  else .ok (self, [])

/-- `VideoConsumer::Disconnected`, lines 245-267; the flag says whether `where` and `producer`
are the node's destination and source. -/
def Disconnected (self : VideoConsumer) (endpointsMatch : Bool) :
    Except Fault (VideoConsumer × List VideoAction) :=
  if endpointsMatch = false then .ok (self, [])
  else _UnsetTargetBuffer { self with fConnectionActive := false }

/-- `VideoConsumer::HandleEvent`, lines 357-381; `now` is the answer of
`TimeSource()->Now()` should a buffer be handled. -/
def HandleEvent (self : VideoConsumer) (now : Int) (event : media_timed_event) :
    Except Fault (VideoConsumer × List VideoAction) :=
  match event with
  | .B_START event_time => .ok ({ self with fPerformanceTimeBase := event_time }, [])
  | .B_WARP bigdata => .ok ({ self with fPerformanceTimeBase := bigdata }, [])
  | .B_SEEK bigdata => .ok ({ self with fPerformanceTimeBase := bigdata }, [])
  | .B_STOP event_time => do
    let (self, released) ← self._UnsetTargetBuffer
    .ok (self, VideoAction.flushEvents event_time :: released)
  | .B_HANDLE_BUFFER pointer => self._HandleBuffer now pointer
  | .other => .ok (self, [])

/-- A run of the event loop: the events are handled in order, each buffer event with the clock
reading paired with it; the actions are collected in order. -/
def handleEvents : VideoConsumer → List (Int × media_timed_event) →
    Except Fault (VideoConsumer × List VideoAction)
  | self, [] => .ok (self, [])
  | self, (now, event) :: rest => do
    let (self, first) ← self.HandleEvent now event
    let (self, later) ← handleEvents self rest
    .ok (self, first ++ later)

/-- `VideoConsumer::AcceptFormat`, lines 270-303. `destMatches` says whether `dest` is
`fIn.destination`; `bitmaps_support_space` is the host function of that name, giving its result
and the flags it stores. The result is the format as the method leaves it and the status.
Line 296 reads `flags & B_VIEWS_SUPPORT_DRAW_BITMAP == 0`; in C++ `==` binds tighter than `&`,
so the condition is `flags & (B_VIEWS_SUPPORT_DRAW_BITMAP == 0)`, the comparison being 1 or 0. -/
def AcceptFormat (destMatches : Bool) (bitmaps_support_space : color_space → Bool × Nat)
    (format : media_format) : media_format × status_t :=
  if destMatches = false then (format, .B_MEDIA_BAD_DESTINATION)
  else
    let format : media_format :=
      if format.type = .B_MEDIA_NO_TYPE then { format with type := .B_MEDIA_RAW_VIDEO }
      else format
    if format.type ≠ .B_MEDIA_RAW_VIDEO then (format, .B_MEDIA_BAD_FORMAT)
    else if format.display_format ≠ .wildcard then
      let answer := bitmaps_support_space format.display_format
      let supported : Bool := answer.1
      let flags : Nat := answer.2
      if supported = false then (format, .B_MEDIA_BAD_FORMAT)
      else if (flags &&& (if B_VIEWS_SUPPORT_DRAW_BITMAP = 0 then 1 else 0)) ≠ 0 then
        (format, .B_MEDIA_BAD_FORMAT)
      else (format, .B_OK)
    else (format, .B_OK)

end VideoConsumer

/-- Whether an action is a `memcpy` into a slot surface. -/
def VideoAction.isMemcpy : VideoAction → Bool
  | .memcpy _ _ => true
  | _ => false

/-- The identity of the buffer an action gives back to the host, if it is a release. -/
def VideoAction.released : VideoAction → Option Int
  | .recycle id => some id
  | .recycleSlot _ id => some id
  | _ => none

/-- Whether an action gives a buffer back to the host (either `Recycle()` call). -/
def VideoAction.isRelease (a : VideoAction) : Bool := a.released.isSome

/-- Whether an action is an invocation of the frame callback. -/
def VideoAction.isFrameCallback : VideoAction → Bool
  | .frameCallback _ => true
  | _ => false

/-- The states a session can be in: the state the constructor leaves, and every state reached
from such a state by `Start`, `Stop`, the host's notification or a raw delivery that returns. -/
inductive AudioCapture.Reachable (host : DeviceHost) (callback : Bool) (target : IEEE) :
    AudioCapture → Prop where
  | construct : Reachable host callback target (AudioCapture.new host callback target)
  | start (s : AudioCapture) (answers : StartHost) :
    Reachable host callback target s → Reachable host callback target (s.Start answers).1
  | stop (s : AudioCapture) :
    Reachable host callback target s → Reachable host callback target s.Stop.1
  | notify (s : AudioCapture) (willStop : Bool) :
    Reachable host callback target s →
    Reachable host callback target (s.notifyCallbackC willStop)
  | deliver (s s1 : AudioCapture) (fuel : Nat) (alloc : AllocOutcome) (data : Option RawData)
      (size : Nat) (formatIsRawAudio : Bool) (raw_audio : media_raw_audio_format)
      (calls : List CallbackCall) :
    Reachable host callback target s →
    s.readCallbackC fuel alloc data size formatIsRawAudio raw_audio = .ok (s1, calls) →
    Reachable host callback target s1

/-! ## Specification-side helpers for the resampler -/

/-- A number of the form `m * 2 ^ e` with `|m| < 2 ^ prec` and `emin ≤ e`: a finite binary
floating-point number with `prec` significant bits and least exponent `emin`. -/
def Representable (prec : ℕ) (emin : ℤ) (x : ℚ) : Prop :=
  ∃ m e : ℤ, |m| < 2 ^ prec ∧ emin ≤ e ∧ x = m * 2 ^ e

/-- The index `static_cast<size_t>(floor(pos))` of a position for which it is defined. -/
def IEEE.index : IEEE → ℕ
  | .fin q => ⌊q⌋₊
  | _ => 0

/-- The position is a finite value in `[0, 2 ^ 64)` and the loop test `index1 + 1 >= n` is
false: the loop emits a frame at this position. -/
def Continues (n : ℕ) (pos : IEEE) : Prop :=
  ∃ q : ℚ, pos = .fin q ∧ 0 ≤ q ∧ q < 2 ^ 64 ∧ ⌊q⌋₊ + 1 < n

/-- The position is a finite value in `[0, 2 ^ 64)` and the loop test `index1 + 1 >= n` is
true: the loop exits at this position. -/
def Stops (n : ℕ) (pos : IEEE) : Prop :=
  ∃ q : ℚ, pos = .fin q ∧ 0 ≤ q ∧ q < 2 ^ 64 ∧ n ≤ ⌊q⌋₊ + 1

/-- The input position after `k` iterations: `off`, then `k` times `pos += ratio` in `double`
arithmetic. -/
def posSeq (ratio off : IEEE) : ℕ → IEEE
  | 0 => off
  | k + 1 => IEEE.add .roundDouble (posSeq ratio off k) ratio

/-- The stereo frame that the loop body computes at the input position `pos`: with
`i = floor(pos)` and `alpha = pos - i` in `double` arithmetic, channel by channel the `float`
`interpolate in[i] in[i+1] alpha`. -/
def interpAt (inBuffer : List IEEE) (pos : IEEE) : List IEEE :=
  [AudioCapture.interpolate (inBuffer.getD (pos.index * 2) 0)
      (inBuffer.getD ((pos.index + 1) * 2) 0)
      (IEEE.sub .roundDouble pos (.ofSizeT pos.index)),
   AudioCapture.interpolate (inBuffer.getD (pos.index * 2 + 1) 0)
      (inBuffer.getD ((pos.index + 1) * 2 + 1) 0)
      (IEEE.sub .roundDouble pos (.ofSizeT pos.index))]

/-- The frames at the `m` positions `pos, pos + ratio, (pos + ratio) + ratio, ...`, interleaved. -/
def interpRun (inBuffer : List IEEE) (ratio : IEEE) : IEEE → Nat → List IEEE
  | _, 0 => []
  | pos, m + 1 =>
    interpAt inBuffer pos ++ interpRun inBuffer ratio (IEEE.add .roundDouble pos ratio) m

/-- The floats the conversion loop stores for the `todo` frames `i, i + 1, ...`: left and right
channel of each frame, interleaved. -/
def decodedFrames (inputFormat : media_raw_audio_format) (data : RawData)
    (inputFrameSize : Nat) : Nat → Nat → List IEEE
  | _, 0 => []
  | i, todo + 1 =>
    [AudioCapture.decodeLeft inputFormat data (i * inputFrameSize),
      AudioCapture.decodeRight inputFormat data (i * inputFrameSize)]
      ++ decodedFrames inputFormat data inputFrameSize (i + 1) todo

/-- A running session with the given ratio and carryover, device rate 48000, empty blocks. -/
def sessionWith (ratio offset : ℚ) : AudioCapture :=
  { mUserCallback := true
    mRoster := true
    mRecorder := true
    mDeviceSampleRate := 48000
    mDeviceChannelCount := 2
    mDeviceMediaFormatCode := .B_AUDIO_SHORT
    mIsInitialized := true
    mIsRecording := true
    mLastStatus := .B_OK
    mDeviceFloatBuffer := []
    mResampledBuffer := []
    mTargetSampleRate := .fin (48000 / ratio)
    mResamplingRatio := .fin ratio
    mInputBufferOffset := .fin offset }

/-- A delivery whose bytes, read at offset `p` in any of the five encodings, give the value `p`. -/
def rampData : RawData :=
  { asFloat := fun p => .fin (p : ℚ)
    asInt32 := fun p => (p : ℤ)
    asInt16 := fun p => (p : ℤ)
    asInt8 := fun p => (p : ℤ)
    asUInt8 := fun p => p }

/-- A delivery all of whose bytes are zero. -/
def zeroData : RawData :=
  { asFloat := fun _ => 0
    asInt32 := fun _ => 0
    asInt16 := fun _ => 0
    asInt8 := fun _ => 0
    asUInt8 := fun _ => 0 }

/-- The raw-audio format unsigned-8, one channel, 48 kHz. -/
def monoUChar : media_raw_audio_format :=
  { frame_rate := 48000, channel_count := 1, format := .B_AUDIO_UCHAR }

/-- The raw-audio format signed-16, two channels, 48 kHz. -/
def stereoShort : media_raw_audio_format :=
  { frame_rate := 48000, channel_count := 2, format := .B_AUDIO_SHORT }

/-- A host on which `initializeDevice` succeeds: a roster, an input node and one free output
whose format is signed-16 stereo at the given rate. -/
def okDeviceHost (rate : IEEE) : DeviceHost :=
  { currentRoster := true
    roster := true
    rosterStatus := .B_OK
    getAudioInput := .B_OK
    audioInputNodeIsNull := false
    getFreeOutputsFor := .B_OK
    count := 1
    format := { frame_rate := rate, channel_count := 2, format := .B_AUDIO_SHORT } }

/-- A host on which every call of `Start` succeeds and the connection negotiates signed-16
stereo at the given rate. -/
def okStartHost (rate : IEEE) : StartHost :=
  { recorderAllocated := true
    initCheck := .B_OK
    setHooks := .B_OK
    getFreeOutputsFor := .B_OK
    count := 1
    connect := .B_OK
    acceptedIsRawAudio := true
    accepted := { frame_rate := rate, channel_count := 2, format := .B_AUDIO_SHORT }
    recorderStart := .B_OK }
/-- A started, connected node with a callback installed and its ring constructed: four
surfaces of 1024 bytes and the four ring buffers with identities 100 to 103. -/
def ringNode (fLastBufferIndex : Int) (fOurBuffers : Bool) : VideoConsumer :=
  { runState := .B_STARTED
    fConnectionActive := true
    fOurBuffers := fOurBuffers
    fBuffers := true
    fBitmap := [some ⟨1024⟩, some ⟨1024⟩, some ⟨1024⟩, some ⟨1024⟩]
    fBufferMap := [some ⟨100, 0⟩, some ⟨101, 0⟩, some ⟨102, 0⟩, some ⟨103, 0⟩]
    fLastBufferIndex := fLastBufferIndex
    fPerformanceTimeBase := 0
    fFrameCallback := true }

/-- A host on which `CreateBuffers` succeeds: four surfaces of 1024 bytes and the buffers with
identities 100 to 103. -/
def okCreateHost : CreateHost :=
  { groupInitCheck := .B_OK
    slots := [⟨.B_OK, .B_OK, .B_OK, ⟨1024⟩, ⟨100, 0⟩⟩, ⟨.B_OK, .B_OK, .B_OK, ⟨1024⟩, ⟨101, 0⟩⟩,
      ⟨.B_OK, .B_OK, .B_OK, ⟨1024⟩, ⟨102, 0⟩⟩, ⟨.B_OK, .B_OK, .B_OK, ⟨1024⟩, ⟨103, 0⟩⟩] }

/-- A host on which the buffer group of `CreateBuffers` fails its `InitCheck`. -/
def failedCreateHost : CreateHost :=
  { groupInitCheck := .B_ERROR
    slots := [] }

/-- A host on which every roster call succeeds and the free output reports a zero-valued
format: rate 0, no channel, an encoding of unknown sample size. -/
def invalidDeviceHost : DeviceHost :=
  { currentRoster := true
    roster := true
    rosterStatus := .B_OK
    getAudioInput := .B_OK
    audioInputNodeIsNull := false
    getFreeOutputsFor := .B_OK
    count := 1
    format := { frame_rate := 0, channel_count := 0, format := .other 0 } }

/-- A host whose `bitmaps_support_space` supports every colour space for bitmaps and reports no
flag at all: no view can draw such bitmaps. -/
def undrawableSupport : color_space → Bool × Nat := fun _ => (true, 0)

/-- A delivery whose bytes, read in any of the integer encodings, give the largest value of the
encoding, and read as `float` give 1. -/
def fullScaleData : RawData :=
  { asFloat := fun _ => 1
    asInt32 := fun _ => 2147483647
    asInt16 := fun _ => 32767
    asInt8 := fun _ => 127
    asUInt8 := fun _ => 255 }

/-- The test of the block that sets the ratio (lines 50, 110 and 197): the target rate is
`> 0`, the device rate is `> 0`, and `fabsf(target - device) > 1e-5`. -/
def ResamplingWanted (target device : IEEE) : Prop :=
  IEEE.lt 0 target = true ∧ IEEE.lt 0 device = true
    ∧ IEEE.lt epsilon (IEEE.abs (IEEE.sub .roundFloat target device)) = true

instance ResamplingWanted.instDecidable (target device : IEEE) :
    Decidable (ResamplingWanted target device) := by
  unfold ResamplingWanted
  infer_instance

/-- The test of line 196: `fabsf(oldDeviceRate - mDeviceSampleRate) > 1e-5`. -/
def RateChanged (oldDeviceRate deviceRate : IEEE) : Prop :=
  IEEE.lt epsilon (IEEE.abs (IEEE.sub .roundFloat oldDeviceRate deviceRate)) = true

instance RateChanged.instDecidable (oldDeviceRate deviceRate : IEEE) :
    Decidable (RateChanged oldDeviceRate deviceRate) := by
  unfold RateChanged
  infer_instance

/-- The calls of `Start` get as far as the format of the connection (line 191): the session is
initialised and not recording, the recorder is created and hooked, a free output is found, the
connection is made and its format is raw audio. -/
def Negotiates (s : AudioCapture) (host : StartHost) : Prop :=
  s.mIsRecording = false ∧ s.mIsInitialized = true ∧ host.recorderAllocated = true
    ∧ host.initCheck = .B_OK ∧ host.setHooks = .B_OK ∧ host.getFreeOutputsFor = .B_OK
    ∧ 1 ≤ host.count ∧ host.connect = .B_OK ∧ host.acceptedIsRawAudio = true

instance Negotiates.instDecidable (s : AudioCapture) (host : StartHost) :
    Decidable (Negotiates s host) := by
  unfold Negotiates
  infer_instance

/-! ## Lemmas -/

/-! ### Rounding -/

theorem roundHalfEven_sub_le (y : ℚ) : |(roundHalfEven y : ℚ) - y| ≤ 1 / 2 := by
  have h1 := Int.floor_le y
  have h2 := Int.lt_floor_add_one y
  unfold roundHalfEven
  rw [abs_le]
  split_ifs <;> push_cast <;> constructor <;> linarith

theorem roundHalfEven_eq (y : ℚ) (m : ℤ) (h : |y - m| < 1 / 2) : roundHalfEven y = m := by
  have h1 := roundHalfEven_sub_le y
  rw [abs_le] at h1
  rw [abs_lt] at h
  have h3 : ((roundHalfEven y : ℤ) : ℚ) < m + 1 := by linarith
  have h4 : (m : ℚ) < roundHalfEven y + 1 := by linarith
  have h5 : roundHalfEven y < m + 1 := by exact_mod_cast h3
  have h6 : m < roundHalfEven y + 1 := by exact_mod_cast h4
  omega

theorem roundHalfEven_intCast (n : ℤ) : roundHalfEven n = n :=
  roundHalfEven_eq _ n (by simp)

theorem roundHalfEven_tie (m : ℤ) : roundHalfEven ((m : ℚ) + 1 / 2)
    = if m % 2 = 0 then m else m + 1 := by
  have hf : ⌊(m : ℚ) + 1 / 2⌋ = m := by
    rw [Int.floor_eq_iff]
    constructor <;> linarith
  unfold roundHalfEven
  rw [hf]
  simp

theorem roundHalfEven_le (y : ℚ) (n : ℤ) (h : y ≤ n) : roundHalfEven y ≤ n := by
  by_contra hc
  have h1 := roundHalfEven_sub_le y
  rw [abs_le] at h1
  have h2 : n + 1 ≤ roundHalfEven y := by omega
  have h3 : ((n : ℚ) + 1) ≤ roundHalfEven y := by exact_mod_cast h2
  linarith

theorem le_roundHalfEven (y : ℚ) (n : ℤ) (h : (n : ℚ) ≤ y) : n ≤ roundHalfEven y := by
  by_contra hc
  have h1 := roundHalfEven_sub_le y
  rw [abs_le] at h1
  have h2 : roundHalfEven y + 1 ≤ n := by omega
  have h3 : ((roundHalfEven y : ℚ) + 1) ≤ n := by exact_mod_cast h2
  linarith

theorem intLog_two_eq (x : ℚ) (L : ℤ) (h1 : (2 : ℚ) ^ L ≤ x) (h2 : x < 2 ^ (L + 1)) :
    Int.log 2 x = L := by
  have hx : 0 < x := lt_of_lt_of_le (by positivity) h1
  have a : L ≤ Int.log 2 x := by
    rw [← Int.zpow_le_iff_le_log (by norm_num) hx]
    simpa using h1
  have b : Int.log 2 x < L + 1 := by
    rw [← Int.lt_zpow_iff_log_lt (by norm_num) hx]
    simpa using h2
  omega

theorem intLog_two_bounds (x : ℚ) (hx : 0 < x) :
    (2 : ℚ) ^ Int.log 2 x ≤ x ∧ x < 2 ^ (Int.log 2 x + 1) := by
  have a := Int.zpow_log_le_self (b := 2) (r := x) (by norm_num) hx
  have b := Int.lt_zpow_succ_log_self (b := 2) (by norm_num) x
  constructor
  · simpa using a
  · simpa using b

theorem quantum_eq (prec : ℕ) (emin : ℤ) (x : ℚ) (L : ℤ) (h1 : (2 : ℚ) ^ L ≤ |x|)
    (h2 : |x| < 2 ^ (L + 1)) : quantum prec emin x = max (L - ((prec : ℤ) - 1)) emin := by
  unfold quantum
  rw [intLog_two_eq |x| L h1 h2]

theorem roundTo_eq (prec : ℕ) (emin : ℤ) (x : ℚ) (L m : ℤ) (h1 : (2 : ℚ) ^ L ≤ |x|)
    (h2 : |x| < 2 ^ (L + 1))
    (hm : roundHalfEven (x / 2 ^ max (L - ((prec : ℤ) - 1)) emin) = m) :
    roundTo prec emin x = m * 2 ^ max (L - ((prec : ℤ) - 1)) emin := by
  unfold roundTo
  rw [quantum_eq prec emin x L h1 h2, hm]

theorem roundTo_zero (prec : ℕ) (emin : ℤ) : roundTo prec emin 0 = 0 := by
  unfold roundTo
  rw [zero_div]
  have := roundHalfEven_intCast 0
  simp only [Int.cast_zero] at this
  rw [this]
  simp

theorem quantum_le (prec : ℕ) (emin : ℤ) (x : ℚ) (E : ℤ) (hE : emin ≤ E) (hne : x ≠ 0)
    (hx : |x| < 2 ^ (E + (prec : ℤ))) : quantum prec emin x ≤ E := by
  unfold quantum
  apply max_le _ hE
  have hpos : 0 < |x| := abs_pos.2 hne
  have b : Int.log 2 |x| < E + (prec : ℤ) := by
    rw [← Int.lt_zpow_iff_log_lt (by norm_num) hpos]
    simpa using hx
  omega

theorem roundTo_sub (prec : ℕ) (emin : ℤ) (x : ℚ) :
    |roundTo prec emin x - x| ≤ 2 ^ quantum prec emin x / 2 := by
  unfold roundTo
  have hq : (0 : ℚ) < 2 ^ quantum prec emin x := by positivity
  have h := roundHalfEven_sub_le (x / 2 ^ quantum prec emin x)
  have e : (roundHalfEven (x / 2 ^ quantum prec emin x) : ℚ) * 2 ^ quantum prec emin x - x
      = ((roundHalfEven (x / 2 ^ quantum prec emin x) : ℚ) - x / 2 ^ quantum prec emin x)
        * 2 ^ quantum prec emin x := by
    field_simp
  rw [e, abs_mul, abs_of_pos hq]
  calc _ ≤ 1 / 2 * 2 ^ quantum prec emin x := mul_le_mul_of_nonneg_right h hq.le
    _ = _ := by ring

/-- The rounding error is at most half a unit in the last place of the binade `2 ^ E`. -/
theorem roundTo_sub_le (prec : ℕ) (emin : ℤ) (x : ℚ) (E : ℤ) (hE : emin ≤ E)
    (hx : |x| < 2 ^ (E + (prec : ℤ))) : |roundTo prec emin x - x| ≤ 2 ^ E / 2 := by
  rcases eq_or_ne x 0 with rfl | hne
  · rw [roundTo_zero]
    simp only [sub_zero, abs_zero]
    positivity
  · have h := roundTo_sub prec emin x
    have hq := quantum_le prec emin x E hE hne hx
    have : (2 : ℚ) ^ quantum prec emin x ≤ 2 ^ E := zpow_le_zpow_right₀ (by norm_num) hq
    linarith

theorem roundTo_of_int_mul (prec : ℕ) (emin : ℤ) (m e : ℤ) (hm : |m| < 2 ^ prec)
    (he : emin ≤ e) : roundTo prec emin ((m : ℚ) * 2 ^ e) = (m : ℚ) * 2 ^ e := by
  rcases eq_or_ne m 0 with rfl | hm0
  · simp [roundTo_zero]
  have h2e : (0 : ℚ) < 2 ^ e := by positivity
  have hne : (m : ℚ) * 2 ^ e ≠ 0 := by
    have : (m : ℚ) ≠ 0 := by exact_mod_cast hm0
    positivity
  have hlt : |(m : ℚ) * 2 ^ e| < 2 ^ (e + (prec : ℤ)) := by
    rw [abs_mul, abs_of_pos h2e, zpow_add₀ (by norm_num), mul_comm]
    apply mul_lt_mul_of_pos_left _ h2e
    have : ((|m| : ℤ) : ℚ) < ((2 ^ prec : ℤ) : ℚ) := by exact_mod_cast hm
    simpa using this
  have hq := quantum_le prec emin _ e he hne hlt
  unfold roundTo
  generalize quantum prec emin ((m : ℚ) * 2 ^ e) = q at hq ⊢
  obtain ⟨d, hd⟩ : ∃ d : ℕ, e = q + d := ⟨(e - q).toNat, by omega⟩
  have hpow : (2 : ℚ) ^ e = 2 ^ q * 2 ^ d := by
    rw [hd, zpow_add₀ (by norm_num), zpow_natCast]
  have hq0 : (2 : ℚ) ^ q ≠ 0 := by positivity
  have hy : (m : ℚ) * 2 ^ e / 2 ^ q = ((m * 2 ^ d : ℤ) : ℚ) := by
    rw [div_eq_iff hq0, hpow]
    push_cast
    ring
  rw [hy, roundHalfEven_intCast, hpow]
  push_cast
  ring

theorem roundTo_of_representable (prec : ℕ) (emin : ℤ) (x : ℚ)
    (h : Representable prec emin x) : roundTo prec emin x = x := by
  obtain ⟨m, e, hm, he, rfl⟩ := h
  exact roundTo_of_int_mul prec emin m e hm he

theorem roundTo_abs_le (prec : ℕ) (emin : ℤ) (x : ℚ) (E : ℤ) (hp : 1 ≤ prec) (hE : emin ≤ E)
    (hx : |x| ≤ 2 ^ E) : |roundTo prec emin x| ≤ 2 ^ E := by
  rcases eq_or_ne x 0 with rfl | hne
  · rw [roundTo_zero, abs_zero]
    positivity
  have hlt : |x| < 2 ^ (E + (prec : ℤ)) := by
    apply lt_of_le_of_lt hx
    apply zpow_lt_zpow_right₀ (by norm_num)
    have : (1 : ℤ) ≤ (prec : ℤ) := by exact_mod_cast hp
    omega
  have hq := quantum_le prec emin x E hE hne hlt
  unfold roundTo
  generalize quantum prec emin x = q at hq ⊢
  obtain ⟨d, hd⟩ : ∃ d : ℕ, E = q + d := ⟨(E - q).toNat, by omega⟩
  have hpow : (2 : ℚ) ^ E = 2 ^ q * 2 ^ d := by
    rw [hd, zpow_add₀ (by norm_num), zpow_natCast]
  have hq0 : (0 : ℚ) < 2 ^ q := by positivity
  rw [abs_le] at hx
  have h1 : x / 2 ^ q ≤ ((2 ^ d : ℤ) : ℚ) := by
    rw [div_le_iff₀ hq0]
    push_cast
    linarith
  have h2 : ((-(2 ^ d) : ℤ) : ℚ) ≤ x / 2 ^ q := by
    rw [le_div_iff₀ hq0]
    push_cast
    linarith
  have h3 := roundHalfEven_le _ _ h1
  have h4 := le_roundHalfEven _ _ h2
  have h5 : ((roundHalfEven (x / 2 ^ q) : ℤ) : ℚ) ≤ 2 ^ d := by exact_mod_cast h3
  have h6 : -(2 : ℚ) ^ d ≤ ((roundHalfEven (x / 2 ^ q) : ℤ) : ℚ) := by exact_mod_cast h4
  rw [abs_mul, abs_of_pos hq0, hpow, mul_comm ((2 : ℚ) ^ q)]
  apply mul_le_mul_of_nonneg_right _ hq0.le
  rw [abs_le]
  exact ⟨h6, h5⟩

theorem roundTo_nonneg (prec : ℕ) (emin : ℤ) (x : ℚ) (hx : 0 ≤ x) : 0 ≤ roundTo prec emin x := by
  unfold roundTo
  have hq0 : (0 : ℚ) < 2 ^ quantum prec emin x := by positivity
  have h : ((0 : ℤ) : ℚ) ≤ x / 2 ^ quantum prec emin x := by
    simp only [Int.cast_zero]
    positivity
  have h2 := le_roundHalfEven _ _ h
  have h3 : (0 : ℚ) ≤ roundHalfEven (x / 2 ^ quantum prec emin x) := by exact_mod_cast h2
  positivity

theorem roundTo_nonpos (prec : ℕ) (emin : ℤ) (x : ℚ) (hx : x ≤ 0) : roundTo prec emin x ≤ 0 := by
  unfold roundTo
  have hq0 : (0 : ℚ) < 2 ^ quantum prec emin x := by positivity
  have h : x / 2 ^ quantum prec emin x ≤ ((0 : ℤ) : ℚ) := by
    simp only [Int.cast_zero]
    exact div_nonpos_of_nonpos_of_nonneg hx hq0.le
  have h2 := roundHalfEven_le _ _ h
  have h3 : (roundHalfEven (x / 2 ^ quantum prec emin x) : ℚ) ≤ 0 := by exact_mod_cast h2
  exact mul_nonpos_of_nonpos_of_nonneg h3 hq0.le

theorem roundTo_natCast (prec : ℕ) (emin : ℤ) (n : ℕ) (hn : n < 2 ^ prec) (he : emin ≤ 0) :
    roundTo prec emin (n : ℚ) = n := by
  have h := roundTo_of_int_mul prec emin (n : ℤ) 0 (by
    rw [abs_of_nonneg (by positivity)]
    exact_mod_cast hn) he
  simpa using h

theorem roundTo_intCast (prec : ℕ) (emin : ℤ) (n : ℤ) (hn : |n| < 2 ^ prec) (he : emin ≤ 0) :
    roundTo prec emin (n : ℚ) = n := by
  have h := roundTo_of_int_mul prec emin n 0 hn he
  simpa using h

/-- A power of two is a lower bound that rounding keeps. -/
theorem pow_le_roundTo (prec : ℕ) (emin : ℤ) (x : ℚ) (E : ℤ) (hp : 1 ≤ prec) (hE : emin ≤ E)
    (hx : 2 ^ E ≤ x) : 2 ^ E ≤ roundTo prec emin x := by
  have hxpos : 0 < x := lt_of_lt_of_le (by positivity) hx
  unfold roundTo
  by_cases hq : quantum prec emin x ≤ E
  · generalize quantum prec emin x = q at hq ⊢
    obtain ⟨d, hd⟩ : ∃ d : ℕ, E = q + d := ⟨(E - q).toNat, by omega⟩
    have hpow : (2 : ℚ) ^ E = 2 ^ q * 2 ^ d := by
      rw [hd, zpow_add₀ (by norm_num), zpow_natCast]
    have hq0 : (0 : ℚ) < 2 ^ q := by positivity
    have h1 : ((2 ^ d : ℤ) : ℚ) ≤ x / 2 ^ q := by
      rw [le_div_iff₀ hq0]
      push_cast
      linarith
    have h3 := le_roundHalfEven _ _ h1
    have h5 : (2 : ℚ) ^ d ≤ ((roundHalfEven (x / 2 ^ q) : ℤ) : ℚ) := by exact_mod_cast h3
    rw [hpow, mul_comm ((2 : ℚ) ^ q)]
    exact mul_le_mul_of_nonneg_right h5 hq0.le
  · push_neg at hq
    have hb := intLog_two_bounds x hxpos
    have hqe : quantum prec emin x = Int.log 2 x - ((prec : ℤ) - 1) := by
      unfold quantum at hq ⊢
      rw [abs_of_pos hxpos] at hq ⊢
      rcases max_cases (Int.log 2 x - ((prec : ℤ) - 1)) emin with ⟨h, _⟩ | ⟨h, _⟩
      · exact h
      · rw [h] at hq; omega
    have hq0 : (0 : ℚ) < 2 ^ quantum prec emin x := by positivity
    have h1 : ((1 : ℤ) : ℚ) ≤ x / 2 ^ quantum prec emin x := by
      rw [le_div_iff₀ hq0]
      simp only [Int.cast_one, one_mul]
      apply le_trans _ hb.1
      apply zpow_le_zpow_right₀ (by norm_num)
      have : (1 : ℤ) ≤ (prec : ℤ) := by exact_mod_cast hp
      omega
    have h3 := le_roundHalfEven _ _ h1
    have h5 : (1 : ℚ) ≤ ((roundHalfEven (x / 2 ^ quantum prec emin x) : ℤ) : ℚ) := by
      exact_mod_cast h3
    have h6 : (2 : ℚ) ^ E ≤ 2 ^ quantum prec emin x :=
      zpow_le_zpow_right₀ (by norm_num) hq.le
    calc (2 : ℚ) ^ E ≤ 2 ^ quantum prec emin x := h6
      _ = 1 * 2 ^ quantum prec emin x := (one_mul _).symm
      _ ≤ _ := mul_le_mul_of_nonneg_right h5 hq0.le

theorem representable_natCast (prec : ℕ) (emin : ℤ) (n : ℕ) (hn : n < 2 ^ prec) (he : emin ≤ 0) :
    Representable prec emin (n : ℚ) :=
  ⟨n, 0, by rw [abs_of_nonneg (by positivity)]; exact_mod_cast hn, he, by simp⟩

theorem roundTo_eval (prec : ℕ) (emin : ℤ) (x : ℚ) (L e m : ℤ) (y : ℚ)
    (he : max (L - ((prec : ℤ) - 1)) emin = e)
    (h1 : (2 : ℚ) ^ L ≤ |x|) (h2 : |x| < 2 ^ (L + 1))
    (hm : |x / 2 ^ e - m| < 1 / 2) (hy : (m : ℚ) * 2 ^ e = y) :
    roundTo prec emin x = y := by
  rw [← hy, ← he]
  apply roundTo_eq prec emin x L m h1 h2
  rw [he]
  exact roundHalfEven_eq _ _ hm

/-! ### `IEEE` values -/

theorem IEEE.roundDouble_of_abs_le (x : ℚ) (h : |x| ≤ 2 ^ (1023 : ℤ)) :
    IEEE.roundDouble x = .fin (fl64 x) := by
  have hb := roundTo_abs_le 53 (-1074) x 1023 (by norm_num) (by norm_num) h
  have hlt : |fl64 x| < 2 ^ 1024 := lt_of_le_of_lt hb (by norm_num)
  unfold IEEE.roundDouble
  rw [if_pos hlt]

theorem IEEE.roundFloat_of_abs_le (x : ℚ) (h : |x| ≤ 2 ^ (127 : ℤ)) :
    IEEE.roundFloat x = .fin (fl32 x) := by
  have hb := roundTo_abs_le 24 (-149) x 127 (by norm_num) (by norm_num) h
  have hlt : |fl32 x| < 2 ^ 128 := lt_of_le_of_lt hb (by norm_num)
  unfold IEEE.roundFloat
  rw [if_pos hlt]

theorem fl64_intCast (n : ℤ) (h : |n| < 2 ^ 53) : fl64 (n : ℚ) = n :=
  roundTo_intCast 53 (-1074) n h (by norm_num)

theorem fl32_intCast (n : ℤ) (h : |n| < 2 ^ 24) : fl32 (n : ℚ) = n :=
  roundTo_intCast 24 (-149) n h (by norm_num)

theorem fl64_natCast (n : ℕ) (h : n < 2 ^ 53) : fl64 (n : ℚ) = n :=
  roundTo_natCast 53 (-1074) n h (by norm_num)

theorem intCast_abs_le_pow (n : ℤ) (k : ℕ) (E : ℤ) (h : |n| < 2 ^ k) (hE : (k : ℤ) ≤ E) :
    |(n : ℚ)| ≤ 2 ^ E := by
  have h1 : ((|n| : ℤ) : ℚ) < ((2 ^ k : ℤ) : ℚ) := by exact_mod_cast h
  have h2 : |(n : ℚ)| < 2 ^ k := by simpa using h1
  have h3 : (2 : ℚ) ^ k ≤ 2 ^ E := by
    rw [← zpow_natCast]
    exact zpow_le_zpow_right₀ (by norm_num) hE
  linarith

theorem IEEE.roundDouble_intCast (n : ℤ) (h : |n| < 2 ^ 53) :
    IEEE.roundDouble (n : ℚ) = .fin n := by
  rw [IEEE.roundDouble_of_abs_le _ (intCast_abs_le_pow n 53 1023 h (by norm_num)),
    fl64_intCast n h]

theorem IEEE.roundFloat_intCast (n : ℤ) (h : |n| < 2 ^ 24) :
    IEEE.roundFloat (n : ℚ) = .fin n := by
  rw [IEEE.roundFloat_of_abs_le _ (intCast_abs_le_pow n 24 127 h (by norm_num)),
    fl32_intCast n h]

theorem IEEE.roundDouble_natCast (n : ℕ) (h : n < 2 ^ 53) :
    IEEE.roundDouble (n : ℚ) = .fin n := by
  have := IEEE.roundDouble_intCast (n : ℤ) (by
    rw [abs_of_nonneg (by positivity)]
    exact_mod_cast h)
  simpa using this

theorem IEEE.ofSizeT_of_lt (n : ℕ) (h : n < 2 ^ 53) : IEEE.ofSizeT n = .fin n :=
  IEEE.roundDouble_natCast n h

/-- A concrete `double` rounding, from the binade of `x` and the integer nearest to the
scaled value. -/
theorem fl64_eval (x : ℚ) (L e m : ℤ) (y : ℚ) (he : max (L - (((53 : ℕ) : ℤ) - 1)) (-1074) = e)
    (h1 : (2 : ℚ) ^ L ≤ |x|) (h2 : |x| < 2 ^ (L + 1))
    (hm : |x / 2 ^ e - m| < 1 / 2) (hy : (m : ℚ) * 2 ^ e = y) : fl64 x = y :=
  roundTo_eval 53 (-1074) x L e m y he h1 h2 hm hy

theorem fl32_eval (x : ℚ) (L e m : ℤ) (y : ℚ) (he : max (L - (((24 : ℕ) : ℤ) - 1)) (-149) = e)
    (h1 : (2 : ℚ) ^ L ≤ |x|) (h2 : |x| < 2 ^ (L + 1))
    (hm : |x / 2 ^ e - m| < 1 / 2) (hy : (m : ℚ) * 2 ^ e = y) : fl32 x = y :=
  roundTo_eval 24 (-149) x L e m y he h1 h2 hm hy

theorem IEEE.roundDouble_eq (x y : ℚ) (h : fl64 x = y) (hy : |y| < 2 ^ 1024) :
    IEEE.roundDouble x = .fin y := by
  unfold IEEE.roundDouble
  rw [h, if_pos hy]

theorem IEEE.roundFloat_eq (x y : ℚ) (h : fl32 x = y) (hy : |y| < 2 ^ 128) :
    IEEE.roundFloat x = .fin y := by
  unfold IEEE.roundFloat
  rw [h, if_pos hy]

theorem fl64_nonneg (x : ℚ) (h : 0 ≤ x) : 0 ≤ fl64 x := roundTo_nonneg 53 (-1074) x h

theorem fl64_nonpos (x : ℚ) (h : x ≤ 0) : fl64 x ≤ 0 := roundTo_nonpos 53 (-1074) x h

theorem fl64_of_representable (x : ℚ) (h : Representable 53 (-1074) x) : fl64 x = x :=
  roundTo_of_representable 53 (-1074) x h

theorem roundTo_eval_tie (prec : ℕ) (emin : ℤ) (x : ℚ) (L e f m : ℤ) (y : ℚ)
    (he : max (L - ((prec : ℤ) - 1)) emin = e)
    (h1 : (2 : ℚ) ^ L ≤ |x|) (h2 : |x| < 2 ^ (L + 1))
    (hf : x / 2 ^ e = (f : ℚ) + 1 / 2) (hm : (if f % 2 = 0 then f else f + 1) = m)
    (hy : (m : ℚ) * 2 ^ e = y) : roundTo prec emin x = y := by
  unfold roundTo
  rw [quantum_eq prec emin x L h1 h2, he, hf, roundHalfEven_tie, hm, hy]

theorem fl64_eval_tie (x : ℚ) (L e f m : ℤ) (y : ℚ)
    (he : max (L - (((53 : ℕ) : ℤ) - 1)) (-1074) = e)
    (h1 : (2 : ℚ) ^ L ≤ |x|) (h2 : |x| < 2 ^ (L + 1))
    (hf : x / 2 ^ e = (f : ℚ) + 1 / 2) (hm : (if f % 2 = 0 then f else f + 1) = m)
    (hy : (m : ℚ) * 2 ^ e = y) : fl64 x = y :=
  roundTo_eval_tie 53 (-1074) x L e f m y he h1 h2 hf hm hy

/-! ### Blocks -/

theorem readAt_ok (buf : List IEEE) (i : Nat) (h : i < buf.length) :
    readAt buf i = .ok (buf.getD i 0) := by
  simp [readAt, List.getElem?_eq_getElem h, List.getD_eq_getElem?_getD]

theorem writeAt_append (written rest : List IEEE) (a v : IEEE) :
    writeAt (written ++ a :: rest) (written.length) v = .ok (written ++ v :: rest) := by
  simp [writeAt]

/-! ### The interpolation loop -/

theorem interpAt_length (inBuffer : List IEEE) (p : IEEE) : (interpAt inBuffer p).length = 2 :=
  rfl

theorem interpRun_length (inBuffer : List IEEE) (r : IEEE) (m : Nat) :
    ∀ p : IEEE, (interpRun inBuffer r p m).length = m * 2 := by
  induction m with
  | zero => intro p; simp [interpRun]
  | succ m ih => intro p; simp [interpRun, ih, interpAt_length]; omega

theorem posSeq_succ (r pos : IEEE) (k : ℕ) :
    posSeq r pos (k + 1) = posSeq r (IEEE.add .roundDouble pos r) k := by
  induction k with
  | zero => rfl
  | succ k ih =>
    show IEEE.add .roundDouble (posSeq r pos (k + 1)) r = _
    rw [ih]
    rfl

theorem toSizeT_floor (q : ℚ) (h0 : 0 ≤ q) (h1 : q < 2 ^ 64) :
    (IEEE.floor (.fin q)).toSizeT = .ok ⌊q⌋₊ := by
  have hf0 : (0 : ℤ) ≤ ⌊q⌋ := Int.floor_nonneg.2 h0
  have hf1 : ((⌊q⌋ : ℤ) : ℚ) ≤ q := Int.floor_le q
  have hc0 : (0 : ℚ) ≤ ((⌊q⌋ : ℤ) : ℚ) := by exact_mod_cast hf0
  have e : ⌊((⌊q⌋ : ℤ) : ℚ)⌋₊ = ⌊q⌋₊ := by
    have hn : ⌊q⌋ = ((⌊q⌋₊ : ℕ) : ℤ) := by
      rw [Int.floor_eq_iff]
      exact ⟨by exact_mod_cast Nat.floor_le h0, by exact_mod_cast Nat.lt_floor_add_one q⟩
    rw [hn]
    simp
  simp only [IEEE.floor, IEEE.toSizeT]
  rw [if_pos ⟨by linarith, by linarith⟩, e]

/-- The loop, run from a position whose sequence of positions first meets the exit test after
`m` steps: it emits the `m` frames of `interpRun` and returns the position it exits at. -/
theorem resampleLoop_run (r : IEEE) (inBuffer : List IEEE) (n : Nat)
    (hlen : n * 2 ≤ inBuffer.length) :
    ∀ (m fuel : Nat) (pos : IEEE) (written rest : List IEEE) (cnt : Nat),
      (∀ k : ℕ, k < m → Continues n (posSeq r pos k)) → Stops n (posSeq r pos m) →
      written.length = cnt * 2 → m * 2 ≤ rest.length → m < fuel →
      AudioCapture.resampleLoop r inBuffer n fuel pos (written ++ rest) cnt
        = .ok (written ++ interpRun inBuffer r pos m ++ rest.drop (m * 2),
               cnt + m, posSeq r pos m) := by
  intro m
  induction m with
  | zero =>
    intro fuel pos written rest cnt _ hstop hw _ hfuel
    obtain ⟨f, rfl⟩ : ∃ f, fuel = f + 1 := ⟨fuel - 1, by omega⟩
    obtain ⟨q, hq, h0, h1, hn⟩ := hstop
    simp only [posSeq] at hq
    subst hq
    unfold AudioCapture.resampleLoop
    rw [toSizeT_floor q h0 h1]
    simp only [bind, Except.bind, ge_iff_le, hn, if_true, interpRun, posSeq]
    simp
  | succ m ih =>
    intro fuel pos written rest cnt hcont hstop hw hrest hfuel
    obtain ⟨f, rfl⟩ : ∃ f, fuel = f + 1 := ⟨fuel - 1, by omega⟩
    obtain ⟨q, hq, h0, h1, hn⟩ := hcont 0 (by omega)
    simp only [posSeq] at hq
    subst hq
    unfold AudioCapture.resampleLoop
    rw [toSizeT_floor q h0 h1]
    have hb : ¬ (n ≤ ⌊q⌋₊ + 1) := by omega
    obtain ⟨a, rest1, rfl⟩ : ∃ a rest1, rest = a :: rest1 := by
      cases rest with
      | nil => simp at hrest
      | cons a t => exact ⟨a, t, rfl⟩
    obtain ⟨b, rest2, rfl⟩ : ∃ b rest2, rest1 = b :: rest2 := by
      cases rest1 with
      | nil => simp at hrest; omega
      | cons a t => exact ⟨a, t, rfl⟩
    have hr2 : m * 2 ≤ rest2.length := by simp at hrest; omega
    simp only [bind, Except.bind, ge_iff_le, hb, if_false]
    rw [readAt_ok _ _ (by omega), readAt_ok _ _ (by omega), readAt_ok _ _ (by omega),
      readAt_ok _ _ (by omega)]
    simp only [Nat.add_zero]
    rw [← hw, writeAt_append]
    have e1 : ∀ v w : IEEE, writeAt (written ++ v :: b :: rest2) (written.length + 1) w
        = .ok ((written ++ [v]) ++ w :: rest2) := by
      intro v w
      have := writeAt_append (written ++ [v]) rest2 b w
      simpa using this
    simp only [e1]
    have hcont2 : ∀ k : ℕ, k < m →
        Continues n (posSeq r (IEEE.add .roundDouble (.fin q) r) k) := by
      intro k hk
      rw [← posSeq_succ]
      exact hcont (k + 1) (by omega)
    have hstop2 : Stops n (posSeq r (IEEE.add .roundDouble (.fin q) r) m) := by
      rw [← posSeq_succ]
      exact hstop
    have := ih f (IEEE.add .roundDouble (.fin q) r)
      (written ++ [AudioCapture.interpolate (inBuffer.getD (⌊q⌋₊ * 2) 0)
          (inBuffer.getD ((⌊q⌋₊ + 1) * 2) 0)
          (IEEE.sub .roundDouble (.fin q) (.ofSizeT ⌊q⌋₊)),
        AudioCapture.interpolate (inBuffer.getD (⌊q⌋₊ * 2 + 1) 0)
          (inBuffer.getD ((⌊q⌋₊ + 1) * 2 + 1) 0)
          (IEEE.sub .roundDouble (.fin q) (.ofSizeT ⌊q⌋₊))]) rest2 (cnt + 1) hcont2 hstop2
      (by simp [hw]; omega) hr2 (by omega)
    simp only [List.append_assoc, List.singleton_append, List.cons_append, List.nil_append]
      at this ⊢
    rw [hw] at *
    rw [this, posSeq_succ]
    simp [interpRun, interpAt, IEEE.index]
    refine ⟨?_, by omega⟩
    have h2 : (m + 1) * 2 = m * 2 + 2 := by ring
    rw [h2]
    rfl

/-- One call of `linearResample` whose position sequence first meets the exit test after `m`
steps. -/
theorem linearResample_run (self : AudioCapture) (fuel : Nat) (outBuffer inBuffer : List IEEE)
    (n m : Nat) (hn : n ≠ 0) (hlen : n * 2 ≤ inBuffer.length)
    (hcont : ∀ k : ℕ, k < m →
      Continues n (posSeq self.mResamplingRatio self.mInputBufferOffset k))
    (hstop : Stops n (posSeq self.mResamplingRatio self.mInputBufferOffset m))
    (hcap : m * 2 ≤ outBuffer.length) (hfuel : m < fuel) :
    self.linearResample fuel outBuffer inBuffer n =
      .ok ({ self with
              mInputBufferOffset :=
                IEEE.fmax 0 (IEEE.sub .roundDouble
                  (posSeq self.mResamplingRatio self.mInputBufferOffset m) (.ofSizeT n)) },
        interpRun inBuffer self.mResamplingRatio self.mInputBufferOffset m
          ++ outBuffer.drop (m * 2),
        m) := by
  unfold AudioCapture.linearResample
  have h := resampleLoop_run self.mResamplingRatio inBuffer n hlen m fuel
    self.mInputBufferOffset [] outBuffer 0 hcont hstop rfl hcap hfuel
  simp only [List.nil_append, Nat.zero_add] at h
  simp only [hn, if_false, h, bind, Except.bind]

/-! ### The conversion loop -/

theorem decodedFrames_length (inputFormat : media_raw_audio_format) (data : RawData)
    (inputFrameSize : Nat) (todo : Nat) :
    ∀ i : Nat, (decodedFrames inputFormat data inputFrameSize i todo).length = todo * 2 := by
  induction todo with
  | zero => intro i; simp [decodedFrames]
  | succ todo ih => intro i; simp [decodedFrames, ih]; omega

theorem decodedFrames_getElem (inputFormat : media_raw_audio_format) (data : RawData)
    (inputFrameSize : Nat) (todo : Nat) :
    ∀ (i k : Nat), k < todo → ∀ tail : List IEEE,
      (decodedFrames inputFormat data inputFrameSize i todo ++ tail)[k * 2]?
        = some (AudioCapture.decodeLeft inputFormat data ((i + k) * inputFrameSize)) ∧
      (decodedFrames inputFormat data inputFrameSize i todo ++ tail)[k * 2 + 1]?
        = some (AudioCapture.decodeRight inputFormat data ((i + k) * inputFrameSize)) := by
  induction todo with
  | zero => intro i k hk; omega
  | succ todo ih =>
    intro i k hk tail
    cases k with
    | zero => simp [decodedFrames]
    | succ k =>
      have h := ih (i + 1) k (by omega) tail
      have e : i + (k + 1) = i + 1 + k := by omega
      have i1 : (k + 1) * 2 = k * 2 + 1 + 1 := by ring
      rw [e, ← h.1, ← h.2, i1]
      simp [decodedFrames]

theorem decodeLoop_run (inputFormat : media_raw_audio_format) (data : RawData)
    (inputFrameSize : Nat) :
    ∀ (todo i : Nat) (written rest : List IEEE),
      written.length = i * 2 → todo * 2 ≤ rest.length →
      AudioCapture.decodeLoop inputFormat data inputFrameSize todo i (written ++ rest)
        = .ok (written ++ decodedFrames inputFormat data inputFrameSize i todo
            ++ rest.drop (todo * 2)) := by
  intro todo
  induction todo with
  | zero =>
    intro i written rest _ _
    simp [AudioCapture.decodeLoop, decodedFrames]
  | succ todo ih =>
    intro i written rest hw hrest
    obtain ⟨a, rest1, rfl⟩ : ∃ a rest1, rest = a :: rest1 := by
      cases rest with
      | nil => simp at hrest
      | cons a t => exact ⟨a, t, rfl⟩
    obtain ⟨b, rest2, rfl⟩ : ∃ b rest2, rest1 = b :: rest2 := by
      cases rest1 with
      | nil => simp at hrest; omega
      | cons a t => exact ⟨a, t, rfl⟩
    have hr2 : todo * 2 ≤ rest2.length := by simp at hrest; omega
    unfold AudioCapture.decodeLoop
    simp only [bind, Except.bind, Nat.add_zero]
    rw [← hw, writeAt_append]
    have e1 : ∀ v w : IEEE, writeAt (written ++ v :: b :: rest2) (written.length + 1) w
        = .ok ((written ++ [v]) ++ w :: rest2) := by
      intro v w
      have := writeAt_append (written ++ [v]) rest2 b w
      simpa using this
    simp only [e1]
    have hw2 : (written ++ [AudioCapture.decodeLeft inputFormat data (i * inputFrameSize),
        AudioCapture.decodeRight inputFormat data (i * inputFrameSize)]).length
        = (i + 1) * 2 := by simp [hw]; omega
    have := ih (i + 1) _ rest2 hw2 hr2
    simp only [List.append_assoc, List.singleton_append, List.cons_append, List.nil_append]
      at this ⊢
    rw [hw] at *
    rw [this]
    simp [decodedFrames]
    have h2 : (todo + 1) * 2 = todo * 2 + 2 := by ring
    rw [h2]
    rfl

theorem realloc_length (block : List IEEE) (newSize : Nat) :
    (AudioCapture.realloc block newSize).length = newSize / 4 := by
  simp [AudioCapture.realloc]

theorem ensure_length (block : List IEEE) (n : Nat) :
    n * 2 ≤ (if 4 * block.length < n * (2 * 4) then AudioCapture.realloc block (n * (2 * 4))
      else block).length := by
  split
  · rw [realloc_length]; omega
  · omega

theorem decodeLoop_ensured (inputFormat : media_raw_audio_format) (data : RawData)
    (inputFrameSize n : Nat) (block : List IEEE) (h : n * 2 ≤ block.length) :
    AudioCapture.decodeLoop inputFormat data inputFrameSize n 0 block
      = .ok (decodedFrames inputFormat data inputFrameSize 0 n ++ block.drop (n * 2)) := by
  have := decodeLoop_run inputFormat data inputFrameSize n 0 [] block rfl h
  simpa using this

/-! ### Sample conversions -/

theorem roundTo_exponent (prec : ℕ) (emin : ℤ) (x : ℚ) (hp : 1 ≤ prec) :
    ∃ m e : ℤ, |m| < 2 ^ prec ∧ quantum prec emin x ≤ e ∧ roundTo prec emin x = m * 2 ^ e := by
  rcases eq_or_ne x 0 with rfl | hne
  · exact ⟨0, _, by positivity, le_refl _, by simp [roundTo_zero]⟩
  have hpos : 0 < |x| := abs_pos.2 hne
  have hb := intLog_two_bounds |x| hpos
  have hqge : Int.log 2 |x| - ((prec : ℤ) - 1) ≤ quantum prec emin x := le_max_left _ _
  unfold roundTo
  generalize quantum prec emin x = q at hqge ⊢
  have hq0 : (0 : ℚ) < 2 ^ q := by positivity
  have hup : |x| ≤ 2 ^ q * 2 ^ prec := by
    apply le_trans hb.2.le
    rw [← zpow_natCast, ← zpow_add₀ (by norm_num)]
    apply zpow_le_zpow_right₀ (by norm_num)
    omega
  rw [abs_le] at hup
  have h1 : x / 2 ^ q ≤ ((2 ^ prec : ℤ) : ℚ) := by
    rw [div_le_iff₀ hq0]
    push_cast
    linarith
  have h2 : ((-(2 ^ prec) : ℤ) : ℚ) ≤ x / 2 ^ q := by
    rw [le_div_iff₀ hq0]
    push_cast
    linarith
  have h3 := roundHalfEven_le _ _ h1
  have h4 := le_roundHalfEven _ _ h2
  generalize roundHalfEven (x / 2 ^ q) = M at h3 h4 ⊢
  by_cases hM : |M| < 2 ^ prec
  · exact ⟨M, q, hM, le_refl _, rfl⟩
  · have habs : |M| = 2 ^ prec := by
      have : |M| ≤ 2 ^ prec := abs_le.2 ⟨h4, h3⟩
      omega
    obtain ⟨p, rfl⟩ : ∃ p : ℕ, prec = p + 1 := ⟨prec - 1, by omega⟩
    have hlt : (2 : ℤ) ^ p < 2 ^ (p + 1) := by
      rw [pow_succ]
      have : (0 : ℤ) < 2 ^ p := by positivity
      omega
    rcases abs_eq (by positivity : (0 : ℤ) ≤ 2 ^ (p + 1)) |>.1 habs with h | h
    · refine ⟨2 ^ p, q + 1, ?_, by omega, ?_⟩
      · rw [abs_of_pos (by positivity)]; exact hlt
      · rw [h, zpow_add₀ (by norm_num)]
        push_cast
        ring
    · refine ⟨-(2 ^ p), q + 1, ?_, by omega, ?_⟩
      · rw [abs_neg, abs_of_pos (by positivity)]; exact hlt
      · rw [h, zpow_add₀ (by norm_num)]
        push_cast
        ring

theorem roundTo_scale (prec : ℕ) (emin : ℤ) (x : ℚ) (k : ℤ) (hp : 1 ≤ prec)
    (h : emin ≤ quantum prec emin x + k) :
    roundTo prec emin (roundTo prec emin x * 2 ^ k) = roundTo prec emin x * 2 ^ k := by
  obtain ⟨m, e, hm, he, heq⟩ := roundTo_exponent prec emin x hp
  rw [heq]
  have : (m : ℚ) * 2 ^ e * 2 ^ k = m * 2 ^ (e + k) := by
    rw [zpow_add₀ (by norm_num)]
    ring
  rw [this]
  exact roundTo_of_int_mul prec emin m (e + k) hm (by omega)

theorem quantum_ge_of_one_le (prec : ℕ) (emin : ℤ) (x : ℚ) (hx : 1 ≤ |x|) :
    -((prec : ℤ) - 1) ≤ quantum prec emin x := by
  have hpos : 0 < |x| := lt_of_lt_of_le one_pos hx
  have h0 : (0 : ℤ) ≤ Int.log 2 |x| := by
    rw [← Int.zpow_le_iff_le_log (by norm_num) hpos]
    simpa using hx
  have : Int.log 2 |x| - ((prec : ℤ) - 1) ≤ quantum prec emin x := le_max_left _ _
  omega

theorem IEEE.ofNat_eq (n : ℕ) [n.AtLeastTwo] : (OfNat.ofNat n : IEEE) = .fin (OfNat.ofNat n) := rfl

theorem IEEE.one_eq : (1 : IEEE) = .fin 1 := rfl

theorem IEEE.zero_eq : (0 : IEEE) = .fin 0 := rfl

theorem IEEE.roundFloat_int_div_pow (v : ℤ) (k : ℕ) (h : |v| < 2 ^ 24) (hk : k ≤ 125) :
    IEEE.roundFloat ((v : ℚ) / 2 ^ k) = .fin ((v : ℚ) / 2 ^ k) := by
  have e1 : (v : ℚ) / 2 ^ k = v * 2 ^ (-(k : ℤ)) := by
    rw [zpow_neg, zpow_natCast]
    rfl
  have h1 : fl32 ((v : ℚ) / 2 ^ k) = (v : ℚ) / 2 ^ k := by
    rw [e1]
    exact roundTo_of_int_mul 24 (-149) v (-(k : ℤ)) h (by omega)
  apply IEEE.roundFloat_eq _ _ h1
  have h2 := intCast_abs_le_pow v 24 127 h (by norm_num)
  have h3 : |(v : ℚ) / 2 ^ k| ≤ |(v : ℚ)| := by
    rw [abs_div, abs_of_pos (by positivity : (0 : ℚ) < 2 ^ k)]
    exact div_le_self (abs_nonneg _) (one_le_pow₀ (by norm_num))
  calc |(v : ℚ) / 2 ^ k| ≤ 2 ^ (127 : ℤ) := le_trans h3 h2
    _ < 2 ^ 128 := by norm_num

theorem int16ToFloat_eq (v : ℤ) (h : |v| < 2 ^ 24) : int16ToFloat v = .fin ((v : ℚ) / 32768) := by
  unfold int16ToFloat IEEE.ofInt
  rw [IEEE.roundFloat_intCast v h, IEEE.ofNat_eq]
  have := IEEE.roundFloat_int_div_pow v 15 h (by norm_num)
  norm_num at this
  simp only [IEEE.div]
  rw [if_neg (by norm_num)]
  exact this

theorem int8ToFloat_eq (v : ℤ) (h : |v| < 2 ^ 24) : int8ToFloat v = .fin ((v : ℚ) / 128) := by
  unfold int8ToFloat IEEE.ofInt
  rw [IEEE.roundFloat_intCast v h, IEEE.ofNat_eq]
  have := IEEE.roundFloat_int_div_pow v 7 h (by norm_num)
  norm_num at this
  simp only [IEEE.div]
  rw [if_neg (by norm_num)]
  exact this

theorem uint8ToFloat_eq (v : ℕ) (h : v < 2 ^ 24) :
    uint8ToFloat v = .fin (((v : ℚ) - 128) / 128) := by
  have hv : |(v : ℤ) - 128| < 2 ^ 24 := by
    rw [abs_lt]
    constructor <;> omega
  unfold uint8ToFloat IEEE.ofInt
  rw [IEEE.roundFloat_intCast _ hv, IEEE.ofNat_eq]
  have := IEEE.roundFloat_int_div_pow ((v : ℤ) - 128) 7 hv (by norm_num)
  norm_num at this
  simp only [IEEE.div]
  rw [if_neg (by norm_num)]
  push_cast
  exact this

theorem fl32_int32_abs_le (v : ℤ) (h : |v| ≤ 2 ^ 31) : |fl32 (v : ℚ)| ≤ 2 ^ (31 : ℤ) := by
  apply roundTo_abs_le 24 (-149) _ 31 (by norm_num) (by norm_num)
  have : ((|v| : ℤ) : ℚ) ≤ ((2 ^ 31 : ℤ) : ℚ) := by exact_mod_cast h
  have h2 : |(v : ℚ)| ≤ 2147483648 := by simpa using this
  exact le_trans h2 (by norm_num)

theorem int32ToFloat_eq (v : ℤ) (h : |v| ≤ 2 ^ 31) :
    int32ToFloat v = .fin (fl32 (v : ℚ) / 2147483648) := by
  have hb := fl32_int32_abs_le v h
  have hfin : IEEE.roundFloat (v : ℚ) = .fin (fl32 (v : ℚ)) := by
    apply IEEE.roundFloat_eq _ _ rfl
    exact lt_of_le_of_lt hb (by norm_num)
  unfold int32ToFloat IEEE.ofInt
  rw [hfin, IEEE.ofNat_eq]
  simp only [IEEE.div]
  rw [if_neg (by norm_num)]
  have e1 : fl32 (v : ℚ) / 2147483648 = fl32 (v : ℚ) * 2 ^ (-31 : ℤ) := by
    rw [div_eq_mul_inv]
    norm_num
  have hex : fl32 (fl32 (v : ℚ) / 2147483648) = fl32 (v : ℚ) / 2147483648 := by
    rcases eq_or_ne v 0 with rfl | hne
    · simp [fl32, roundTo_zero]
    · rw [e1]
      have h1 : (1 : ℚ) ≤ |(v : ℚ)| := by
        have : (1 : ℤ) ≤ |v| := Int.one_le_abs hne
        have : ((1 : ℤ) : ℚ) ≤ ((|v| : ℤ) : ℚ) := by exact_mod_cast this
        simpa using this
      have hq := quantum_ge_of_one_le 24 (-149) (v : ℚ) h1
      exact roundTo_scale 24 (-149) (v : ℚ) (-31) (by norm_num) (by push_cast at hq; omega)
  apply IEEE.roundFloat_eq _ _ hex
  rw [abs_div]
  have : |fl32 (v : ℚ)| / |(2147483648 : ℚ)| ≤ 2 ^ (31 : ℤ) / |(2147483648 : ℚ)| :=
    div_le_div_of_nonneg_right hb (abs_nonneg _)
  refine lt_of_le_of_lt this ?_
  norm_num

theorem fl32_int32_sub_le (v : ℤ) (h : |v| ≤ 2 ^ 31) : |fl32 (v : ℚ) - v| ≤ 64 := by
  by_cases hlt : |v| < 2 ^ 31
  · have hx : |(v : ℚ)| < 2 ^ ((7 : ℤ) + ((24 : ℕ) : ℤ)) := by
      have : ((|v| : ℤ) : ℚ) < ((2 ^ 31 : ℤ) : ℚ) := by exact_mod_cast hlt
      have h2 : |(v : ℚ)| < 2 ^ 31 := by simpa using this
      refine lt_of_lt_of_le h2 ?_
      norm_num
    have := roundTo_sub_le 24 (-149) (v : ℚ) 7 (by norm_num) hx
    unfold fl32
    refine le_trans this ?_
    norm_num
  · have habs : |v| = 2 ^ 31 := by omega
    have hrep : fl32 (v : ℚ) = v := by
      rcases abs_eq (by norm_num : (0 : ℤ) ≤ 2 ^ 31) |>.1 habs with e | e
      · rw [e]
        have := roundTo_of_int_mul 24 (-149) 1 31 (by norm_num) (by norm_num)
        unfold fl32
        norm_num at this ⊢
        exact this
      · rw [e]
        have := roundTo_of_int_mul 24 (-149) (-1) 31 (by norm_num) (by norm_num)
        unfold fl32
        norm_num at this ⊢
        exact this
    rw [hrep]
    norm_num

/-- C6 (amended): the value the decoder produces from a raw sample is the raw value itself for
float32, `v / 32768` for signed-16, `v / 128` for signed-8 and `(v - 128) / 128` for unsigned-8,
exactly. For signed-32 it is `f / 2147483648` where `f` is the `float` nearest to `v` (a tie goes
to the even neighbour), so that `|f - v| <= 64`; it is `v / 2147483648` when `|v| <= 2^24`. A
one-channel unsigned-8 frame holding the byte 0 decodes to L = R = -1, and the signed-16 value
32767 decodes to 32767/32768. -/
theorem sample_conversion_formulas (data : RawData) (ptr : Nat)
    (h16 : -32768 ≤ data.asInt16 ptr ∧ data.asInt16 ptr ≤ 32767)
    (h8 : -128 ≤ data.asInt8 ptr ∧ data.asInt8 ptr ≤ 127)
    (hu8 : data.asUInt8 ptr ≤ 255)
    (h32 : -2147483648 ≤ data.asInt32 ptr ∧ data.asInt32 ptr ≤ 2147483647) :
    AudioCapture.convertSample .B_AUDIO_FLOAT data ptr = data.asFloat ptr ∧
    AudioCapture.convertSample .B_AUDIO_SHORT data ptr
      = .fin ((data.asInt16 ptr : ℚ) / 32768) ∧
    AudioCapture.convertSample .B_AUDIO_CHAR data ptr = .fin ((data.asInt8 ptr : ℚ) / 128) ∧
    AudioCapture.convertSample .B_AUDIO_UCHAR data ptr
      = .fin (((data.asUInt8 ptr : ℚ) - 128) / 128) ∧
    AudioCapture.convertSample .B_AUDIO_INT data ptr
      = .fin (fl32 (data.asInt32 ptr : ℚ) / 2147483648) ∧
    |fl32 (data.asInt32 ptr : ℚ) - data.asInt32 ptr| ≤ 64 ∧
    (|data.asInt32 ptr| ≤ 16777216 →
      AudioCapture.convertSample .B_AUDIO_INT data ptr
        = .fin ((data.asInt32 ptr : ℚ) / 2147483648)) ∧
    AudioCapture.decodeLeft monoUChar zeroData ptr = .fin (-1) ∧
    AudioCapture.decodeRight monoUChar zeroData ptr = .fin (-1) ∧
    int16ToFloat 32767 = .fin (32767 / 32768) := by
  have a16 : |data.asInt16 ptr| < 2 ^ 24 := by
    rw [abs_lt]
    constructor <;> omega
  have a8 : |data.asInt8 ptr| < 2 ^ 24 := by
    rw [abs_lt]
    constructor <;> omega
  have a32 : |data.asInt32 ptr| ≤ 2 ^ 31 := by
    rw [abs_le]
    constructor <;> omega
  have hz : uint8ToFloat 0 = .fin (-1) := by
    have := uint8ToFloat_eq 0 (by norm_num)
    rw [this]
    norm_num
  refine ⟨rfl, int16ToFloat_eq _ a16, int8ToFloat_eq _ a8, uint8ToFloat_eq _ (by omega),
    int32ToFloat_eq _ a32, fl32_int32_sub_le _ a32, ?_, ?_, ?_, ?_⟩
  · intro hsmall
    show int32ToFloat (data.asInt32 ptr) = _
    rw [int32ToFloat_eq _ a32]
    have : fl32 (data.asInt32 ptr : ℚ) = data.asInt32 ptr := by
      by_cases hlt : |data.asInt32 ptr| < 2 ^ 24
      · exact fl32_intCast _ hlt
      · have habs : |data.asInt32 ptr| = 2 ^ 24 := by omega
        rcases abs_eq (by norm_num : (0 : ℤ) ≤ 2 ^ 24) |>.1 habs with e | e
        · rw [e]
          have := roundTo_of_int_mul 24 (-149) 1 24 (by norm_num) (by norm_num)
          unfold fl32
          norm_num at this ⊢
          exact this
        · rw [e]
          have := roundTo_of_int_mul 24 (-149) (-1) 24 (by norm_num) (by norm_num)
          unfold fl32
          norm_num at this ⊢
          exact this
    rw [this]
  · simp only [AudioCapture.decodeLeft, AudioCapture.convertSample, monoUChar, zeroData]
    rw [if_pos (le_refl _)]
    exact hz
  · simp only [AudioCapture.decodeRight, AudioCapture.decodeLeft, AudioCapture.convertSample,
      monoUChar, zeroData]
    rw [if_neg (by decide), if_pos (le_refl _)]
    exact hz
  · have := int16ToFloat_eq 32767 (by norm_num)
    rw [this]
    norm_num

theorem sample_conversion_formulas_witness :
    (-32768 ≤ fullScaleData.asInt16 0 ∧ fullScaleData.asInt16 0 ≤ 32767) ∧
    (-128 ≤ fullScaleData.asInt8 0 ∧ fullScaleData.asInt8 0 ≤ 127) ∧
    fullScaleData.asUInt8 0 ≤ 255 ∧
    (-2147483648 ≤ fullScaleData.asInt32 0 ∧ fullScaleData.asInt32 0 ≤ 2147483647) ∧
    AudioCapture.convertSample .B_AUDIO_SHORT fullScaleData 0 = .fin (32767 / 32768) ∧
    AudioCapture.convertSample .B_AUDIO_CHAR fullScaleData 0 = .fin (127 / 128) ∧
    AudioCapture.convertSample .B_AUDIO_UCHAR fullScaleData 0 = .fin (127 / 128) ∧
    AudioCapture.convertSample .B_AUDIO_INT fullScaleData 0
      = .fin (fl32 2147483647 / 2147483648) := by
  have h16 : -32768 ≤ fullScaleData.asInt16 0 ∧ fullScaleData.asInt16 0 ≤ 32767 := by decide
  have h8 : -128 ≤ fullScaleData.asInt8 0 ∧ fullScaleData.asInt8 0 ≤ 127 := by decide
  have hu8 : fullScaleData.asUInt8 0 ≤ 255 := by decide
  have h32 : -2147483648 ≤ fullScaleData.asInt32 0 ∧ fullScaleData.asInt32 0 ≤ 2147483647 := by
    decide
  obtain ⟨-, c16, c8, cu8, c32, -⟩ := sample_conversion_formulas fullScaleData 0 h16 h8 hu8 h32
  refine ⟨h16, h8, hu8, h32, ?_, ?_, ?_, ?_⟩
  · rw [c16]
    norm_num [fullScaleData]
  · rw [c8]
    norm_num [fullScaleData]
  · rw [cu8]
    norm_num [fullScaleData]
  · rw [c32]
    norm_num [fullScaleData]

/-- C6, as stated, fails for signed-32: the full-scale sample 2147483647 is rounded to the
`float` 2147483648 before the division and decodes to 1, not to 2147483647/2147483648. -/
theorem int32_conversion_rounds :
    AudioCapture.convertSample .B_AUDIO_INT fullScaleData 0 = 1 ∧
    (2147483647 : ℚ) / 2147483648 ≠ 1 := by
  constructor
  · show int32ToFloat 2147483647 = 1
    rw [int32ToFloat_eq 2147483647 (by norm_num)]
    have : fl32 ((2147483647 : ℤ) : ℚ) = 2147483648 :=
      fl32_eval _ 30 7 16777216 _ (by decide) (by norm_num [abs_of_pos])
        (by norm_num [abs_of_pos]) (by norm_num [abs_lt]) (by norm_num)
    rw [this]
    norm_num
    rfl
  · norm_num

/-- C7: for a format with C >= 1 channels, the conversion loop stores for frame `i` the pair
(L, R) where L is the converted sample of channel 0 (byte offset `i * frameSize`), R is the
converted sample of channel 1 (one sample size further) when C >= 2 and R = L when C = 1; the
pair does not depend on any other byte of the delivery. -/
theorem decoder_channel_mapping (inputFormat : media_raw_audio_format) (data : RawData)
    (N : Nat) (block : List IEEE) (hC : 1 ≤ inputFormat.channel_count)
    (hcap : N * 2 ≤ block.length) :
    ∃ out : List IEEE,
      AudioCapture.decodeLoop inputFormat data
        (inputFormat.channel_count * getSampleSize inputFormat.format) N 0 block = .ok out ∧
      ∀ i : Nat, i < N →
        out[i * 2]? = some (AudioCapture.convertSample inputFormat.format data
          (i * (inputFormat.channel_count * getSampleSize inputFormat.format))) ∧
        (2 ≤ inputFormat.channel_count →
          out[i * 2 + 1]? = some (AudioCapture.convertSample inputFormat.format data
            (i * (inputFormat.channel_count * getSampleSize inputFormat.format)
              + getSampleSize inputFormat.format))) ∧
        (inputFormat.channel_count = 1 → out[i * 2 + 1]? = out[i * 2]?) ∧
        (∀ other : RawData,
          AudioCapture.convertSample inputFormat.format other
              (i * (inputFormat.channel_count * getSampleSize inputFormat.format))
            = AudioCapture.convertSample inputFormat.format data
              (i * (inputFormat.channel_count * getSampleSize inputFormat.format)) →
          AudioCapture.convertSample inputFormat.format other
              (i * (inputFormat.channel_count * getSampleSize inputFormat.format)
                + getSampleSize inputFormat.format)
            = AudioCapture.convertSample inputFormat.format data
              (i * (inputFormat.channel_count * getSampleSize inputFormat.format)
                + getSampleSize inputFormat.format) →
          AudioCapture.decodeLeft inputFormat other
              (i * (inputFormat.channel_count * getSampleSize inputFormat.format))
            = AudioCapture.decodeLeft inputFormat data
              (i * (inputFormat.channel_count * getSampleSize inputFormat.format)) ∧
          AudioCapture.decodeRight inputFormat other
              (i * (inputFormat.channel_count * getSampleSize inputFormat.format))
            = AudioCapture.decodeRight inputFormat data
              (i * (inputFormat.channel_count * getSampleSize inputFormat.format))) := by
  refine ⟨_, decodeLoop_ensured inputFormat data _ N block hcap, ?_⟩
  intro i hi
  have hget := decodedFrames_getElem inputFormat data
    (inputFormat.channel_count * getSampleSize inputFormat.format) N 0 i hi
    (block.drop (N * 2))
  simp only [Nat.zero_add] at hget
  have hC1 : inputFormat.channel_count ≥ 1 := hC
  refine ⟨?_, ?_, ?_, ?_⟩
  · rw [hget.1]
    simp [AudioCapture.decodeLeft, hC1]
  · intro h2
    have h2' : inputFormat.channel_count ≥ 2 := h2
    rw [hget.2]
    simp [AudioCapture.decodeRight, h2']
  · intro h1
    rw [hget.1, hget.2]
    simp [AudioCapture.decodeRight, h1]
  · intro other e0 e1
    simp only [AudioCapture.decodeRight, AudioCapture.decodeLeft, hC1, if_true, e0, e1,
      and_self]

theorem decoder_channel_mapping_witness :
    1 ≤ monoUChar.channel_count ∧ 1 * 2 ≤ (List.replicate 2 (0 : IEEE)).length ∧
    ∃ out : List IEEE,
      AudioCapture.decodeLoop monoUChar zeroData
        (monoUChar.channel_count * getSampleSize monoUChar.format) 1 0
        (List.replicate 2 0) = .ok out ∧
      out[0 * 2 + 1]? = out[0 * 2]? := by
  have h1 : 1 ≤ monoUChar.channel_count := by decide
  have h2 : 1 * 2 ≤ (List.replicate 2 (0 : IEEE)).length := by decide
  obtain ⟨out, hrun, hall⟩ :=
    decoder_channel_mapping monoUChar zeroData 1 (List.replicate 2 0) h1 h2
  exact ⟨h1, h2, out, hrun, (hall 0 (by decide)).2.2.1 rfl⟩

/-! ### `processData` -/

/-- C9 (amended): with ratio 1.0, a callback installed, and the decoded block either large
enough already or grown by a successful `realloc`, a delivery of N >= 1 frames makes
`processData` invoke the user callback exactly once, with frame count N and exactly the N decoded
stereo frames, and the carryover is left as it was. -/
theorem processData_passthrough (self : AudioCapture) (fuel : Nat) (alloc : AllocOutcome)
    (data : RawData) (size : Nat) (inputFormat : media_raw_audio_format)
    (hratio : self.mResamplingRatio = 1) (hcb : self.mUserCallback = true)
    (hch : 1 ≤ inputFormat.channel_count) (hbps : getSampleSize inputFormat.format ≠ 0)
    (hN : 1 ≤ size / (inputFormat.channel_count * getSampleSize inputFormat.format))
    (halloc : self.mDeviceFloatBufferSize
        < size / (inputFormat.channel_count * getSampleSize inputFormat.format) * (2 * 4) →
      alloc.deviceFloatBuffer = true) :
    ∃ (self1 : AudioCapture) (stereoData : List IEEE),
      self.processData fuel alloc (some data) size inputFormat
        = .ok (self1, [⟨stereoData,
            size / (inputFormat.channel_count * getSampleSize inputFormat.format)⟩]) ∧
      stereoData.length
        = 2 * (size / (inputFormat.channel_count * getSampleSize inputFormat.format)) ∧
      (∀ i : Nat, i < size / (inputFormat.channel_count * getSampleSize inputFormat.format) →
        stereoData[i * 2]? = some (AudioCapture.decodeLeft inputFormat data
          (i * (inputFormat.channel_count * getSampleSize inputFormat.format))) ∧
        stereoData[i * 2 + 1]? = some (AudioCapture.decodeRight inputFormat data
          (i * (inputFormat.channel_count * getSampleSize inputFormat.format)))) ∧
      self1.mInputBufferOffset = self.mInputBufferOffset := by
  generalize hNdef : size / (inputFormat.channel_count * getSampleSize inputFormat.format) = N
    at hN halloc ⊢
  generalize hfs : inputFormat.channel_count * getSampleSize inputFormat.format = fs at hNdef ⊢
  have hsize : size ≠ 0 := by
    rintro rfl
    simp at hNdef
    omega
  have hens := ensure_length self.mDeviceFloatBuffer N
  have hdec := decodeLoop_ensured inputFormat data fs N _ hens
  refine ⟨{ self with
      mDeviceFloatBuffer := decodedFrames inputFormat data fs 0 N
        ++ (if 4 * self.mDeviceFloatBuffer.length < N * (2 * 4) then
            AudioCapture.realloc self.mDeviceFloatBuffer (N * (2 * 4))
          else self.mDeviceFloatBuffer).drop (N * 2) },
    decodedFrames inputFormat data fs 0 N, ?_, ?_, ?_, rfl⟩
  · unfold AudioCapture.processData
    have hch0 : inputFormat.channel_count ≠ 0 := by omega
    have hN0 : N ≠ 0 := by omega
    simp only [hcb, hsize, hch0, hbps, hfs, hNdef, hN0, or_self, if_false, Bool.true_eq_false]
    have hg : ¬ (4 * self.mDeviceFloatBuffer.length < N * (2 * 4)
        ∧ alloc.deviceFloatBuffer = false) := by
      rintro ⟨h1, h2⟩
      rw [halloc h1] at h2
      exact Bool.noConfusion h2
    have htake : List.take (2 * N) (decodedFrames inputFormat data fs 0 N
        ++ List.drop (N * 2) (if 4 * self.mDeviceFloatBuffer.length < N * (2 * 4) then
            AudioCapture.realloc self.mDeviceFloatBuffer (N * (2 * 4))
          else self.mDeviceFloatBuffer)) = decodedFrames inputFormat data fs 0 N :=
      List.take_left' (by rw [decodedFrames_length]; omega)
    simp only [AudioCapture.mDeviceFloatBufferSize, hg, if_false, hdec, bind, Except.bind,
      hratio, hcb, ne_eq, not_true_eq_false, decide_False, Bool.false_eq_true, true_and,
      gt_iff_lt, Nat.pos_of_ne_zero hN0, if_true, htake]
  · rw [decodedFrames_length]; omega
  · intro i hi
    have := decodedFrames_getElem inputFormat data fs N 0 i hi []
    simpa using this

theorem processData_passthrough_witness :
    (sessionWith 1 0).mResamplingRatio = 1 ∧ (sessionWith 1 0).mUserCallback = true ∧
    1 ≤ stereoShort.channel_count ∧ getSampleSize stereoShort.format ≠ 0 ∧
    1 ≤ 4 / (stereoShort.channel_count * getSampleSize stereoShort.format) ∧
    ∃ (self1 : AudioCapture) (stereoData : List IEEE),
      (sessionWith 1 0).processData 0 ⟨true, true⟩ (some rampData) 4 stereoShort
        = .ok (self1, [⟨stereoData,
            4 / (stereoShort.channel_count * getSampleSize stereoShort.format)⟩]) ∧
      stereoData.length
        = 2 * (4 / (stereoShort.channel_count * getSampleSize stereoShort.format)) ∧
      (∀ i : Nat, i < 4 / (stereoShort.channel_count * getSampleSize stereoShort.format) →
        stereoData[i * 2]? = some (AudioCapture.decodeLeft stereoShort rampData
          (i * (stereoShort.channel_count * getSampleSize stereoShort.format))) ∧
        stereoData[i * 2 + 1]? = some (AudioCapture.decodeRight stereoShort rampData
          (i * (stereoShort.channel_count * getSampleSize stereoShort.format)))) ∧
      self1.mInputBufferOffset = (sessionWith 1 0).mInputBufferOffset :=
  ⟨rfl, rfl, by decide, by decide, by decide,
    processData_passthrough (sessionWith 1 0) 0 ⟨true, true⟩ rampData 4 stereoShort rfl rfl
      (by decide) (by decide) (by decide) (fun _ => rfl)⟩

/-- C9, as stated, fails: a session with ratio 1.0 and a callback installed receives a valid
delivery of one whole signed-16 stereo frame while its decoded block is empty and `realloc`
fails; `processData` returns without any callback invocation. -/
theorem processData_passthrough_alloc_failure :
    (sessionWith 1 0).mResamplingRatio = 1 ∧
    4 / (stereoShort.channel_count * getSampleSize stereoShort.format) = 1 ∧
    (sessionWith 1 0).processData 0 ⟨false, false⟩ (some rampData) 4 stereoShort
      = .ok (sessionWith 1 0, []) := by
  refine ⟨rfl, by decide, ?_⟩
  simp [AudioCapture.processData, sessionWith, stereoShort, getSampleSize,
    AudioCapture.mDeviceFloatBufferSize]

/-- C14: a delivery to `processData` with no data, size 0, channel count 0, an encoding whose
sample size is 0, or fewer bytes than one whole frame returns with no user callback invocation
and the session exactly as it was. -/
theorem processData_invalid_delivery (self : AudioCapture) (fuel : Nat) (alloc : AllocOutcome)
    (data : Option RawData) (size : Nat) (inputFormat : media_raw_audio_format)
    (h : data = none ∨ size = 0 ∨ inputFormat.channel_count = 0
      ∨ getSampleSize inputFormat.format = 0
      ∨ size < inputFormat.channel_count * getSampleSize inputFormat.format) :
    self.processData fuel alloc data size inputFormat = .ok (self, []) := by
  unfold AudioCapture.processData
  cases data with
  | none => rfl
  | some d =>
    simp only
    by_cases h1 : self.mUserCallback = false ∨ size = 0
    · rw [if_pos h1]
    rw [if_neg h1]
    by_cases h2 : inputFormat.channel_count = 0 ∨ getSampleSize inputFormat.format = 0
    · rw [if_pos h2]
    rw [if_neg h2]
    have h3 : size / (inputFormat.channel_count * getSampleSize inputFormat.format) = 0 := by
      rcases h with h | h | h | h | h
      · cases h
      · exact absurd (Or.inr h) h1
      · exact absurd (Or.inl h) h2
      · exact absurd (Or.inr h) h2
      · exact Nat.div_eq_of_lt h
    rw [if_pos h3]

theorem processData_invalid_delivery_witness :
    ((some rampData : Option RawData) = none ∨ 3 = 0 ∨ stereoShort.channel_count = 0
      ∨ getSampleSize stereoShort.format = 0
      ∨ 3 < stereoShort.channel_count * getSampleSize stereoShort.format) ∧
    (sessionWith 1 0).processData 0 ⟨true, true⟩ (some rampData) 3 stereoShort
      = .ok (sessionWith 1 0, []) :=
  ⟨Or.inr (Or.inr (Or.inr (Or.inr (by decide)))),
    processData_invalid_delivery (sessionWith 1 0) 0 ⟨true, true⟩ (some rampData) 3 stereoShort
      (Or.inr (Or.inr (Or.inr (Or.inr (by decide)))))⟩

theorem epsilon_eq_roundDouble : epsilon = IEEE.roundDouble (1 / 100000) := by
  have h : fl64 (1 / 100000) = 5902958103587057 / 590295810358705651712 :=
    fl64_eval _ (-17) (-69) 5902958103587057 _ (by decide) (by norm_num [abs_of_pos])
      (by norm_num [abs_of_pos]) (by norm_num [abs_lt]) (by norm_num)
  rw [IEEE.roundDouble_eq _ _ h (by norm_num [abs_of_pos])]
  rfl

theorem setResamplingRatio_fields (s : AudioCapture) :
    s.setResamplingRatio.mUserCallback = s.mUserCallback ∧
    s.setResamplingRatio.mRecorder = s.mRecorder ∧
    s.setResamplingRatio.mDeviceSampleRate = s.mDeviceSampleRate ∧
    s.setResamplingRatio.mDeviceChannelCount = s.mDeviceChannelCount ∧
    s.setResamplingRatio.mDeviceMediaFormatCode = s.mDeviceMediaFormatCode ∧
    s.setResamplingRatio.mIsInitialized = s.mIsInitialized ∧
    s.setResamplingRatio.mIsRecording = s.mIsRecording ∧
    s.setResamplingRatio.mLastStatus = s.mLastStatus ∧
    s.setResamplingRatio.mDeviceFloatBuffer = s.mDeviceFloatBuffer ∧
    s.setResamplingRatio.mResampledBuffer = s.mResampledBuffer ∧
    s.setResamplingRatio.mInputBufferOffset = s.mInputBufferOffset := by
  unfold AudioCapture.setResamplingRatio
  split_ifs <;> exact ⟨rfl, rfl, rfl, rfl, rfl, rfl, rfl, rfl, rfl, rfl, rfl⟩

theorem setResamplingRatio_pos (s : AudioCapture)
    (h : ResamplingWanted s.mTargetSampleRate s.mDeviceSampleRate) :
    s.setResamplingRatio.mResamplingRatio
      = IEEE.div .roundDouble s.mDeviceSampleRate s.mTargetSampleRate ∧
    s.setResamplingRatio.mTargetSampleRate = s.mTargetSampleRate := by
  unfold ResamplingWanted at h
  unfold AudioCapture.setResamplingRatio
  rw [if_pos h]
  exact ⟨rfl, rfl⟩

theorem setResamplingRatio_neg (s : AudioCapture)
    (h : ¬ ResamplingWanted s.mTargetSampleRate s.mDeviceSampleRate) :
    s.setResamplingRatio.mResamplingRatio = 1 ∧
    s.setResamplingRatio.mTargetSampleRate = 0 := by
  unfold ResamplingWanted at h
  unfold AudioCapture.setResamplingRatio
  rw [if_neg h]
  exact ⟨rfl, rfl⟩

theorem not_resamplingWanted_zero (d : IEEE) : ¬ ResamplingWanted 0 d := by
  intro h
  have := h.1
  simp [IEEE.zero_eq, IEEE.lt] at this

theorem initializeDevice_flags (self : AudioCapture) (host : DeviceHost) :
    (self.initializeDevice host).1.mIsInitialized = self.mIsInitialized ∧
    (self.initializeDevice host).1.mIsRecording = self.mIsRecording := by
  unfold AudioCapture.initializeDevice
  split_ifs <;>
    first
    | exact ⟨rfl, rfl⟩
    | exact ⟨(setResamplingRatio_fields _).2.2.2.2.2.1,
        (setResamplingRatio_fields _).2.2.2.2.2.2.1⟩

theorem initializeDevice_ok (self : AudioCapture) (host : DeviceHost)
    (h : (self.initializeDevice host).2 = .B_OK) :
    (self.initializeDevice host).1 =
      AudioCapture.setResamplingRatio
        { self with
          mRoster := true
          mDeviceSampleRate := host.format.frame_rate
          mDeviceChannelCount := host.format.channel_count
          mDeviceMediaFormatCode := host.format.format } := by
  unfold AudioCapture.initializeDevice at h ⊢
  split_ifs at h ⊢ <;> first | rfl | (exfalso; simp_all)

theorem setResamplingRatio_again (s t : AudioCapture)
    (htar : t.mTargetSampleRate = s.setResamplingRatio.mTargetSampleRate)
    (hdev : t.mDeviceSampleRate = s.mDeviceSampleRate) :
    t.setResamplingRatio.mResamplingRatio = s.setResamplingRatio.mResamplingRatio ∧
    t.setResamplingRatio.mTargetSampleRate = s.setResamplingRatio.mTargetSampleRate := by
  by_cases h : ResamplingWanted s.mTargetSampleRate s.mDeviceSampleRate
  · have hs := setResamplingRatio_pos s h
    rw [hs.2] at htar
    have ht := setResamplingRatio_pos t (by rw [htar, hdev]; exact h)
    rw [ht.1, ht.2, hs.1, hs.2, htar, hdev]
    exact ⟨rfl, rfl⟩
  · have hs := setResamplingRatio_neg s h
    rw [hs.2] at htar
    have ht := setResamplingRatio_neg t (by rw [htar]; exact not_resamplingWanted_zero _)
    rw [ht.1, ht.2, hs.1, hs.2]
    exact ⟨rfl, rfl⟩

theorem new_of_initialized (host : DeviceHost) (callback : Bool) (target : IEEE)
    (h : (AudioCapture.new host callback target).mIsInitialized = true) :
    ((AudioCapture.init callback target).initializeDevice host).2 = .B_OK := by
  by_contra hst
  unfold AudioCapture.new at h
  simp only [hst, if_false] at h
  have := (initializeDevice_flags (AudioCapture.init callback target) host).1
  rw [this] at h
  exact Bool.noConfusion h

theorem new_initialized (host : DeviceHost) (callback : Bool) (target : IEEE)
    (h : (AudioCapture.new host callback target).mIsInitialized = true) :
    (AudioCapture.new host callback target).mDeviceSampleRate = host.format.frame_rate ∧
    (ResamplingWanted target host.format.frame_rate →
      (AudioCapture.new host callback target).mResamplingRatio
          = IEEE.div .roundDouble host.format.frame_rate target ∧
      (AudioCapture.new host callback target).mTargetSampleRate = target) ∧
    (¬ ResamplingWanted target host.format.frame_rate →
      (AudioCapture.new host callback target).mResamplingRatio = 1 ∧
      (AudioCapture.new host callback target).mTargetSampleRate = 0) := by
  have hst := new_of_initialized host callback target h
  have hok := initializeDevice_ok _ host hst
  have hnew : AudioCapture.new host callback target
      = AudioCapture.setResamplingRatio
          { ((AudioCapture.init callback target).initializeDevice host).1 with
            mLastStatus := .B_OK, mIsInitialized := true } := by
    unfold AudioCapture.new
    simp only [hst, if_true]
  rw [hnew, hok]
  generalize hs0 : ({ AudioCapture.init callback target with
      mRoster := true
      mDeviceSampleRate := host.format.frame_rate
      mDeviceChannelCount := host.format.channel_count
      mDeviceMediaFormatCode := host.format.format } : AudioCapture) = s0
  have ht0 : s0.mTargetSampleRate = target := by subst hs0; rfl
  have hd0 : s0.mDeviceSampleRate = host.format.frame_rate := by subst hs0; rfl
  have hagain := setResamplingRatio_again s0
    { s0.setResamplingRatio with mLastStatus := .B_OK, mIsInitialized := true } rfl
    (setResamplingRatio_fields s0).2.2.1
  refine ⟨?_, ?_, ?_⟩
  · rw [(setResamplingRatio_fields _).2.2.1]
    show s0.setResamplingRatio.mDeviceSampleRate = _
    rw [(setResamplingRatio_fields _).2.2.1, hd0]
  · intro hc
    rw [hagain.1, hagain.2]
    have := setResamplingRatio_pos s0 (by rw [ht0, hd0]; exact hc)
    rw [this.1, this.2, ht0, hd0]
    exact ⟨rfl, rfl⟩
  · intro hc
    rw [hagain.1, hagain.2]
    exact setResamplingRatio_neg s0 (by rw [ht0, hd0]; exact hc)

theorem cleanup_fields (s : AudioCapture) :
    s.cleanupMediaResources.cleanupBuffers.mIsRecording = s.mIsRecording ∧
    s.cleanupMediaResources.cleanupBuffers.mTargetSampleRate = s.mTargetSampleRate ∧
    s.cleanupMediaResources.cleanupBuffers.mDeviceSampleRate = s.mDeviceSampleRate ∧
    s.cleanupMediaResources.cleanupBuffers.mResamplingRatio = s.mResamplingRatio ∧
    s.cleanupMediaResources.cleanupBuffers.mIsInitialized = s.mIsInitialized ∧
    s.cleanupMediaResources.cleanupBuffers.mUserCallback = s.mUserCallback := by
  unfold AudioCapture.cleanupMediaResources AudioCapture.cleanupBuffers
  split_ifs <;> exact ⟨rfl, rfl, rfl, rfl, rfl, rfl⟩

theorem cleanupMediaResources_fields (s : AudioCapture) :
    s.cleanupMediaResources.mIsRecording = s.mIsRecording ∧
    s.cleanupMediaResources.mTargetSampleRate = s.mTargetSampleRate ∧
    s.cleanupMediaResources.mDeviceSampleRate = s.mDeviceSampleRate ∧
    s.cleanupMediaResources.mResamplingRatio = s.mResamplingRatio := by
  unfold AudioCapture.cleanupMediaResources
  split_ifs <;> exact ⟨rfl, rfl, rfl, rfl⟩

theorem Stop_fields (s : AudioCapture) :
    s.Stop.1.mIsRecording = false ∧
    s.Stop.1.mTargetSampleRate = s.mTargetSampleRate ∧
    s.Stop.1.mDeviceSampleRate = s.mDeviceSampleRate ∧
    s.Stop.1.mResamplingRatio = s.mResamplingRatio ∧
    s.Stop.1.mIsInitialized = s.mIsInitialized ∧
    s.Stop.1.mUserCallback = s.mUserCallback ∧
    s.Stop.1.mDeviceFloatBuffer = [] ∧ s.Stop.1.mResampledBuffer = [] ∧
    s.Stop.1.mInputBufferOffset = 0 := by
  unfold AudioCapture.Stop AudioCapture.cleanupMediaResources AudioCapture.cleanupBuffers
  simp only
  split_ifs <;> exact ⟨rfl, rfl, rfl, rfl, rfl, rfl, rfl, rfl, rfl⟩

theorem Start_prepared (s : AudioCapture) :
    (if s.mRecorder = true then s.cleanupMediaResources.cleanupBuffers else s).mIsRecording
      = s.mIsRecording ∧
    (if s.mRecorder = true then s.cleanupMediaResources.cleanupBuffers
      else s).mTargetSampleRate = s.mTargetSampleRate ∧
    (if s.mRecorder = true then s.cleanupMediaResources.cleanupBuffers
      else s).mDeviceSampleRate = s.mDeviceSampleRate ∧
    (if s.mRecorder = true then s.cleanupMediaResources.cleanupBuffers
      else s).mResamplingRatio = s.mResamplingRatio := by
  split_ifs
  · exact ⟨(cleanup_fields s).1, (cleanup_fields s).2.1, (cleanup_fields s).2.2.1,
      (cleanup_fields s).2.2.2.1⟩
  · exact ⟨rfl, rfl, rfl, rfl⟩

theorem Start_not_negotiated (s : AudioCapture) (host : StartHost) (h : ¬ Negotiates s host) :
    (s.Start host).1.mTargetSampleRate = s.mTargetSampleRate ∧
    (s.Start host).1.mDeviceSampleRate = s.mDeviceSampleRate ∧
    (s.Start host).1.mResamplingRatio = s.mResamplingRatio ∧
    ((s.Start host).1.mIsRecording = true → s.mIsRecording = true) := by
  unfold AudioCapture.Start
  by_cases hrec : s.mIsRecording = true
  · rw [if_pos hrec]
    exact ⟨rfl, rfl, rfl, fun _ => hrec⟩
  rw [if_neg hrec]
  by_cases hi : s.mIsInitialized = false
  · rw [if_pos hi]
    exact ⟨rfl, rfl, rfl, fun x => x⟩
  rw [if_neg hi]
  simp only
  have hp := Start_prepared s
  generalize (if s.mRecorder = true then s.cleanupMediaResources.cleanupBuffers else s) = s0
    at hp ⊢
  have hrec0 : s0.mIsRecording ≠ true := by rw [hp.1]; exact hrec
  by_cases h1 : host.recorderAllocated = false
  · rw [if_pos h1]
    exact ⟨hp.2.1, hp.2.2.1, hp.2.2.2, fun x => absurd x hrec0⟩
  rw [if_neg h1]
  by_cases h2 : host.initCheck ≠ .B_OK
  · rw [if_pos h2]
    exact ⟨hp.2.1, hp.2.2.1, hp.2.2.2, fun x => absurd x hrec0⟩
  rw [if_neg h2]
  by_cases h3 : host.setHooks ≠ .B_OK
  · rw [if_pos h3]
    exact ⟨hp.2.1, hp.2.2.1, hp.2.2.2, fun x => absurd x hrec0⟩
  rw [if_neg h3]
  by_cases h4 : host.getFreeOutputsFor ≠ .B_OK ∨ host.count < 1
  · rw [if_pos h4]
    have hc := cleanupMediaResources_fields { s0 with mRecorder := true }
    exact ⟨hc.2.1.trans hp.2.1, hc.2.2.1.trans hp.2.2.1, hc.2.2.2.trans hp.2.2.2,
      fun x => absurd (hc.1.symm.trans x) hrec0⟩
  rw [if_neg h4]
  by_cases h5 : host.connect ≠ .B_OK
  · rw [if_pos h5]
    have hc := cleanupMediaResources_fields { s0 with mRecorder := true }
    exact ⟨hc.2.1.trans hp.2.1, hc.2.2.1.trans hp.2.2.1, hc.2.2.2.trans hp.2.2.2,
      fun x => absurd (hc.1.symm.trans x) hrec0⟩
  rw [if_neg h5]
  by_cases h6 : host.acceptedIsRawAudio = false
  · rw [if_pos h6]
    have hc := Stop_fields { s0 with mRecorder := true }
    refine ⟨hc.2.1.trans hp.2.1, hc.2.2.1.trans hp.2.2.1, hc.2.2.2.1.trans hp.2.2.2,
      fun x => ?_⟩
    have : (AudioCapture.Stop { s0 with mRecorder := true }).1.mIsRecording = true := x
    rw [hc.1] at this
    exact Bool.noConfusion this
  exfalso
  apply h
  refine ⟨by simpa using hrec, by simpa using hi, by simpa using h1, by simpa using h2,
    by simpa using h3, ?_, ?_, by simpa using h5, by simpa using h6⟩
  · by_contra hc
    exact h4 (Or.inl hc)
  · by_contra hc
    exact h4 (Or.inr (by omega))

theorem Start_negotiated (s : AudioCapture) (host : StartHost) (h : Negotiates s host) :
    (s.Start host).1.mDeviceSampleRate = host.accepted.frame_rate ∧
    (RateChanged s.mDeviceSampleRate host.accepted.frame_rate →
      (ResamplingWanted s.mTargetSampleRate host.accepted.frame_rate →
        (s.Start host).1.mResamplingRatio
            = IEEE.div .roundDouble host.accepted.frame_rate s.mTargetSampleRate ∧
        (s.Start host).1.mTargetSampleRate = s.mTargetSampleRate) ∧
      (¬ ResamplingWanted s.mTargetSampleRate host.accepted.frame_rate →
        (s.Start host).1.mResamplingRatio = 1 ∧ (s.Start host).1.mTargetSampleRate = 0)) ∧
    (¬ RateChanged s.mDeviceSampleRate host.accepted.frame_rate →
      (s.Start host).1.mResamplingRatio = s.mResamplingRatio ∧
      (s.Start host).1.mTargetSampleRate = s.mTargetSampleRate) ∧
    (host.recorderStart = .B_OK →
      (s.Start host).1.mIsRecording = true ∧ (s.Start host).2 = .B_OK ∧
      (s.Start host).1.mInputBufferOffset = 0) ∧
    (host.recorderStart ≠ .B_OK →
      (s.Start host).1.mIsRecording = false ∧ (s.Start host).2 = host.recorderStart) := by
  obtain ⟨hrec, hi, h1, h2, h3, h4, h4c, h5, h6⟩ := h
  have hp := Start_prepared s
  unfold AudioCapture.Start
  rw [if_neg (by rw [hrec]; simp), if_neg (by rw [hi]; simp)]
  simp only
  rw [if_neg (by rw [h1]; simp), if_neg (by rw [h2]; simp), if_neg (by rw [h3]; simp),
    if_neg (by rw [h4]; simp; omega), if_neg (by rw [h5]; simp), if_neg (by rw [h6]; simp)]
  generalize (if s.mRecorder = true then s.cleanupMediaResources.cleanupBuffers else s) = s0
    at hp ⊢
  generalize hx : ({ s0 with
      mRecorder := true
      mDeviceSampleRate := host.accepted.frame_rate
      mDeviceChannelCount := host.accepted.channel_count
      mDeviceMediaFormatCode := host.accepted.format } : AudioCapture) = x
  have hxt : x.mTargetSampleRate = s.mTargetSampleRate := by rw [← hx]; exact hp.2.1
  have hxd : x.mDeviceSampleRate = host.accepted.frame_rate := by rw [← hx]
  have hxr : x.mResamplingRatio = s.mResamplingRatio := by rw [← hx]; exact hp.2.2.2
  rw [hp.2.2.1]
  generalize hm : (if IEEE.lt epsilon (IEEE.abs (IEEE.sub IEEE.roundFloat s.mDeviceSampleRate
      host.accepted.frame_rate)) = true then AudioCapture.setResamplingRatio x else x) = mid
  have hmd : mid.mDeviceSampleRate = host.accepted.frame_rate := by
    rw [← hm]
    split_ifs
    · rw [(setResamplingRatio_fields x).2.2.1, hxd]
    · exact hxd
  have hch : RateChanged s.mDeviceSampleRate host.accepted.frame_rate →
      (ResamplingWanted s.mTargetSampleRate host.accepted.frame_rate →
        mid.mResamplingRatio
            = IEEE.div .roundDouble host.accepted.frame_rate s.mTargetSampleRate ∧
        mid.mTargetSampleRate = s.mTargetSampleRate) ∧
      (¬ ResamplingWanted s.mTargetSampleRate host.accepted.frame_rate →
        mid.mResamplingRatio = 1 ∧ mid.mTargetSampleRate = 0) := by
    intro hc
    have hc1 : IEEE.lt epsilon (IEEE.abs (IEEE.sub IEEE.roundFloat s.mDeviceSampleRate
      host.accepted.frame_rate)) = true := hc
    rw [← hm, if_pos hc1]
    constructor
    · intro hw
      have := setResamplingRatio_pos x (by rw [hxt, hxd]; exact hw)
      rw [this.1, this.2, hxt, hxd]
      exact ⟨rfl, rfl⟩
    · intro hw
      exact setResamplingRatio_neg x (by rw [hxt, hxd]; exact hw)
  have hnc : ¬ RateChanged s.mDeviceSampleRate host.accepted.frame_rate →
      mid.mResamplingRatio = s.mResamplingRatio ∧
      mid.mTargetSampleRate = s.mTargetSampleRate := by
    intro hc
    have hc1 : ¬ IEEE.lt epsilon (IEEE.abs (IEEE.sub IEEE.roundFloat s.mDeviceSampleRate
      host.accepted.frame_rate)) = true := hc
    rw [← hm, if_neg hc1]
    exact ⟨hxr, hxt⟩
  by_cases h7 : host.recorderStart ≠ .B_OK
  · rw [if_pos h7]
    have hs := Stop_fields { mid with mInputBufferOffset := 0 }
    refine ⟨hs.2.2.1.trans hmd, fun hc => ⟨fun hw => ?_, fun hw => ?_⟩, fun hc => ?_,
      fun hok => absurd hok h7, fun _ => ⟨hs.1, rfl⟩⟩
    · exact ⟨hs.2.2.2.1.trans ((hch hc).1 hw).1, hs.2.1.trans ((hch hc).1 hw).2⟩
    · exact ⟨hs.2.2.2.1.trans ((hch hc).2 hw).1, hs.2.1.trans ((hch hc).2 hw).2⟩
    · exact ⟨hs.2.2.2.1.trans (hnc hc).1, hs.2.1.trans (hnc hc).2⟩
  · rw [if_neg h7]
    exact ⟨hmd, hch, hnc, fun _ => ⟨rfl, rfl, rfl⟩, fun hne => absurd hne h7⟩

theorem Start_cases_running (t : AudioCapture) (host : StartHost)
    (hrec : t.mIsRecording = false) (hrun : (t.Start host).1.mIsRecording = true) :
    (t.Start host).2 = .B_OK := by
  by_cases hn : Negotiates t host
  · have h := Start_negotiated t host hn
    by_cases h7 : host.recorderStart = .B_OK
    · exact (h.2.2.2.1 h7).2.1
    · have := (h.2.2.2.2 h7).1
      rw [this] at hrun
      exact Bool.noConfusion hrun
  · have := (Start_not_negotiated t host hn).2.2.2 hrun
    rw [hrec] at this
    exact Bool.noConfusion this

theorem Start_success (s : AudioCapture) (host : StartHost) (hrec : s.mIsRecording = false)
    (hi : s.mIsInitialized = true) (h1 : host.recorderAllocated = true)
    (h2 : host.initCheck = .B_OK) (h3 : host.setHooks = .B_OK)
    (h4 : host.getFreeOutputsFor = .B_OK) (h4c : 1 ≤ host.count) (h5 : host.connect = .B_OK)
    (h6 : host.acceptedIsRawAudio = true) (h7 : host.recorderStart = .B_OK) :
    (s.Start host).1.mIsRecording = true ∧ (s.Start host).2 = .B_OK := by
  have h := Start_negotiated s host ⟨hrec, hi, h1, h2, h3, h4, h4c, h5, h6⟩
  exact ⟨(h.2.2.2.1 h7).1, (h.2.2.2.1 h7).2.1⟩

theorem initializeDevice_okDeviceHost (s : AudioCapture) (rate : IEEE) :
    (s.initializeDevice (okDeviceHost rate)).2 = .B_OK := by
  simp [AudioCapture.initializeDevice, okDeviceHost]

theorem new_flags (host : DeviceHost) (callback : Bool) (target : IEEE)
    (hst : ((AudioCapture.init callback target).initializeDevice host).2 = .B_OK) :
    (AudioCapture.new host callback target).mIsInitialized = true ∧
    (AudioCapture.new host callback target).mIsRecording = false ∧
    (AudioCapture.new host callback target).mLastStatus = .B_OK := by
  have hnew : AudioCapture.new host callback target
      = AudioCapture.setResamplingRatio
          { ((AudioCapture.init callback target).initializeDevice host).1 with
            mLastStatus := .B_OK, mIsInitialized := true } := by
    unfold AudioCapture.new
    simp only [hst, if_true]
  rw [hnew]
  refine ⟨?_, ?_, ?_⟩
  · rw [(setResamplingRatio_fields _).2.2.2.2.2.1]
  · rw [(setResamplingRatio_fields _).2.2.2.2.2.2.1]
    exact (initializeDevice_flags _ host).2
  · rw [(setResamplingRatio_fields _).2.2.2.2.2.2.2.1]

theorem notifyCallbackC_fields (s : AudioCapture) (willStop : Bool) :
    (s.notifyCallbackC willStop).mTargetSampleRate = s.mTargetSampleRate ∧
    (s.notifyCallbackC willStop).mDeviceSampleRate = s.mDeviceSampleRate ∧
    (s.notifyCallbackC willStop).mResamplingRatio = s.mResamplingRatio := by
  unfold AudioCapture.notifyCallbackC
  split_ifs <;> exact ⟨rfl, rfl, rfl⟩

theorem linearResample_fields (self s : AudioCapture) (fuel : Nat)
    (outBuffer inBuffer out : List IEEE) (n cnt : Nat)
    (h : self.linearResample fuel outBuffer inBuffer n = .ok (s, out, cnt)) :
    s.mResamplingRatio = self.mResamplingRatio ∧ s.mIsRecording = self.mIsRecording ∧
    s.mTargetSampleRate = self.mTargetSampleRate ∧
    s.mDeviceSampleRate = self.mDeviceSampleRate ∧
    s.mUserCallback = self.mUserCallback ∧
    s.mDeviceFloatBuffer = self.mDeviceFloatBuffer := by
  unfold AudioCapture.linearResample at h
  split_ifs at h with hn
  · simp only [Except.ok.injEq, Prod.mk.injEq] at h
    rw [← h.1]
    exact ⟨rfl, rfl, rfl, rfl, rfl, rfl⟩
  · cases hl : AudioCapture.resampleLoop self.mResamplingRatio inBuffer n fuel
        self.mInputBufferOffset outBuffer 0 with
    | error e => rw [hl] at h; simp [bind, Except.bind] at h
    | ok v =>
      rw [hl] at h
      simp only [bind, Except.bind, Except.ok.injEq, Prod.mk.injEq] at h
      rw [← h.1]
      exact ⟨rfl, rfl, rfl, rfl, rfl, rfl⟩

theorem processData_fields (self s1 : AudioCapture) (fuel : Nat) (alloc : AllocOutcome)
    (data : Option RawData) (size : Nat) (inputFormat : media_raw_audio_format)
    (calls : List CallbackCall)
    (h : self.processData fuel alloc data size inputFormat = .ok (s1, calls)) :
    s1.mResamplingRatio = self.mResamplingRatio ∧ s1.mIsRecording = self.mIsRecording ∧
    s1.mTargetSampleRate = self.mTargetSampleRate ∧
    s1.mDeviceSampleRate = self.mDeviceSampleRate := by
  unfold AudioCapture.processData at h
  cases data with
  | none =>
    simp only [Except.ok.injEq, Prod.mk.injEq] at h
    rw [← h.1]; exact ⟨rfl, rfl, rfl, rfl⟩
  | some d =>
    simp only at h
    split_ifs at h with h1 h2 h3 h4
    · simp only [Except.ok.injEq, Prod.mk.injEq] at h
      rw [← h.1]; exact ⟨rfl, rfl, rfl, rfl⟩
    · simp only [Except.ok.injEq, Prod.mk.injEq] at h
      rw [← h.1]; exact ⟨rfl, rfl, rfl, rfl⟩
    · simp only [Except.ok.injEq, Prod.mk.injEq] at h
      rw [← h.1]; exact ⟨rfl, rfl, rfl, rfl⟩
    · simp only [Except.ok.injEq, Prod.mk.injEq] at h
      rw [← h.1]; exact ⟨rfl, rfl, rfl, rfl⟩
    all_goals
      generalize hd : AudioCapture.decodeLoop _ _ _ _ _ _ = res at h
      cases res with
      | error e => simp [bind, Except.bind] at h
      | ok buf =>
        simp only [bind, Except.bind] at h
        by_cases hr : self.mResamplingRatio = 1
        · simp only [hr, ne_eq, not_true_eq_false, decide_False, Bool.false_eq_true,
            if_false] at h
          by_cases hc : self.mUserCallback = true
              ∧ size / (inputFormat.channel_count * getSampleSize inputFormat.format) > 0
          · rw [if_pos hc] at h
            simp only [Except.ok.injEq, Prod.mk.injEq] at h
            rw [← h.1]; exact ⟨hr.symm, rfl, rfl, rfl⟩
          · rw [if_neg hc] at h
            simp only [Except.ok.injEq, Prod.mk.injEq] at h
            rw [← h.1]; exact ⟨hr.symm, rfl, rfl, rfl⟩
        · simp only [hr, ne_eq, not_false_eq_true, decide_True, if_true] at h
          generalize hM : AudioCapture.maxOutputFrames _ _ = mres at h
          cases mres with
          | error e => simp at h
          | ok M =>
            simp only at h
            by_cases hc : 4 * self.mResampledBuffer.length < M * (2 * 4) % 2 ^ 64
                ∧ alloc.resampledBuffer = false
            · simp only [AudioCapture.mResampledBufferSize, hc,
                and_self, if_true, Except.ok.injEq, Prod.mk.injEq] at h
              rw [← h.1]; exact ⟨rfl, rfl, rfl, rfl⟩
            · simp only [AudioCapture.mResampledBufferSize, hc, if_false] at h
              generalize hl : AudioCapture.linearResample _ _ _ _ _ = lr at h
              cases lr with
              | error e => simp at h
              | ok v =>
                obtain ⟨s, out, cnt⟩ := v
                have hf := linearResample_fields _ _ _ _ _ _ _ _ hl
                simp only at h hf
                have hs1 : s1.mResamplingRatio = s.mResamplingRatio
                    ∧ s1.mIsRecording = s.mIsRecording
                    ∧ s1.mTargetSampleRate = s.mTargetSampleRate
                    ∧ s1.mDeviceSampleRate = s.mDeviceSampleRate := by
                  by_cases hc2 : s.mUserCallback = true ∧ cnt > 0
                  · rw [if_pos hc2] at h
                    simp only [Except.ok.injEq, Prod.mk.injEq] at h
                    rw [← h.1]; exact ⟨rfl, rfl, rfl, rfl⟩
                  · rw [if_neg hc2] at h
                    simp only [Except.ok.injEq, Prod.mk.injEq] at h
                    rw [← h.1]; exact ⟨rfl, rfl, rfl, rfl⟩
                exact ⟨hs1.1.trans hf.1, hs1.2.1.trans hf.2.1, hs1.2.2.1.trans hf.2.2.1,
                  hs1.2.2.2.trans hf.2.2.2.1⟩

theorem readCallbackC_fields (self s1 : AudioCapture) (fuel : Nat) (alloc : AllocOutcome)
    (data : Option RawData) (size : Nat) (formatIsRawAudio : Bool)
    (raw_audio : media_raw_audio_format) (calls : List CallbackCall)
    (h : self.readCallbackC fuel alloc data size formatIsRawAudio raw_audio = .ok (s1, calls)) :
    s1.mResamplingRatio = self.mResamplingRatio ∧ s1.mIsRecording = self.mIsRecording ∧
    s1.mTargetSampleRate = self.mTargetSampleRate ∧
    s1.mDeviceSampleRate = self.mDeviceSampleRate := by
  unfold AudioCapture.readCallbackC at h
  split_ifs at h
  · exact processData_fields _ _ _ _ _ _ _ _ h
  · simp only [Except.ok.injEq, Prod.mk.injEq] at h
    rw [← h.1]
    exact ⟨rfl, rfl, rfl, rfl⟩

/-- C18: `Stop()` leaves `IsRunning()` false, both blocks released (byte size 0) and the
carryover 0; the will-stop notification leaves `IsRunning()` false; in a session that is not
running every raw delivery invokes no user callback and changes nothing; and a session that is
not running is running again only after a `Start()` that returns `B_OK`. -/
theorem no_processing_after_stop (s : AudioCapture) :
    (s.Stop.1.mIsRecording = false ∧ s.Stop.1.mDeviceFloatBufferSize = 0 ∧
      s.Stop.1.mResampledBufferSize = 0 ∧ s.Stop.1.mInputBufferOffset = 0) ∧
    (s.notifyCallbackC true).mIsRecording = false ∧
    (∀ (t : AudioCapture) (fuel : Nat) (alloc : AllocOutcome) (data : Option RawData)
        (size : Nat) (formatIsRawAudio : Bool) (raw_audio : media_raw_audio_format),
      t.mIsRecording = false →
      t.readCallbackC fuel alloc data size formatIsRawAudio raw_audio = .ok (t, [])) ∧
    (∀ (t : AudioCapture) (host : StartHost), t.mIsRecording = false →
      (t.Start host).1.mIsRecording = true → (t.Start host).2 = .B_OK) := by
  have hs := Stop_fields s
  refine ⟨⟨hs.1, ?_, ?_, hs.2.2.2.2.2.2.2.2⟩, ?_, ?_, ?_⟩
  · unfold AudioCapture.mDeviceFloatBufferSize
    rw [hs.2.2.2.2.2.2.1]
    rfl
  · unfold AudioCapture.mResampledBufferSize
    rw [hs.2.2.2.2.2.2.2.1]
    rfl
  · unfold AudioCapture.notifyCallbackC
    simp only [if_true]
    split_ifs with h
    · rfl
    · simpa using h
  · intro t fuel alloc data size formatIsRawAudio raw_audio ht
    unfold AudioCapture.readCallbackC
    rw [if_neg (by rw [ht]; simp)]
  · intro t host hrec hrun
    exact Start_cases_running t host hrec hrun

theorem initializeDevice_status (self : AudioCapture) (host : DeviceHost) :
    (self.initializeDevice host).2 = .B_OK ↔
      ((host.currentRoster = true ∨ (host.roster = true ∧ host.rosterStatus = .B_OK)) ∧
        host.getAudioInput = .B_OK ∧ host.audioInputNodeIsNull = false ∧
        host.getFreeOutputsFor = .B_OK ∧ 1 ≤ host.count) := by
  unfold AudioCapture.initializeDevice
  split_ifs with c1 c2 c3 c4 c5 c6 <;> simp_all
  cases hc : host.currentRoster
  · exact Or.inr (c1 hc)
  · exact Or.inl rfl

theorem new_uninitialized (host : DeviceHost) (callback : Bool) (target : IEEE)
    (hst : ((AudioCapture.init callback target).initializeDevice host).2 ≠ .B_OK) :
    (AudioCapture.new host callback target).mIsInitialized = false ∧
    (AudioCapture.new host callback target).mIsRecording = false ∧
    (AudioCapture.new host callback target).mLastStatus
      = ((AudioCapture.init callback target).initializeDevice host).2 := by
  have hf := initializeDevice_flags (AudioCapture.init callback target) host
  unfold AudioCapture.new
  simp only [hst, if_false]
  exact ⟨hf.1, hf.2, trivial⟩

/-- C17 (amended): the constructor's setup path does not depend on the format the device
reports. When the roster, the input node and a free raw-audio output are found, it returns
`B_OK` and the session is Initialized with `Status()` `B_OK`, also for a zero-valued format.
When one of them is missing it returns a non-OK status, the session stays Uninitialized with
that status, and `Start()` returns it without entering Running. -/
theorem initialization_status (host : DeviceHost) (callback : Bool) (target : IEEE)
    (start : StartHost) :
    (((host.currentRoster = true ∨ (host.roster = true ∧ host.rosterStatus = .B_OK)) ∧
        host.getAudioInput = .B_OK ∧ host.audioInputNodeIsNull = false ∧
        host.getFreeOutputsFor = .B_OK ∧ 1 ≤ host.count) →
      (AudioCapture.new host callback target).mIsInitialized = true ∧
      (AudioCapture.new host callback target).mLastStatus = .B_OK) ∧
    (¬ ((host.currentRoster = true ∨ (host.roster = true ∧ host.rosterStatus = .B_OK)) ∧
        host.getAudioInput = .B_OK ∧ host.audioInputNodeIsNull = false ∧
        host.getFreeOutputsFor = .B_OK ∧ 1 ≤ host.count) →
      (AudioCapture.new host callback target).mIsInitialized = false ∧
      (AudioCapture.new host callback target).mLastStatus ≠ .B_OK ∧
      ((AudioCapture.new host callback target).Start start).2
        = (AudioCapture.new host callback target).mLastStatus ∧
      ((AudioCapture.new host callback target).Start start).1.mIsRecording = false) := by
  constructor
  · intro h
    have hst := (initializeDevice_status (AudioCapture.init callback target) host).2 h
    have := new_flags host callback target hst
    exact ⟨this.1, this.2.2⟩
  · intro h
    have hst : ((AudioCapture.init callback target).initializeDevice host).2 ≠ .B_OK :=
      fun hok => h ((initializeDevice_status _ host).1 hok)
    have hn := new_uninitialized host callback target hst
    have hstart : (AudioCapture.new host callback target).Start start
        = (AudioCapture.new host callback target,
            (AudioCapture.new host callback target).mLastStatus) := by
      unfold AudioCapture.Start
      rw [if_neg (by rw [hn.2.1]; simp), if_pos hn.1]
    refine ⟨hn.1, ?_, ?_, ?_⟩
    · rw [hn.2.2]; exact hst
    · rw [hstart]
    · rw [hstart]; exact hn.2.1

/-- C17, as stated, fails: the device reports sample rate 0, channel count 0 and an encoding of
unknown sample size, every roster call succeeds. The constructor's setup path returns `B_OK`,
the session is Initialized, and `Start()` returns `B_OK` and enters Running. -/
theorem invalid_format_still_initializes :
    invalidDeviceHost.format.frame_rate = 0 ∧ invalidDeviceHost.format.channel_count = 0 ∧
    getSampleSize invalidDeviceHost.format.format = 0 ∧
    ((AudioCapture.init true 44100).initializeDevice invalidDeviceHost).2 = .B_OK ∧
    (AudioCapture.new invalidDeviceHost true 44100).mIsInitialized = true ∧
    (AudioCapture.new invalidDeviceHost true 44100).mLastStatus = .B_OK ∧
    ((AudioCapture.new invalidDeviceHost true 44100).Start (okStartHost 48000)).2 = .B_OK ∧
    ((AudioCapture.new invalidDeviceHost true 44100).Start
      (okStartHost 48000)).1.mIsRecording = true := by
  have hst : ((AudioCapture.init true 44100).initializeDevice invalidDeviceHost).2 = .B_OK :=
    (initializeDevice_status _ _).2 (by simp [invalidDeviceHost])
  have hf := new_flags invalidDeviceHost true 44100 hst
  have hs := Start_success (AudioCapture.new invalidDeviceHost true 44100)
    (okStartHost 48000) hf.2.1 hf.1 rfl rfl rfl rfl (by decide) rfl rfl rfl
  exact ⟨rfl, rfl, rfl, hst, hf.1, hf.2.2, hs.2, hs.1⟩

/-! ### The sequence of input positions -/

theorem IEEE.add_roundDouble_fin (p r : ℚ) (h : |p + r| ≤ 2 ^ (1023 : ℤ)) :
    IEEE.add .roundDouble (.fin p) (.fin r) = .fin (fl64 (p + r)) := by
  simp only [IEEE.add]
  exact IEEE.roundDouble_of_abs_le _ h

theorem fl64_add_bounds (x : ℚ) (E : ℤ) (hE : -1074 ≤ E) (hx : |x| < 2 ^ (E + 53)) :
    x - 2 ^ E / 2 ≤ fl64 x ∧ fl64 x ≤ x + 2 ^ E / 2 := by
  have h := roundTo_sub_le 53 (-1074) x E hE (by simpa using hx)
  rw [abs_le] at h
  unfold fl64
  constructor <;> linarith [h.1, h.2]

/-- Under the stated bounds every addition `pos += ratio` advances the position by at least
half the ratio, so that the exit test is met after at most `j` additions when
`N - 1 - pos ≤ j * (ratio / 2)`. -/
theorem posSeq_stops (ρ : ℚ) (N : ℕ) (E : ℤ) (hρ : 0 < ρ) (hE : (2 : ℚ) ^ E ≤ ρ)
    (hEmin : -1074 ≤ E) (hN : (N : ℚ) + ρ ≤ 2 ^ (E + 53)) (h64 : (N : ℚ) + 2 * ρ ≤ 2 ^ 64) :
    ∀ (j : ℕ) (p : ℚ), 0 ≤ p → p < 2 ^ 64 → (N : ℚ) - 1 - p ≤ j * (ρ / 2) →
      ∃ m : ℕ, m ≤ j ∧ (∀ k : ℕ, k < m → Continues N (posSeq (.fin ρ) (.fin p) k)) ∧
        Stops N (posSeq (.fin ρ) (.fin p) m) := by
  intro j
  induction j with
  | zero =>
    intro p h0 h1 hj
    refine ⟨0, le_refl _, fun k hk => absurd hk (Nat.not_lt_zero k), p, rfl, h0, h1, ?_⟩
    have hp : (N : ℚ) - 1 ≤ p := by simpa using hj
    have hfl : (N : ℚ) - 1 < (⌊p⌋₊ : ℚ) + 1 := lt_of_le_of_lt hp (Nat.lt_floor_add_one p)
    have : (N : ℚ) < ((⌊p⌋₊ + 1 + 1 : ℕ) : ℚ) := by push_cast; linarith
    have : N < ⌊p⌋₊ + 1 + 1 := by exact_mod_cast this
    omega
  | succ j ih =>
    intro p h0 h1 hj
    by_cases hexit : N ≤ ⌊p⌋₊ + 1
    · exact ⟨0, Nat.zero_le _, fun k hk => absurd hk (Nat.not_lt_zero k), p, rfl, h0, h1, hexit⟩
    · have hlt : ⌊p⌋₊ + 1 < N := by omega
      have hpN : p < (N : ℚ) - 1 := by
        have h2 : ((⌊p⌋₊ + 1 + 1 : ℕ) : ℚ) ≤ (N : ℚ) := by exact_mod_cast hlt
        push_cast at h2
        linarith [Nat.lt_floor_add_one p]
      have hx : |p + ρ| < 2 ^ (E + 53) := by
        rw [abs_of_nonneg (by linarith)]
        linarith
      have hb := fl64_add_bounds (p + ρ) E hEmin hx
      have hfin : |p + ρ| ≤ 2 ^ (1023 : ℤ) := by
        rw [abs_of_nonneg (by linarith)]
        have : (2 : ℚ) ^ 64 ≤ 2 ^ (1023 : ℤ) := by norm_num
        linarith
      have hstep : IEEE.add .roundDouble (.fin p) (.fin ρ) = .fin (fl64 (p + ρ)) :=
        IEEE.add_roundDouble_fin p ρ hfin
      have hE2 : (0 : ℚ) < 2 ^ E := by positivity
      obtain ⟨m, hm, hcont, hstop⟩ := ih (fl64 (p + ρ)) (fl64_nonneg _ (by linarith))
        (by linarith [hb.2]) (by push_cast at hj; linarith [hb.1])
      refine ⟨m + 1, by omega, ?_, ?_⟩
      · intro k hk
        cases k with
        | zero => exact ⟨p, rfl, h0, h1, hlt⟩
        | succ k =>
          rw [posSeq_succ, hstep]
          exact hcont k (by omega)
      · rw [posSeq_succ, hstep]
        exact hstop

theorem exists_pow_le (ρ : ℚ) (N : ℕ) (hN : 1 ≤ N) (hρ : 0 < ρ)
    (hprog : (N : ℚ) + ρ ≤ ρ * 2 ^ 52) :
    ∃ E : ℤ, (2 : ℚ) ^ E ≤ ρ ∧ -1074 ≤ E ∧ (N : ℚ) + ρ ≤ 2 ^ (E + 53) := by
  have hb := intLog_two_bounds ρ hρ
  refine ⟨Int.log 2 ρ, hb.1, ?_, ?_⟩
  · by_contra hlt
    have h1 : Int.log 2 ρ + 1 ≤ -1074 := by omega
    have h2 : (2 : ℚ) ^ (Int.log 2 ρ + 1) ≤ 2 ^ (-1074 : ℤ) :=
      zpow_le_zpow_right₀ (by norm_num) h1
    have h3 : ρ < 2 ^ (-1074 : ℤ) := lt_of_lt_of_le hb.2 h2
    have h4 : (1 : ℚ) ≤ N := by exact_mod_cast hN
    have h5 : (2 : ℚ) ^ (-1074 : ℤ) * 2 ^ 52 ≤ 1 := by
      rw [show ((2 : ℚ) ^ 52) = 2 ^ (52 : ℤ) by norm_num, ← zpow_add₀ (by norm_num)]
      exact zpow_le_one_of_nonpos₀ (by norm_num) (by norm_num)
    nlinarith
  · have h1 : (2 : ℚ) ^ (Int.log 2 ρ + 53) = 2 ^ (Int.log 2 ρ + 1) * 2 ^ 52 := by
      rw [show ((2 : ℚ) ^ 52) = 2 ^ (52 : ℤ) by norm_num, ← zpow_add₀ (by norm_num)]
      congr 1
      ring
    rw [h1]
    nlinarith [hb.2]

/-- Termination of the loop in terms of the ratio and the frame count alone. -/
theorem posSeq_terminates (ρ p : ℚ) (N : ℕ) (hρ : 0 < ρ)
    (hprog : (N : ℚ) + ρ ≤ ρ * 2 ^ 52) (h64 : (N : ℚ) + 2 * ρ ≤ 2 ^ 64)
    (h0 : 0 ≤ p) (h1 : p < 2 ^ 64) :
    ∃ m : ℕ, m ≤ ⌈2 * (N : ℚ) / ρ⌉₊ ∧
      (∀ k : ℕ, k < m → Continues N (posSeq (.fin ρ) (.fin p) k)) ∧
      Stops N (posSeq (.fin ρ) (.fin p) m) := by
  rcases Nat.eq_zero_or_pos N with rfl | hN
  · exact ⟨0, Nat.zero_le _, fun k hk => absurd hk (Nat.not_lt_zero k), p, rfl, h0, h1,
      Nat.zero_le _⟩
  · obtain ⟨E, hE, hEmin, hNE⟩ := exists_pow_le ρ N hN hρ hprog
    refine posSeq_stops ρ N E hρ hE hEmin hNE h64 _ p h0 h1 ?_
    have hc : 2 * (N : ℚ) / ρ ≤ (⌈2 * (N : ℚ) / ρ⌉₊ : ℚ) := Nat.le_ceil _
    have : (N : ℚ) ≤ (⌈2 * (N : ℚ) / ρ⌉₊ : ℚ) * (ρ / 2) := by
      have h2 : 2 * (N : ℚ) / ρ * (ρ / 2) = N := by field_simp
      calc (N : ℚ) = 2 * (N : ℚ) / ρ * (ρ / 2) := h2.symm
        _ ≤ _ := mul_le_mul_of_nonneg_right hc (by linarith)
    linarith

/-! ### The carryover -/

theorem representable_sub_nat (q : ℚ) (n : ℕ) (hq : Representable 53 (-1074) q)
    (hn : (n : ℚ) ≤ q) (hlt : q < 2 ^ 53) : Representable 53 (-1074) (q - n) := by
  obtain ⟨M, e, hM, he, rfl⟩ := hq
  have hn0 : (0 : ℚ) ≤ n := Nat.cast_nonneg n
  by_cases hepos : 0 ≤ e
  · obtain ⟨d, rfl⟩ : ∃ d : ℕ, e = d := ⟨e.toNat, by omega⟩
    refine ⟨M * 2 ^ d - n, 0, ?_, by norm_num, ?_⟩
    · have h1 : ((M * 2 ^ d - n : ℤ) : ℚ) = (M : ℚ) * 2 ^ (d : ℤ) - n := by
        push_cast
        rw [zpow_natCast]
      have h2 : (0 : ℚ) ≤ ((M * 2 ^ d - n : ℤ) : ℚ) := by rw [h1]; linarith
      have h3 : ((M * 2 ^ d - n : ℤ) : ℚ) < ((2 ^ 53 : ℤ) : ℚ) := by
        rw [h1]
        push_cast
        linarith
      have h4 : (0 : ℤ) ≤ M * 2 ^ d - n := by exact_mod_cast h2
      have h5 : M * 2 ^ d - n < 2 ^ 53 := by exact_mod_cast h3
      rw [abs_of_nonneg h4]
      exact h5
    · push_cast
      rw [zpow_natCast]
      simp
  · obtain ⟨d, rfl⟩ : ∃ d : ℕ, e = -(d : ℤ) := ⟨(-e).toNat, by omega⟩
    have hpow : (0 : ℚ) < 2 ^ (-(d : ℤ)) := by positivity
    have hinv : (2 : ℚ) ^ (d : ℕ) * 2 ^ (-(d : ℤ)) = 1 := by
      rw [zpow_neg, zpow_natCast]
      field_simp
    have heq : (M : ℚ) * 2 ^ (-(d : ℤ)) - n = ((M - n * 2 ^ d : ℤ) : ℚ) * 2 ^ (-(d : ℤ)) := by
      push_cast
      rw [sub_mul, mul_assoc, hinv, mul_one]
    refine ⟨M - n * 2 ^ d, -(d : ℤ), ?_, he, heq⟩
    have h2 : (0 : ℚ) ≤ ((M - n * 2 ^ d : ℤ) : ℚ) * 2 ^ (-(d : ℤ)) := by rw [← heq]; linarith
    have h3 : (0 : ℚ) ≤ ((M - n * 2 ^ d : ℤ) : ℚ) := by
      by_contra hneg
      have := mul_neg_of_neg_of_pos (not_le.1 hneg) hpow
      linarith
    have h4 : (0 : ℤ) ≤ M - n * 2 ^ d := by exact_mod_cast h3
    have h5 : (0 : ℤ) ≤ (n : ℤ) * 2 ^ d := by positivity
    rw [abs_of_nonneg h4]
    have h6 : M ≤ |M| := le_abs_self M
    omega

theorem carryover_value (q : ℚ) (N : ℕ) (hq : Representable 53 (-1074) q) (h0 : 0 ≤ q)
    (hlt : q < 2 ^ 53) (hN : N < 2 ^ 53) :
    IEEE.fmax 0 (IEEE.sub .roundDouble (.fin q) (.ofSizeT N)) = .fin (max 0 (q - N)) ∧
    Representable 53 (-1074) (max 0 (q - N)) := by
  have hNq : (N : ℚ) < 2 ^ 53 := by exact_mod_cast hN
  have hN0 : (0 : ℚ) ≤ N := Nat.cast_nonneg N
  have hfin : IEEE.sub .roundDouble (.fin q) (.ofSizeT N) = .fin (fl64 (q - N)) := by
    rw [IEEE.ofSizeT_of_lt N hN]
    simp only [IEEE.sub, IEEE.neg]
    rw [IEEE.add_roundDouble_fin]
    · rw [← sub_eq_add_neg]
    · rw [← sub_eq_add_neg, abs_le]
      have : (2 : ℚ) ^ 53 ≤ 2 ^ (1023 : ℤ) := by norm_num
      constructor <;> linarith
  rw [hfin]
  by_cases hle : (N : ℚ) ≤ q
  · have hrep := representable_sub_nat q N hq hle hlt
    rw [fl64_of_representable _ hrep, max_eq_right (by linarith)]
    refine ⟨?_, hrep⟩
    simp only [IEEE.zero_eq, IEEE.fmax, IEEE.lt, decide_eq_true_eq]
    split_ifs with h
    · rfl
    · have : q - N = 0 := le_antisymm (not_lt.1 h) (by linarith)
      rw [this]
  · have hneg : q - N ≤ 0 := by linarith
    have hfl := fl64_nonpos _ hneg
    rw [max_eq_left hneg]
    refine ⟨?_, ⟨0, 0, by norm_num, by norm_num, by norm_num⟩⟩
    simp only [IEEE.zero_eq, IEEE.fmax, IEEE.lt, decide_eq_true_eq]
    rw [if_neg (not_lt.2 hfl)]

theorem IEEE.roundDouble_of_representable (x : ℚ) (h : Representable 53 (-1074) x)
    (hb : |x| ≤ 2 ^ (1023 : ℤ)) : IEEE.roundDouble x = .fin x := by
  rw [IEEE.roundDouble_of_abs_le x hb, fl64_of_representable x h]

theorem tenth_ratio :
    IEEE.div .roundDouble (48000 : IEEE) (480000 : IEEE) = .fin (3602879701896397 / 36028797018963968) := by
  simp only [IEEE.ofNat_eq, IEEE.div]
  rw [if_neg (by norm_num)]
  exact IEEE.roundDouble_eq _ _
    (fl64_eval _ (-4) (-56) 7205759403792794 _ (by decide) (by norm_num [abs_of_pos])
      (by norm_num [abs_of_pos]) (by norm_num [abs_lt]) (by norm_num))
    (by norm_num [abs_of_pos])

theorem tenth_position_1 :
    posSeq (.fin (3602879701896397 / 36028797018963968)) (.fin 0) 1 = .fin (3602879701896397 / 36028797018963968) := by
  rw [posSeq, posSeq]
  simp only [IEEE.add]
  exact IEEE.roundDouble_eq _ _
    (fl64_eval _ (-4) (-56) 7205759403792794 _ (by decide) (by norm_num [abs_of_pos])
      (by norm_num [abs_of_pos]) (by norm_num [abs_lt]) (by norm_num))
    (by norm_num [abs_of_pos])

theorem tenth_position_2 :
    posSeq (.fin (3602879701896397 / 36028797018963968)) (.fin 0) 2 = .fin (3602879701896397 / 18014398509481984) := by
  rw [posSeq, tenth_position_1]
  simp only [IEEE.add]
  exact IEEE.roundDouble_eq _ _
    (fl64_eval _ (-3) (-55) 7205759403792794 _ (by decide) (by norm_num [abs_of_pos])
      (by norm_num [abs_of_pos]) (by norm_num [abs_lt]) (by norm_num))
    (by norm_num [abs_of_pos])

theorem tenth_position_3 :
    posSeq (.fin (3602879701896397 / 36028797018963968)) (.fin 0) 3 = .fin (1351079888211149 / 4503599627370496) := by
  rw [posSeq, tenth_position_2]
  simp only [IEEE.add]
  exact IEEE.roundDouble_eq _ _
    (fl64_eval_tie _ (-2) (-54) 5404319552844595 5404319552844596 _ (by decide) (by norm_num [abs_of_pos])
      (by norm_num [abs_of_pos]) (by norm_num) (by decide) (by norm_num))
    (by norm_num [abs_of_pos])

theorem tenth_position_4 :
    posSeq (.fin (3602879701896397 / 36028797018963968)) (.fin 0) 4 = .fin (3602879701896397 / 9007199254740992) := by
  rw [posSeq, tenth_position_3]
  simp only [IEEE.add]
  exact IEEE.roundDouble_eq _ _
    (fl64_eval_tie _ (-2) (-54) 7205759403792794 7205759403792794 _ (by decide) (by norm_num [abs_of_pos])
      (by norm_num [abs_of_pos]) (by norm_num) (by decide) (by norm_num))
    (by norm_num [abs_of_pos])

theorem tenth_position_5 :
    posSeq (.fin (3602879701896397 / 36028797018963968)) (.fin 0) 5 = .fin (1 / 2) := by
  rw [posSeq, tenth_position_4]
  simp only [IEEE.add]
  exact IEEE.roundDouble_eq _ _
    (fl64_eval _ (-1) (-53) 4503599627370496 _ (by decide) (by norm_num [abs_of_pos])
      (by norm_num [abs_of_pos]) (by norm_num [abs_lt]) (by norm_num))
    (by norm_num [abs_of_pos])

theorem tenth_position_6 :
    posSeq (.fin (3602879701896397 / 36028797018963968)) (.fin 0) 6 = .fin (5404319552844595 / 9007199254740992) := by
  rw [posSeq, tenth_position_5]
  simp only [IEEE.add]
  exact IEEE.roundDouble_eq _ _
    (fl64_eval _ (-1) (-53) 5404319552844595 _ (by decide) (by norm_num [abs_of_pos])
      (by norm_num [abs_of_pos]) (by norm_num [abs_lt]) (by norm_num))
    (by norm_num [abs_of_pos])

theorem tenth_position_7 :
    posSeq (.fin (3602879701896397 / 36028797018963968)) (.fin 0) 7 = .fin (3152519739159347 / 4503599627370496) := by
  rw [posSeq, tenth_position_6]
  simp only [IEEE.add]
  exact IEEE.roundDouble_eq _ _
    (fl64_eval _ (-1) (-53) 6305039478318694 _ (by decide) (by norm_num [abs_of_pos])
      (by norm_num [abs_of_pos]) (by norm_num [abs_lt]) (by norm_num))
    (by norm_num [abs_of_pos])

theorem tenth_position_8 :
    posSeq (.fin (3602879701896397 / 36028797018963968)) (.fin 0) 8 = .fin (7205759403792793 / 9007199254740992) := by
  rw [posSeq, tenth_position_7]
  simp only [IEEE.add]
  exact IEEE.roundDouble_eq _ _
    (fl64_eval _ (-1) (-53) 7205759403792793 _ (by decide) (by norm_num [abs_of_pos])
      (by norm_num [abs_of_pos]) (by norm_num [abs_lt]) (by norm_num))
    (by norm_num [abs_of_pos])

theorem tenth_position_9 :
    posSeq (.fin (3602879701896397 / 36028797018963968)) (.fin 0) 9 = .fin (2026619832316723 / 2251799813685248) := by
  rw [posSeq, tenth_position_8]
  simp only [IEEE.add]
  exact IEEE.roundDouble_eq _ _
    (fl64_eval _ (-1) (-53) 8106479329266892 _ (by decide) (by norm_num [abs_of_pos])
      (by norm_num [abs_of_pos]) (by norm_num [abs_lt]) (by norm_num))
    (by norm_num [abs_of_pos])

theorem tenth_position_10 :
    posSeq (.fin (3602879701896397 / 36028797018963968)) (.fin 0) 10 = .fin (9007199254740991 / 9007199254740992) := by
  rw [posSeq, tenth_position_9]
  simp only [IEEE.add]
  exact IEEE.roundDouble_eq _ _
    (fl64_eval _ (-1) (-53) 9007199254740991 _ (by decide) (by norm_num [abs_of_pos])
      (by norm_num [abs_of_pos]) (by norm_num [abs_lt]) (by norm_num))
    (by norm_num [abs_of_pos])

theorem tenth_position_11 :
    posSeq (.fin (3602879701896397 / 36028797018963968)) (.fin 0) 11 = .fin (4953959590107545 / 4503599627370496) := by
  rw [posSeq, tenth_position_10]
  simp only [IEEE.add]
  exact IEEE.roundDouble_eq _ _
    (fl64_eval _ (0) (-52) 4953959590107545 _ (by decide) (by norm_num [abs_of_pos])
      (by norm_num [abs_of_pos]) (by norm_num [abs_lt]) (by norm_num))
    (by norm_num [abs_of_pos])

theorem tenth_continues (k : ℕ) (hk : k < 11) :
    Continues 2 (posSeq (.fin (3602879701896397 / 36028797018963968)) (.fin 0) k) := by
  interval_cases k
  · exact ⟨0, rfl, le_refl _, by norm_num, by simp⟩
  · exact ⟨_, tenth_position_1, by norm_num, by norm_num,
      by rw [Nat.floor_eq_zero.2 (by norm_num)]; decide⟩
  · exact ⟨_, tenth_position_2, by norm_num, by norm_num,
      by rw [Nat.floor_eq_zero.2 (by norm_num)]; decide⟩
  · exact ⟨_, tenth_position_3, by norm_num, by norm_num,
      by rw [Nat.floor_eq_zero.2 (by norm_num)]; decide⟩
  · exact ⟨_, tenth_position_4, by norm_num, by norm_num,
      by rw [Nat.floor_eq_zero.2 (by norm_num)]; decide⟩
  · exact ⟨_, tenth_position_5, by norm_num, by norm_num,
      by rw [Nat.floor_eq_zero.2 (by norm_num)]; decide⟩
  · exact ⟨_, tenth_position_6, by norm_num, by norm_num,
      by rw [Nat.floor_eq_zero.2 (by norm_num)]; decide⟩
  · exact ⟨_, tenth_position_7, by norm_num, by norm_num,
      by rw [Nat.floor_eq_zero.2 (by norm_num)]; decide⟩
  · exact ⟨_, tenth_position_8, by norm_num, by norm_num,
      by rw [Nat.floor_eq_zero.2 (by norm_num)]; decide⟩
  · exact ⟨_, tenth_position_9, by norm_num, by norm_num,
      by rw [Nat.floor_eq_zero.2 (by norm_num)]; decide⟩
  · exact ⟨_, tenth_position_10, by norm_num, by norm_num,
      by rw [Nat.floor_eq_zero.2 (by norm_num)]; decide⟩

theorem tenth_stops :
    Stops 2 (posSeq (.fin (3602879701896397 / 36028797018963968)) (.fin 0) 11) := by
  refine ⟨_, tenth_position_11, by norm_num, by norm_num, ?_⟩
  have : 1 ≤ ⌊(4953959590107545 / 4503599627370496 : ℚ)⌋₊ := Nat.le_floor (by norm_num)
  omega

/-! ### Exactness of `alpha` and the distance to `off + k * ratio` -/

theorem representable_ge_int (p : ℚ) (hrep : Representable 53 (-1074) p)
    (hge : (2 : ℚ) ^ 53 ≤ p) : ∃ n : ℕ, p = (n : ℚ) := by
  obtain ⟨M, e, hM, he, rfl⟩ := hrep
  have hMq : ((|M| : ℤ) : ℚ) < ((2 ^ 53 : ℤ) : ℚ) := by exact_mod_cast hM
  have hMq2 : (M : ℚ) < 2 ^ 53 := by
    have : (M : ℚ) ≤ |(M : ℚ)| := le_abs_self _
    push_cast at hMq
    linarith
  have hMpos : (0 : ℚ) < M := by
    by_contra hneg
    have h1 : (M : ℚ) * 2 ^ e ≤ 0 :=
      mul_nonpos_of_nonpos_of_nonneg (not_lt.1 hneg) (by positivity)
    have : (0 : ℚ) < 2 ^ 53 := by positivity
    linarith
  have hepos : 0 < e := by
    by_contra hle
    have h1 : (2 : ℚ) ^ e ≤ 1 := zpow_le_one_of_nonpos₀ (by norm_num) (by omega)
    have h2 : (M : ℚ) * 2 ^ e ≤ M := by
      calc (M : ℚ) * 2 ^ e ≤ M * 1 := mul_le_mul_of_nonneg_left h1 hMpos.le
        _ = M := mul_one _
    linarith
  obtain ⟨d, rfl⟩ : ∃ d : ℕ, e = d := ⟨e.toNat, by omega⟩
  have hM0 : (0 : ℤ) < M := by exact_mod_cast hMpos
  refine ⟨(M * 2 ^ d).toNat, ?_⟩
  have h3 : (((M * 2 ^ d).toNat : ℕ) : ℤ) = M * 2 ^ d := Int.toNat_of_nonneg (by positivity)
  have h4 : ((((M * 2 ^ d).toNat : ℕ) : ℤ) : ℚ) = ((M * 2 ^ d : ℤ) : ℚ) := by rw [h3]
  rw [zpow_natCast]
  push_cast at h4
  rw [h4]

theorem alpha_exact (p : ℚ) (hrep : Representable 53 (-1074) p) (h0 : 0 ≤ p)
    (h64 : p < 2 ^ 64) :
    IEEE.sub .roundDouble (.fin p) (.ofSizeT ⌊p⌋₊) = .fin (p - ⌊p⌋₊) ∧
    0 ≤ p - ⌊p⌋₊ ∧ p - ⌊p⌋₊ < 1 := by
  have hfl := Nat.floor_le h0
  have hfl2 := Nat.lt_floor_add_one p
  refine ⟨?_, by linarith, by linarith⟩
  by_cases hlt : p < 2 ^ 53
  · have hn : ⌊p⌋₊ < 2 ^ 53 := by
      have : ((⌊p⌋₊ : ℕ) : ℚ) < ((2 ^ 53 : ℕ) : ℚ) := by
        push_cast
        linarith
      exact_mod_cast this
    rw [IEEE.ofSizeT_of_lt _ hn]
    simp only [IEEE.sub, IEEE.neg]
    rw [IEEE.add_roundDouble_fin, ← sub_eq_add_neg,
      fl64_of_representable _ (representable_sub_nat p ⌊p⌋₊ hrep hfl hlt)]
    rw [← sub_eq_add_neg, abs_of_nonneg (by linarith)]
    have : (1 : ℚ) ≤ 2 ^ (1023 : ℤ) := by norm_num
    linarith
  · obtain ⟨n, rfl⟩ := representable_ge_int p hrep (not_lt.1 hlt)
    rw [Nat.floor_natCast]
    have hb : |(n : ℚ)| ≤ 2 ^ (1023 : ℤ) := by
      rw [abs_of_nonneg h0]
      have : (2 : ℚ) ^ 64 ≤ 2 ^ (1023 : ℤ) := by norm_num
      linarith
    have hof : IEEE.ofSizeT n = .fin (n : ℚ) := by
      unfold IEEE.ofSizeT
      exact IEEE.roundDouble_of_representable _ hrep hb
    rw [hof]
    simp only [IEEE.sub, IEEE.neg, IEEE.add, add_neg_cancel, sub_self]
    exact IEEE.roundDouble_of_representable 0 ⟨0, 0, by norm_num, by norm_num, by norm_num⟩
      (by norm_num)

theorem posSeq_error (ρ c : ℚ) (E : ℤ) (K : ℕ) (hρ : 0 ≤ ρ) (hc : 0 ≤ c) (hE : -1074 ≤ E)
    (hE2 : E ≤ 970) (hK : c + K * (ρ + 2 ^ E / 2) < 2 ^ (E + 53)) :
    ∀ k : ℕ, k ≤ K → ∃ p : ℚ, posSeq (.fin ρ) (.fin c) k = .fin p ∧
      |p - (c + k * ρ)| ≤ k * (2 ^ E / 2) := by
  have hpE : (0 : ℚ) < 2 ^ E := by positivity
  intro k
  induction k with
  | zero =>
    intro _
    exact ⟨c, rfl, by simp⟩
  | succ k ih =>
    intro hk
    obtain ⟨p, hp, herr⟩ := ih (by omega)
    rw [abs_le] at herr
    have hkK : ((k : ℚ) + 1) ≤ K := by exact_mod_cast hk
    have hk0 : (0 : ℚ) ≤ k := Nat.cast_nonneg k
    have hmul : ((k : ℚ) + 1) * (ρ + 2 ^ E / 2) ≤ K * (ρ + 2 ^ E / 2) :=
      mul_le_mul_of_nonneg_right hkK (by linarith)
    have hkρ : (0 : ℚ) ≤ k * ρ := mul_nonneg hk0 hρ
    have hkE : (0 : ℚ) ≤ k * (2 ^ E / 2) := mul_nonneg hk0 (by linarith)
    have hx : |p + ρ| < 2 ^ (E + 53) := by
      rw [abs_lt]
      constructor <;> nlinarith
    have hfin : |p + ρ| ≤ 2 ^ (1023 : ℤ) := by
      have : (2 : ℚ) ^ (E + 53) ≤ 2 ^ (1023 : ℤ) :=
        zpow_le_zpow_right₀ (by norm_num) (by omega)
      linarith
    have hb := fl64_add_bounds (p + ρ) E hE hx
    refine ⟨fl64 (p + ρ), ?_, ?_⟩
    · show IEEE.add .roundDouble (posSeq (.fin ρ) (.fin c) k) (.fin ρ) = _
      rw [hp, IEEE.add_roundDouble_fin p ρ hfin]
    · rw [abs_le]
      push_cast
      constructor <;> nlinarith [hb.1, hb.2, herr.1, herr.2]

/-! ### Frames and frame count of one call -/

theorem continues_not_stops (n : ℕ) (pos : IEEE) (hc : Continues n pos) : ¬ Stops n pos := by
  rintro ⟨q, hq, -, -, hs⟩
  obtain ⟨q', hq', -, -, hc'⟩ := hc
  have h := hq.symm.trans hq'
  injection h with h
  subst h
  omega

/-- C3 (amended): let the accumulated positions `p_0 = off`, `p_(k+1) = double(p_k + ratio)`
meet the exit test `floor(p) + 1 >= N` for the first time at index `m`. Then `linearResample`
returns (so no read left the input block), the returned frame count is `m`, the least `k` at
which the accumulated position meets the exit test, every frame index `i`, `i + 1` it reads is
below N, and the output block is untouched beyond the frames emitted. -/
theorem linearResample_output_count (self : AudioCapture) (fuel : Nat)
    (outBuffer inBuffer : List IEEE) (N m : Nat) (hN : N ≠ 0)
    (hin : N * 2 ≤ inBuffer.length)
    (hcont : ∀ k : ℕ, k < m →
      Continues N (posSeq self.mResamplingRatio self.mInputBufferOffset k))
    (hstop : Stops N (posSeq self.mResamplingRatio self.mInputBufferOffset m))
    (hcap : m * 2 ≤ outBuffer.length) (hfuel : m < fuel) :
    ∃ (self1 : AudioCapture) (out : List IEEE),
      self.linearResample fuel outBuffer inBuffer N = .ok (self1, out, m) ∧
      IsLeast {k : ℕ | Stops N (posSeq self.mResamplingRatio self.mInputBufferOffset k)} m ∧
      (∀ k : Nat, k < m → ∃ p : ℚ,
        posSeq self.mResamplingRatio self.mInputBufferOffset k = .fin p ∧
        (⌊p⌋₊ + 1) * 2 + 1 < N * 2) ∧
      out.length = outBuffer.length ∧
      out.drop (m * 2) = outBuffer.drop (m * 2) := by
  refine ⟨_, _, linearResample_run self fuel outBuffer inBuffer N m hN hin hcont hstop hcap
    hfuel, ⟨hstop, ?_⟩, ?_, ?_, ?_⟩
  · intro k hk
    by_contra hlt
    exact continues_not_stops N _ (hcont k (not_le.1 hlt)) hk
  · intro k hk
    obtain ⟨p, hp, -, -, hpN⟩ := hcont k hk
    exact ⟨p, hp, by omega⟩
  · simp [interpRun_length]
    omega
  · rw [List.drop_append_of_le_length (by simp [interpRun_length])]
    simp [interpRun_length]

theorem linearResample_output_count_witness :
    IEEE.div .roundDouble (48000 : IEEE) (44100 : IEEE)
      = .fin (4901877145437275 / 4503599627370496) ∧
    ∃ (self1 : AudioCapture) (out : List IEEE),
      (sessionWith (4901877145437275 / 4503599627370496) 0).linearResample 920
        (List.replicate 1842 0) (List.replicate 2000 0) 1000 = .ok (self1, out, 918) := by
  have hr0 : IEEE.div .roundDouble (48000 : IEEE) (44100 : IEEE)
      = .fin (4901877145437275 / 4503599627370496) := by
    simp only [IEEE.ofNat_eq, IEEE.div]
    rw [if_neg (by norm_num)]
    exact IEEE.roundDouble_eq _ _
      (fl64_eval _ 0 (-52) 4901877145437275 _ (by decide) (by norm_num [abs_of_pos])
        (by norm_num [abs_of_pos]) (by norm_num [abs_lt]) (by norm_num))
      (by norm_num [abs_of_pos])
  have herr := posSeq_error (4901877145437275 / 4503599627370496) 0 (-43) 918 (by norm_num)
    (le_refl _) (by norm_num) (by norm_num) (by norm_num)
  have hcont : ∀ k : ℕ, k < 918 → Continues 1000
      (posSeq (sessionWith (4901877145437275 / 4503599627370496) 0).mResamplingRatio
        (sessionWith (4901877145437275 / 4503599627370496) 0).mInputBufferOffset k) := by
    intro k hk
    obtain ⟨p, hp, hb⟩ := herr k hk.le
    rw [abs_le] at hb
    have hk1 : (k : ℚ) ≤ 917 := by
      have : k ≤ 917 := by omega
      exact_mod_cast this
    have hk0 : (0 : ℚ) ≤ k := Nat.cast_nonneg k
    norm_num at hb
    have hp0 : 0 ≤ p := by linarith [hb.1]
    have hp999 : p < 999 := by linarith [hb.2]
    refine ⟨p, hp, hp0, by linarith, ?_⟩
    have : ⌊p⌋₊ < 999 := (Nat.floor_lt hp0).2 (by exact_mod_cast hp999)
    omega
  have hstop : Stops 1000
      (posSeq (sessionWith (4901877145437275 / 4503599627370496) 0).mResamplingRatio
        (sessionWith (4901877145437275 / 4503599627370496) 0).mInputBufferOffset 918) := by
    obtain ⟨p, hp, hb⟩ := herr 918 (le_refl _)
    rw [abs_le] at hb
    norm_num at hb
    have hp999 : (999 : ℚ) ≤ p := by linarith [hb.1]
    refine ⟨p, hp, by linarith, by linarith [hb.2], ?_⟩
    have : 999 ≤ ⌊p⌋₊ := Nat.le_floor (by exact_mod_cast hp999)
    omega
  obtain ⟨self1, out, hrun, -⟩ :=
    linearResample_output_count (sessionWith (4901877145437275 / 4503599627370496) 0) 920
      (List.replicate 1842 0) (List.replicate 2000 0) 1000 918 (by decide)
      (by simp only [List.length_replicate]; omega) hcont hstop
      (by simp only [List.length_replicate]; omega) (by decide)
  exact ⟨hr0, self1, out, hrun⟩

/-- C3, as stated, fails: with the ratio a 48 kHz device and a 480 kHz target give, carryover 0
and two input frames, `linearResample` returns eleven frames, while the least `k` with
`floor(off + k * ratio) + 1 >= N` is ten. -/
theorem output_count_not_least :
    IEEE.div .roundDouble (48000 : IEEE) (480000 : IEEE)
      = .fin (3602879701896397 / 36028797018963968) ∧
    (∃ (self1 : AudioCapture) (out : List IEEE),
      (sessionWith (3602879701896397 / 36028797018963968) 0).linearResample 12
        (List.replicate 22 0) [1, 2, 3, 4] 2 = .ok (self1, out, 11)) ∧
    IsLeast {k : ℕ | 2 ≤ ⌊(0 : ℚ) + k * (3602879701896397 / 36028797018963968)⌋₊ + 1} 10 := by
  have hrun := linearResample_run (sessionWith (3602879701896397 / 36028797018963968) 0) 12
    (List.replicate 22 0) [1, 2, 3, 4] 2 11 (by decide) (by decide) tenth_continues
    tenth_stops (by simp only [List.length_replicate]; omega) (by decide)
  refine ⟨tenth_ratio, ⟨_, _, hrun⟩, ?_, ?_⟩
  · show 2 ≤ ⌊(0 : ℚ) + ((10 : ℕ) : ℚ) * (3602879701896397 / 36028797018963968)⌋₊ + 1
    have : 1 ≤ ⌊(0 : ℚ) + ((10 : ℕ) : ℚ) * (3602879701896397 / 36028797018963968)⌋₊ :=
      Nat.le_floor (by norm_num)
    omega
  · intro k hk
    have hk1 : 2 ≤ ⌊(0 : ℚ) + (k : ℚ) * (3602879701896397 / 36028797018963968)⌋₊ + 1 := hk
    by_contra hlt
    have hk2 : (k : ℚ) ≤ 9 := by
      have : k ≤ 9 := by omega
      exact_mod_cast this
    have : ⌊(0 : ℚ) + (k : ℚ) * (3602879701896397 / 36028797018963968)⌋₊ < 1 := by
      rw [Nat.floor_lt (by positivity)]
      norm_num
      linarith
    omega

/-! ### Runs on small whole numbers -/

theorem alpha_natCast (n : ℕ) (hn : n < 2 ^ 53) :
    IEEE.sub .roundDouble (.fin (n : ℚ)) (.ofSizeT ⌊(n : ℚ)⌋₊) = .fin 0 := by
  have h := (alpha_exact (n : ℚ) (representable_natCast 53 (-1074) n hn (by norm_num))
    (Nat.cast_nonneg n) (by
      have : ((n : ℕ) : ℚ) < ((2 ^ 53 : ℕ) : ℚ) := by exact_mod_cast hn
      push_cast at this
      have h2 : (2 : ℚ) ^ 53 ≤ 2 ^ 64 := by norm_num
      linarith)).1
  rw [h, Nat.floor_natCast, sub_self]

theorem interpolate_zero_natCast (a : ℕ) (b : ℚ) (ha : a < 2 ^ 24) :
    AudioCapture.interpolate (.fin (a : ℚ)) (.fin b) (.fin 0) = .fin (a : ℚ) := by
  have ha53 : a < 2 ^ 53 := lt_trans ha (by norm_num)
  have h1 : IEEE.roundDouble ((1 : ℚ) + -0) = .fin 1 := by
    have := IEEE.roundDouble_natCast 1 (by norm_num)
    simpa using this
  have h0 : IEEE.roundDouble (b * 0) = .fin 0 := by
    have := IEEE.roundDouble_natCast 0 (by norm_num)
    simpa using this
  have h2 : IEEE.roundDouble ((a : ℚ) * 1) = .fin (a : ℚ) := by
    rw [mul_one]
    exact IEEE.roundDouble_natCast a ha53
  have h3 : IEEE.roundDouble ((a : ℚ) + 0) = .fin (a : ℚ) := by
    rw [add_zero]
    exact IEEE.roundDouble_natCast a ha53
  have h4 : IEEE.roundFloat (a : ℚ) = .fin (a : ℚ) := by
    have := IEEE.roundFloat_intCast (a : ℤ) (by
      rw [abs_of_nonneg (by positivity)]
      exact_mod_cast ha)
    simpa using this
  simp only [AudioCapture.interpolate, IEEE.one_eq, IEEE.sub, IEEE.neg, IEEE.add, IEEE.mul,
    IEEE.toFloat, h1, h0, h2, h3, h4]

theorem posSeq_natCast (r p : ℕ) (k : ℕ) (h : p + k * r < 2 ^ 53) :
    posSeq (.fin (r : ℚ)) (.fin (p : ℚ)) k = .fin ((p + k * r : ℕ) : ℚ) := by
  induction k with
  | zero => simp [posSeq]
  | succ k ih =>
    have hk : p + k * r < 2 ^ 53 := by
      have : p + k * r ≤ p + (k + 1) * r := by
        apply Nat.add_le_add_left
        exact Nat.mul_le_mul_right r (Nat.le_succ k)
      omega
    show IEEE.add .roundDouble (posSeq (.fin (r : ℚ)) (.fin (p : ℚ)) k) (.fin (r : ℚ)) = _
    rw [ih hk]
    simp only [IEEE.add]
    have e : ((p + k * r : ℕ) : ℚ) + (r : ℚ) = ((p + (k + 1) * r : ℕ) : ℚ) := by
      push_cast
      ring
    rw [e]
    exact IEEE.roundDouble_natCast _ h

theorem continues_natCast (N n : ℕ) (h : n + 1 < N) (hn : n < 2 ^ 53) :
    Continues N (.fin (n : ℚ)) := by
  refine ⟨n, rfl, Nat.cast_nonneg n, ?_, by rw [Nat.floor_natCast]; exact h⟩
  have : ((n : ℕ) : ℚ) < ((2 ^ 53 : ℕ) : ℚ) := by exact_mod_cast hn
  push_cast at this
  have h2 : (2 : ℚ) ^ 53 ≤ 2 ^ 64 := by norm_num
  linarith

theorem stops_natCast (N n : ℕ) (h : N ≤ n + 1) (hn : n < 2 ^ 53) :
    Stops N (.fin (n : ℚ)) := by
  refine ⟨n, rfl, Nat.cast_nonneg n, ?_, by rw [Nat.floor_natCast]; exact h⟩
  have : ((n : ℕ) : ℚ) < ((2 ^ 53 : ℕ) : ℚ) := by exact_mod_cast hn
  push_cast at this
  have h2 : (2 : ℚ) ^ 53 ≤ 2 ^ 64 := by norm_num
  linarith

theorem interpAt_natCast (inBuffer : List IEEE) (n : ℕ) (a b : ℕ) (c d : ℚ)
    (hn : n < 2 ^ 53) (ha : a < 2 ^ 24) (hb : b < 2 ^ 24)
    (h0 : inBuffer.getD (n * 2) 0 = .fin (a : ℚ))
    (h1 : inBuffer.getD (n * 2 + 1) 0 = .fin (b : ℚ))
    (h2 : inBuffer.getD ((n + 1) * 2) 0 = .fin c)
    (h3 : inBuffer.getD ((n + 1) * 2 + 1) 0 = .fin d) :
    interpAt inBuffer (.fin (n : ℚ)) = [.fin (a : ℚ), .fin (b : ℚ)] := by
  simp only [interpAt, IEEE.index, Nat.floor_natCast, h0, h1, h2, h3]
  have := alpha_natCast n hn
  rw [Nat.floor_natCast] at this
  rw [this, interpolate_zero_natCast a c ha, interpolate_zero_natCast b d hb]

/-- C1 at a failing input: with ratio 2 and carryover 0, the chunk A of the three frames
(1,2), (3,4), (5,6) followed, with the carryover the first call leaves, by the chunk B of the
two frames (7,8), (9,10) yields the frames (1,2) and (7,8), while one call on the five frames of
A‖B yields (1,2) and (5,6). The first call stops at input position 2, inside the last interval
of A, and leaves carryover `max 0 (2 - 3) = 0`, so the second call restarts at position 0 of B
instead of continuing at position 2 of the stream. -/
theorem linearResample_chunk_discontinuity :
    ∃ (s1 s2 s12 : AudioCapture) (o1 o2 o12 : List IEEE),
      (sessionWith 2 0).linearResample 8 [0, 0, 0, 0, 0, 0, 0, 0, 0, 0] [1, 2, 3, 4, 5, 6] 3
        = .ok (s1, o1, 1) ∧
      s1.linearResample 8 [0, 0, 0, 0, 0, 0, 0, 0, 0, 0] [7, 8, 9, 10] 2 = .ok (s2, o2, 1) ∧
      (sessionWith 2 0).linearResample 8 [0, 0, 0, 0, 0, 0, 0, 0, 0, 0]
        [1, 2, 3, 4, 5, 6, 7, 8, 9, 10] 5 = .ok (s12, o12, 2) ∧
      s1.mInputBufferOffset = 0 ∧
      o1.take (2 * 1) ++ o2.take (2 * 1) = [1, 2, 7, 8] ∧
      o12.take (2 * 2) = [1, 2, 5, 6] := by
  have hp0 : posSeq (.fin 2) (.fin 0) 0 = .fin 0 := rfl
  have hp1 : posSeq (.fin 2) (.fin 0) 1 = .fin 2 := by
    simpa using posSeq_natCast 2 0 1 (by norm_num)
  have hp2 : posSeq (.fin 2) (.fin 0) 2 = .fin 4 := by
    have := posSeq_natCast 2 0 2 (by norm_num)
    norm_num at this
    exact this
  have c0 : ∀ N : ℕ, 1 < N → Continues N (.fin 0) := by
    intro N hN
    simpa using continues_natCast N 0 (by omega) (by norm_num)
  have c2 : ∀ N : ℕ, 3 < N → Continues N (.fin 2) := by
    intro N hN
    simpa using continues_natCast N 2 (by omega) (by norm_num)
  have s2 : ∀ N : ℕ, N ≤ 3 → Stops N (.fin 2) := by
    intro N hN
    simpa using stops_natCast N 2 (by omega) (by norm_num)
  have s4 : ∀ N : ℕ, N ≤ 5 → Stops N (.fin 4) := by
    intro N hN
    simpa using stops_natCast N 4 (by omega) (by norm_num)
  have hcarry : ∀ (q : ℚ) (n N : ℕ), q = n → n < 2 ^ 52 → N < 2 ^ 53 → n ≤ N →
      IEEE.fmax 0 (IEEE.sub .roundDouble (.fin q) (.ofSizeT N)) = .fin 0 := by
    intro q n N hq hn hN hle
    subst hq
    have h := (carryover_value (n : ℚ) N (representable_natCast 53 (-1074) n
      (lt_trans hn (by norm_num)) (by norm_num)) (Nat.cast_nonneg n) (by
        have : ((n : ℕ) : ℚ) < ((2 ^ 52 : ℕ) : ℚ) := by exact_mod_cast hn
        push_cast at this
        have h2 : (2 : ℚ) ^ 52 ≤ 2 ^ 53 := by norm_num
        linarith) hN).1
    rw [h, max_eq_left]
    have : (n : ℚ) ≤ (N : ℚ) := by exact_mod_cast hle
    linarith
  have hfrm : ∀ (inBuffer : List IEEE) (n a b : ℕ) (c d : ℚ) (q : ℚ), q = n → n < 2 ^ 53 →
      a < 2 ^ 24 → b < 2 ^ 24 →
      inBuffer.getD (n * 2) 0 = .fin (a : ℚ) → inBuffer.getD (n * 2 + 1) 0 = .fin (b : ℚ) →
      inBuffer.getD ((n + 1) * 2) 0 = .fin c → inBuffer.getD ((n + 1) * 2 + 1) 0 = .fin d →
      interpAt inBuffer (.fin q) = [.fin (a : ℚ), .fin (b : ℚ)] := by
    intro inBuffer n a b c d q hq hn ha hb h0 h1 h2 h3
    subst hq
    exact interpAt_natCast inBuffer n a b c d hn ha hb h0 h1 h2 h3
  have hA := linearResample_run (sessionWith 2 0) 8 [0, 0, 0, 0, 0, 0, 0, 0, 0, 0]
    [1, 2, 3, 4, 5, 6] 3 1 (by decide) (by decide)
    (by
      intro k hk
      obtain rfl : k = 0 := by omega
      exact c0 3 (by decide))
    (by
      show Stops 3 (posSeq (.fin 2) (.fin 0) 1)
      rw [hp1]
      exact s2 3 (by decide))
    (by decide) (by decide)
  have hB := linearResample_run (sessionWith 2 0) 8 [0, 0, 0, 0, 0, 0, 0, 0, 0, 0]
    [7, 8, 9, 10] 2 1 (by decide) (by decide)
    (by
      intro k hk
      obtain rfl : k = 0 := by omega
      exact c0 2 (by decide))
    (by
      show Stops 2 (posSeq (.fin 2) (.fin 0) 1)
      rw [hp1]
      exact s2 2 (by decide))
    (by decide) (by decide)
  have hAB := linearResample_run (sessionWith 2 0) 8 [0, 0, 0, 0, 0, 0, 0, 0, 0, 0]
    [1, 2, 3, 4, 5, 6, 7, 8, 9, 10] 5 2 (by decide) (by decide)
    (by
      intro k hk
      interval_cases k
      · exact c0 5 (by decide)
      · show Continues 5 (posSeq (.fin 2) (.fin 0) 1)
        rw [hp1]
        exact c2 5 (by decide))
    (by
      show Stops 5 (posSeq (.fin 2) (.fin 0) 2)
      rw [hp2]
      exact s4 5 (by decide))
    (by decide) (by decide)
  have hoffA : IEEE.fmax 0 (IEEE.sub .roundDouble
      (posSeq (sessionWith 2 0).mResamplingRatio (sessionWith 2 0).mInputBufferOffset 1)
      (.ofSizeT 3)) = .fin 0 := by
    show IEEE.fmax 0 (IEEE.sub .roundDouble (posSeq (.fin 2) (.fin 0) 1) (.ofSizeT 3)) = _
    rw [hp1]
    exact hcarry 2 2 3 (by norm_num) (by norm_num) (by norm_num) (by decide)
  have hs1 : ({ sessionWith 2 0 with
      mInputBufferOffset := IEEE.fmax 0 (IEEE.sub .roundDouble
        (posSeq (sessionWith 2 0).mResamplingRatio (sessionWith 2 0).mInputBufferOffset 1)
        (.ofSizeT 3)) } : AudioCapture) = sessionWith 2 0 := by
    rw [hoffA]
    rfl
  rw [hs1] at hA
  have f0A : interpAt [1, 2, 3, 4, 5, 6] (.fin 0) = [1, 2] := by
    have := hfrm [1, 2, 3, 4, 5, 6] 0 1 2 3 4 0 (by norm_num) (by norm_num) (by norm_num)
      (by norm_num) (by simp [IEEE.one_eq]) (by simp [IEEE.ofNat_eq])
      (by simp [IEEE.ofNat_eq]) (by simp [IEEE.ofNat_eq])
    rw [this]
    simp [IEEE.one_eq, IEEE.ofNat_eq]
  have f0B : interpAt [7, 8, 9, 10] (.fin 0) = [7, 8] := by
    have := hfrm [7, 8, 9, 10] 0 7 8 9 10 0 (by norm_num) (by norm_num) (by norm_num)
      (by norm_num) (by simp [IEEE.ofNat_eq]) (by simp [IEEE.ofNat_eq])
      (by simp [IEEE.ofNat_eq]) (by simp [IEEE.ofNat_eq])
    rw [this]
    simp [IEEE.ofNat_eq]
  have f0AB : interpAt [1, 2, 3, 4, 5, 6, 7, 8, 9, 10] (.fin 0) = [1, 2] := by
    have := hfrm [1, 2, 3, 4, 5, 6, 7, 8, 9, 10] 0 1 2 3 4 0 (by norm_num) (by norm_num)
      (by norm_num) (by norm_num) (by simp [IEEE.one_eq]) (by simp [IEEE.ofNat_eq])
      (by simp [IEEE.ofNat_eq]) (by simp [IEEE.ofNat_eq])
    rw [this]
    simp [IEEE.one_eq, IEEE.ofNat_eq]
  have f2AB : interpAt [1, 2, 3, 4, 5, 6, 7, 8, 9, 10] (.fin 2) = [5, 6] := by
    have := hfrm [1, 2, 3, 4, 5, 6, 7, 8, 9, 10] 2 5 6 7 8 2 (by norm_num) (by norm_num)
      (by norm_num) (by norm_num) (by simp [IEEE.ofNat_eq]) (by simp [IEEE.ofNat_eq])
      (by simp [IEEE.ofNat_eq]) (by simp [IEEE.ofNat_eq])
    rw [this]
    simp [IEEE.ofNat_eq]
  have hadd : IEEE.add .roundDouble (.fin 0) (.fin 2) = .fin 2 := hp1
  refine ⟨sessionWith 2 0, _, _, _, _, _, hA, hB, hAB, rfl, ?_, ?_⟩
  · show List.take (2 * 1) (interpRun [1, 2, 3, 4, 5, 6] (.fin 2) (.fin 0) 1 ++ _)
      ++ List.take (2 * 1) (interpRun [7, 8, 9, 10] (.fin 2) (.fin 0) 1 ++ _) = _
    simp only [interpRun, f0A, f0B]
    rfl
  · show List.take (2 * 2) (interpRun [1, 2, 3, 4, 5, 6, 7, 8, 9, 10] (.fin 2) (.fin 0) 2
      ++ _) = _
    simp only [interpRun, hadd, f0AB, f2AB]
    rfl

/-! ### The output block -/

/-- The loop, run on an output block that ends after `m` frames while the exit test is still
false at the position of frame `m`: the store of that frame is outside the block. -/
theorem resampleLoop_overrun (r : IEEE) (inBuffer : List IEEE) (n : Nat)
    (hlen : n * 2 ≤ inBuffer.length) :
    ∀ (m fuel : Nat) (pos : IEEE) (written rest : List IEEE) (cnt : Nat),
      (∀ k : ℕ, k ≤ m → Continues n (posSeq r pos k)) →
      written.length = cnt * 2 → rest.length = m * 2 → m < fuel →
      AudioCapture.resampleLoop r inBuffer n fuel pos (written ++ rest) cnt
        = .error .writeOutOfBounds := by
  intro m
  induction m with
  | zero =>
    intro fuel pos written rest cnt hcont hw hrest hfuel
    obtain ⟨f, rfl⟩ : ∃ f, fuel = f + 1 := ⟨fuel - 1, by omega⟩
    obtain ⟨q, hq, h0, h1, hn⟩ := hcont 0 (le_refl _)
    simp only [posSeq] at hq
    subst hq
    have hnil : rest = [] := List.length_eq_zero.1 (by omega)
    subst hnil
    unfold AudioCapture.resampleLoop
    rw [toSizeT_floor q h0 h1]
    have hb : ¬ (n ≤ ⌊q⌋₊ + 1) := by omega
    simp only [bind, Except.bind, ge_iff_le, hb, if_false]
    rw [readAt_ok _ _ (by omega), readAt_ok _ _ (by omega), readAt_ok _ _ (by omega),
      readAt_ok _ _ (by omega)]
    simp [writeAt, hw]
  | succ m ih =>
    intro fuel pos written rest cnt hcont hw hrest hfuel
    obtain ⟨f, rfl⟩ : ∃ f, fuel = f + 1 := ⟨fuel - 1, by omega⟩
    obtain ⟨q, hq, h0, h1, hn⟩ := hcont 0 (Nat.zero_le _)
    simp only [posSeq] at hq
    subst hq
    unfold AudioCapture.resampleLoop
    rw [toSizeT_floor q h0 h1]
    have hb : ¬ (n ≤ ⌊q⌋₊ + 1) := by omega
    obtain ⟨a, rest1, rfl⟩ : ∃ a rest1, rest = a :: rest1 := by
      cases rest with
      | nil => simp at hrest
      | cons a t => exact ⟨a, t, rfl⟩
    obtain ⟨b, rest2, rfl⟩ : ∃ b rest2, rest1 = b :: rest2 := by
      cases rest1 with
      | nil => simp at hrest; omega
      | cons a t => exact ⟨a, t, rfl⟩
    have hr2 : rest2.length = m * 2 := by simp at hrest; omega
    simp only [bind, Except.bind, ge_iff_le, hb, if_false]
    rw [readAt_ok _ _ (by omega), readAt_ok _ _ (by omega), readAt_ok _ _ (by omega),
      readAt_ok _ _ (by omega)]
    simp only [Nat.add_zero]
    rw [← hw, writeAt_append]
    have e1 : ∀ v w : IEEE, writeAt (written ++ v :: b :: rest2) (written.length + 1) w
        = .ok ((written ++ [v]) ++ w :: rest2) := by
      intro v w
      have := writeAt_append (written ++ [v]) rest2 b w
      simpa using this
    simp only [e1]
    have hcont2 : ∀ k : ℕ, k ≤ m →
        Continues n (posSeq r (IEEE.add .roundDouble (.fin q) r) k) := by
      intro k hk
      rw [← posSeq_succ]
      exact hcont (k + 1) (by omega)
    have := ih f (IEEE.add .roundDouble (.fin q) r)
      (written ++ [AudioCapture.interpolate (inBuffer.getD (⌊q⌋₊ * 2) 0)
          (inBuffer.getD ((⌊q⌋₊ + 1) * 2) 0)
          (IEEE.sub .roundDouble (.fin q) (.ofSizeT ⌊q⌋₊)),
        AudioCapture.interpolate (inBuffer.getD (⌊q⌋₊ * 2 + 1) 0)
          (inBuffer.getD ((⌊q⌋₊ + 1) * 2 + 1) 0)
          (IEEE.sub .roundDouble (.fin q) (.ofSizeT ⌊q⌋₊))]) rest2 (cnt + 1) hcont2
      (by simp [hw]; omega) hr2 (by omega)
    simp only [List.append_assoc, List.singleton_append, List.cons_append, List.nil_append]
      at this ⊢
    rw [hw] at *
    rw [this]

theorem linearResample_overrun (self : AudioCapture) (fuel : Nat)
    (outBuffer inBuffer : List IEEE) (n m : Nat) (hn : n ≠ 0) (hlen : n * 2 ≤ inBuffer.length)
    (hcont : ∀ k : ℕ, k ≤ m →
      Continues n (posSeq self.mResamplingRatio self.mInputBufferOffset k))
    (hcap : outBuffer.length = m * 2) (hfuel : m < fuel) :
    self.linearResample fuel outBuffer inBuffer n = .error .writeOutOfBounds := by
  unfold AudioCapture.linearResample
  have h := resampleLoop_overrun self.mResamplingRatio inBuffer n hlen m fuel
    self.mInputBufferOffset [] outBuffer 0 hcont rfl hcap hfuel
  simp only [List.nil_append] at h
  simp only [hn, if_false, h, bind, Except.bind]

/-- The part of `processData` after the decoded block and the resampled block are ensured, on a
delivery that resamples. -/
theorem processData_resampling (self : AudioCapture) (fuel : Nat) (alloc : AllocOutcome)
    (data : RawData) (size : Nat) (inputFormat : media_raw_audio_format) (N fs M : Nat)
    (dev1 res1 : List IEEE)
    (hfs : inputFormat.channel_count * getSampleSize inputFormat.format = fs)
    (hNdef : size / fs = N) (hcb : self.mUserCallback = true)
    (hch : 1 ≤ inputFormat.channel_count) (hbps : getSampleSize inputFormat.format ≠ 0)
    (hN : 1 ≤ N)
    (hdev : ¬ (4 * self.mDeviceFloatBuffer.length < N * (2 * 4)
      ∧ alloc.deviceFloatBuffer = false))
    (hdev1 : (if 4 * self.mDeviceFloatBuffer.length < N * (2 * 4) then
        AudioCapture.realloc self.mDeviceFloatBuffer (N * (2 * 4))
      else self.mDeviceFloatBuffer) = dev1)
    (hratio : self.mResamplingRatio ≠ 1) (hM : self.maxOutputFrames N = .ok M)
    (hres : ¬ (4 * self.mResampledBuffer.length < M * (2 * 4) % 2 ^ 64
      ∧ alloc.resampledBuffer = false))
    (hres1 : (if 4 * self.mResampledBuffer.length < M * (2 * 4) % 2 ^ 64 then
        AudioCapture.realloc self.mResampledBuffer (M * (2 * 4) % 2 ^ 64)
      else self.mResampledBuffer) = res1) :
    self.processData fuel alloc (some data) size inputFormat =
      (match ({ self with
          mDeviceFloatBuffer := decodedFrames inputFormat data fs 0 N ++ dev1.drop (N * 2)
          mResampledBuffer := res1 } : AudioCapture).linearResample fuel res1
          (decodedFrames inputFormat data fs 0 N ++ dev1.drop (N * 2)) N with
        | .ok (s, out, cnt) =>
          if s.mUserCallback = true ∧ cnt > 0 then
            .ok ({ s with mResampledBuffer := out }, [⟨out.take (2 * cnt), cnt⟩])
          else .ok ({ s with mResampledBuffer := out }, [])
        | .error e => .error e) := by
  have hsize : size ≠ 0 := by
    rintro rfl
    simp at hNdef
    omega
  have hens := ensure_length self.mDeviceFloatBuffer N
  rw [hdev1] at hens
  have hdec := decodeLoop_ensured inputFormat data fs N dev1 hens
  have hM2 : AudioCapture.maxOutputFrames
      { self with
        mUserCallback := true
        mDeviceFloatBuffer := decodedFrames inputFormat data fs 0 N ++ dev1.drop (N * 2) } N
      = .ok M := hM
  unfold AudioCapture.processData
  have hch0 : inputFormat.channel_count ≠ 0 := by omega
  have hN0 : N ≠ 0 := by omega
  simp only [hcb, hsize, hch0, hbps, hfs, hNdef, hN0, or_self, if_false, Bool.true_eq_false]
  simp only [AudioCapture.mDeviceFloatBufferSize, hdev, if_false, hdev1, hdec, bind,
    Except.bind]
  simp only [ne_eq, hratio, not_false_eq_true, decide_True, if_true,
    AudioCapture.mResampledBufferSize, hM2, hres, if_false, hres1]
  cases AudioCapture.linearResample _ fuel res1 _ N with
  | error e => rfl
  | ok v =>
    obtain ⟨s, out, cnt⟩ := v
    rfl

/-- C5 at a failing input: the ratio is `2^-60`, the carryover 0, and a delivery of two
signed-16 stereo frames arrives. `processData` computes `maxOutputFrames = 2^61 + 2`; the byte
size `maxOutputFrames * 8` wraps modulo `2^64` to 16, so the output block is reallocated to two
frames. The loop emits a frame at each of the positions 0, `2^-60`, `2^-59`, and the store of
the third frame is outside the block. -/
theorem processData_output_overflow :
    (sessionWith (1 / 1152921504606846976) 0).maxOutputFrames 2
      = .ok 2305843009213693954 ∧
    2305843009213693954 * (2 * 4) % 2 ^ 64 = 16 ∧
    (∀ k : ℕ, k ≤ 2 → Continues 2 (posSeq (sessionWith (1 / 1152921504606846976) 0).mResamplingRatio
      (sessionWith (1 / 1152921504606846976) 0).mInputBufferOffset k)) ∧
    (sessionWith (1 / 1152921504606846976) 0).processData 4 ⟨true, true⟩ (some rampData) 8
      stereoShort = .error .writeOutOfBounds := by
  have hmax : (sessionWith (1 / 1152921504606846976) 0).maxOutputFrames 2
      = .ok 2305843009213693954 := by
    have h1 : IEEE.add .roundDouble (IEEE.ofSizeT 2) (.fin 0) = .fin 2 := by
      rw [IEEE.ofSizeT_of_lt 2 (by norm_num)]
      simp only [IEEE.add]
      have := IEEE.roundDouble_natCast 2 (by norm_num)
      simpa using this
    have h2 : IEEE.div .roundDouble (.fin 2) (.fin (1 / 1152921504606846976))
        = .fin 2305843009213693952 := by
      simp only [IEEE.div]
      rw [if_neg (by norm_num)]
      have e : (2 : ℚ) / (1 / 1152921504606846976) = ((2305843009213693952 : ℕ) : ℚ) := by
        norm_num
      rw [e]
      have := IEEE.roundDouble_of_representable ((2305843009213693952 : ℕ) : ℚ)
        ⟨1, 61, by norm_num, by norm_num, by norm_num⟩ (by norm_num [abs_of_pos])
      simpa using this
    have h3 : (IEEE.ceil (.fin 2305843009213693952)).toSizeT = .ok 2305843009213693952 := by
      have e1 : ⌈(2305843009213693952 : ℚ)⌉ = 2305843009213693952 := by simp
      simp only [IEEE.ceil, IEEE.toSizeT, e1]
      rw [if_pos ⟨by norm_num, by norm_num⟩]
      have e2 : ⌊((2305843009213693952 : ℤ) : ℚ)⌋₊ = 2305843009213693952 := by simp
      rw [e2]
    show (do
      let frames ← (IEEE.ceil (IEEE.div .roundDouble
        (IEEE.add .roundDouble (IEEE.ofSizeT 2) (.fin 0))
        (.fin (1 / 1152921504606846976)))).toSizeT
      Except.ok ((frames + 2) % 2 ^ 64)) = _
    rw [h1, h2, h3]
    rfl
  have hp1 : posSeq (.fin (1 / 1152921504606846976)) (.fin 0) 1
      = .fin (1 / 1152921504606846976) := by
    show IEEE.add .roundDouble (.fin 0) (.fin (1 / 1152921504606846976)) = _
    simp only [IEEE.add, zero_add]
    exact IEEE.roundDouble_of_representable _ ⟨1, -60, by norm_num, by norm_num, by norm_num⟩
      (by norm_num [abs_of_pos])
  have hp2 : posSeq (.fin (1 / 1152921504606846976)) (.fin 0) 2
      = .fin (1 / 576460752303423488) := by
    show IEEE.add .roundDouble (posSeq (.fin (1 / 1152921504606846976)) (.fin 0) 1)
      (.fin (1 / 1152921504606846976)) = _
    rw [hp1]
    simp only [IEEE.add]
    have e : (1 / 1152921504606846976 + 1 / 1152921504606846976 : ℚ)
        = 1 / 576460752303423488 := by norm_num
    rw [e]
    exact IEEE.roundDouble_of_representable _ ⟨1, -59, by norm_num, by norm_num, by norm_num⟩
      (by norm_num [abs_of_pos])
  have hcont : ∀ k : ℕ, k ≤ 2 →
      Continues 2 (posSeq (.fin (1 / 1152921504606846976)) (.fin 0) k) := by
    intro k hk
    interval_cases k
    · exact ⟨0, rfl, le_refl _, by norm_num, by simp⟩
    · exact ⟨_, hp1, by norm_num, by norm_num,
        by rw [Nat.floor_eq_zero.2 (by norm_num)]; decide⟩
    · exact ⟨_, hp2, by norm_num, by norm_num,
        by rw [Nat.floor_eq_zero.2 (by norm_num)]; decide⟩
  refine ⟨hmax, by norm_num, hcont, ?_⟩
  rw [processData_resampling (sessionWith (1 / 1152921504606846976) 0) 4 ⟨true, true⟩ rampData
    8 stereoShort 2 4 2305843009213693954 (AudioCapture.realloc [] 16)
    (AudioCapture.realloc [] 16) rfl rfl rfl (by decide) (by decide) (by decide)
    (fun h => Bool.noConfusion h.2) rfl
    (by
      intro h
      have : (.fin (1 / 1152921504606846976) : IEEE) = .fin 1 := h
      injection this with this
      norm_num at this)
    hmax (fun h => Bool.noConfusion h.2) rfl]
  rw [linearResample_overrun _ 4 (AudioCapture.realloc [] 16) _ 2 2 (by decide)
    (by rw [List.length_append, decodedFrames_length]; omega) hcont (by decide) (by decide)]

theorem writeAt_length (buf : List IEEE) (i : Nat) (v : IEEE) (b : List IEEE)
    (h : writeAt buf i v = .ok b) : b.length = buf.length := by
  unfold writeAt at h
  split_ifs at h
  injection h with h
  rw [← h]
  simp

theorem resampleLoop_length (r : IEEE) (inBuffer : List IEEE) (n : Nat) :
    ∀ (fuel : Nat) (pos : IEEE) (buf : List IEEE) (cnt : Nat) (res : List IEEE × Nat × IEEE),
      AudioCapture.resampleLoop r inBuffer n fuel pos buf cnt = .ok res →
      res.1.length = buf.length := by
  intro fuel
  induction fuel with
  | zero =>
    intro pos buf cnt res h
    simp [AudioCapture.resampleLoop] at h
  | succ f ih =>
    intro pos buf cnt res h
    unfold AudioCapture.resampleLoop at h
    cases ht : (IEEE.floor pos).toSizeT with
    | error e => rw [ht] at h; simp [bind, Except.bind] at h
    | ok i =>
      rw [ht] at h
      simp only [bind, Except.bind] at h
      split_ifs at h with hexit
      · injection h with h
        rw [← h]
      · cases h1 : readAt inBuffer (i * 2 + 0) with
        | error e => rw [h1] at h; simp at h
        | ok s10 =>
          rw [h1] at h
          simp only at h
          cases h2 : readAt inBuffer (i * 2 + 1) with
          | error e => rw [h2] at h; simp at h
          | ok s11 =>
            rw [h2] at h
            simp only at h
            cases h3 : readAt inBuffer ((i + 1) * 2 + 0) with
            | error e => rw [h3] at h; simp at h
            | ok s20 =>
              rw [h3] at h
              simp only at h
              cases h4 : readAt inBuffer ((i + 1) * 2 + 1) with
              | error e => rw [h4] at h; simp at h
              | ok s21 =>
                rw [h4] at h
                simp only at h
                cases h5 : writeAt buf (cnt * 2 + 0) (AudioCapture.interpolate s10 s20
                    (IEEE.sub .roundDouble pos (.ofSizeT i))) with
                | error e => rw [h5] at h; simp at h
                | ok b1 =>
                  rw [h5] at h
                  simp only at h
                  cases h6 : writeAt b1 (cnt * 2 + 1) (AudioCapture.interpolate s11 s21
                      (IEEE.sub .roundDouble pos (.ofSizeT i))) with
                  | error e => rw [h6] at h; simp at h
                  | ok b2 =>
                    rw [h6] at h
                    simp only at h
                    rw [ih _ _ _ _ h, writeAt_length _ _ _ _ h6, writeAt_length _ _ _ _ h5]

theorem linearResample_length (self s : AudioCapture) (fuel : Nat)
    (outBuffer inBuffer out : List IEEE) (n cnt : Nat)
    (h : self.linearResample fuel outBuffer inBuffer n = .ok (s, out, cnt)) :
    out.length = outBuffer.length ∧ s.mResampledBuffer = self.mResampledBuffer := by
  unfold AudioCapture.linearResample at h
  split_ifs at h with hn
  · simp only [Except.ok.injEq, Prod.mk.injEq] at h
    rw [← h.2.1, ← h.1]
    exact ⟨rfl, rfl⟩
  · cases hl : AudioCapture.resampleLoop self.mResamplingRatio inBuffer n fuel
        self.mInputBufferOffset outBuffer 0 with
    | error e => rw [hl] at h; simp [bind, Except.bind] at h
    | ok v =>
      have hlen := resampleLoop_length _ _ _ _ _ _ _ _ hl
      rw [hl] at h
      simp only [bind, Except.bind, Except.ok.injEq, Prod.mk.injEq] at h
      rw [← h.2.1, ← h.1]
      exact ⟨hlen, rfl⟩

/-- `processData` on a delivery that passes the guards, whose decoded block is ensured and
that resamples: the computation of the capacity, the second `ensure`, the call of
`linearResample` and the callback. -/
theorem processData_resample_eq (self : AudioCapture) (fuel : Nat) (alloc : AllocOutcome)
    (data : RawData) (size : Nat) (inputFormat : media_raw_audio_format) (N fs : Nat)
    (dev1 : List IEEE)
    (hfs : inputFormat.channel_count * getSampleSize inputFormat.format = fs)
    (hNdef : size / fs = N) (hcb : self.mUserCallback = true)
    (hch : 1 ≤ inputFormat.channel_count) (hbps : getSampleSize inputFormat.format ≠ 0)
    (hN : 1 ≤ N)
    (hdev : ¬ (4 * self.mDeviceFloatBuffer.length < N * (2 * 4)
      ∧ alloc.deviceFloatBuffer = false))
    (hdev1 : (if 4 * self.mDeviceFloatBuffer.length < N * (2 * 4) then
        AudioCapture.realloc self.mDeviceFloatBuffer (N * (2 * 4))
      else self.mDeviceFloatBuffer) = dev1)
    (hratio : self.mResamplingRatio ≠ 1) :
    self.processData fuel alloc (some data) size inputFormat =
      (match self.maxOutputFrames N with
        | .error e => .error e
        | .ok M =>
          if 4 * self.mResampledBuffer.length < M * (2 * 4) % 2 ^ 64
              ∧ alloc.resampledBuffer = false then
            .ok ({ self with
              mDeviceFloatBuffer :=
                decodedFrames inputFormat data fs 0 N ++ dev1.drop (N * 2) }, [])
          else
            self.processData fuel alloc (some data) size inputFormat) := by
  have hsize : size ≠ 0 := by
    rintro rfl
    simp at hNdef
    omega
  have hens := ensure_length self.mDeviceFloatBuffer N
  rw [hdev1] at hens
  have hdec := decodeLoop_ensured inputFormat data fs N dev1 hens
  cases hM : self.maxOutputFrames N with
  | error e =>
    have hM2 : AudioCapture.maxOutputFrames
        { self with
          mUserCallback := true
          mDeviceFloatBuffer := decodedFrames inputFormat data fs 0 N ++ dev1.drop (N * 2) } N
        = .error e := hM
    unfold AudioCapture.processData
    have hch0 : inputFormat.channel_count ≠ 0 := by omega
    have hN0 : N ≠ 0 := by omega
    simp only [hcb, hsize, hch0, hbps, hfs, hNdef, hN0, or_self, if_false, Bool.true_eq_false]
    simp only [AudioCapture.mDeviceFloatBufferSize, hdev, if_false, hdev1, hdec, bind,
      Except.bind]
    simp only [ne_eq, hratio, not_false_eq_true, decide_True, if_true, hM2]
  | ok M =>
    have hM2 : AudioCapture.maxOutputFrames
        { self with
          mUserCallback := true
          mDeviceFloatBuffer := decodedFrames inputFormat data fs 0 N ++ dev1.drop (N * 2) } N
        = .ok M := hM
    simp only
    by_cases hres : 4 * self.mResampledBuffer.length < M * (2 * 4) % 2 ^ 64
        ∧ alloc.resampledBuffer = false
    · rw [if_pos hres]
      unfold AudioCapture.processData
      have hch0 : inputFormat.channel_count ≠ 0 := by omega
      have hN0 : N ≠ 0 := by omega
      simp only [hcb, hsize, hch0, hbps, hfs, hNdef, hN0, or_self, if_false,
        Bool.true_eq_false]
      simp only [AudioCapture.mDeviceFloatBufferSize, hdev, if_false, hdev1, hdec, bind,
        Except.bind]
      simp only [ne_eq, hratio, not_false_eq_true, decide_True, if_true,
        AudioCapture.mResampledBufferSize, hM2, hres, and_self]
    · rw [if_neg hres]

theorem processData_passthrough_eq (self : AudioCapture) (fuel : Nat) (alloc : AllocOutcome)
    (data : RawData) (size : Nat) (inputFormat : media_raw_audio_format) (N fs : Nat)
    (dev1 : List IEEE)
    (hfs : inputFormat.channel_count * getSampleSize inputFormat.format = fs)
    (hNdef : size / fs = N) (hcb : self.mUserCallback = true)
    (hch : 1 ≤ inputFormat.channel_count) (hbps : getSampleSize inputFormat.format ≠ 0)
    (hN : 1 ≤ N)
    (hdev : ¬ (4 * self.mDeviceFloatBuffer.length < N * (2 * 4)
      ∧ alloc.deviceFloatBuffer = false))
    (hdev1 : (if 4 * self.mDeviceFloatBuffer.length < N * (2 * 4) then
        AudioCapture.realloc self.mDeviceFloatBuffer (N * (2 * 4))
      else self.mDeviceFloatBuffer) = dev1)
    (hratio : self.mResamplingRatio = 1) :
    self.processData fuel alloc (some data) size inputFormat =
      .ok ({ self with
          mDeviceFloatBuffer := decodedFrames inputFormat data fs 0 N ++ dev1.drop (N * 2) },
        [⟨(decodedFrames inputFormat data fs 0 N ++ dev1.drop (N * 2)).take (2 * N), N⟩]) := by
  have hsize : size ≠ 0 := by
    rintro rfl
    simp at hNdef
    omega
  have hens := ensure_length self.mDeviceFloatBuffer N
  rw [hdev1] at hens
  have hdec := decodeLoop_ensured inputFormat data fs N dev1 hens
  unfold AudioCapture.processData
  have hch0 : inputFormat.channel_count ≠ 0 := by omega
  have hN0 : N ≠ 0 := by omega
  simp only [hcb, hsize, hch0, hbps, hfs, hNdef, hN0, or_self, if_false, Bool.true_eq_false]
  simp only [AudioCapture.mDeviceFloatBufferSize, hdev, if_false, hdev1, hdec, bind,
    Except.bind, hratio, ne_eq, not_true_eq_false, decide_False, Bool.false_eq_true,
    true_and, gt_iff_lt, Nat.pos_of_ne_zero hN0, if_true]

theorem processData_device_alloc_failure (self : AudioCapture) (fuel : Nat)
    (alloc : AllocOutcome) (data : RawData) (size : Nat) (inputFormat : media_raw_audio_format)
    (hlt : self.mDeviceFloatBufferSize
      < size / (inputFormat.channel_count * getSampleSize inputFormat.format) * (2 * 4))
    (halloc : alloc.deviceFloatBuffer = false) :
    self.processData fuel alloc (some data) size inputFormat = .ok (self, []) := by
  unfold AudioCapture.processData
  simp only
  split_ifs <;> first | rfl | (exfalso; simp_all)

theorem wrapped_size_div (M : ℕ) : 4 * (M * (2 * 4) % 2 ^ 64 / 4) = M * (2 * 4) % 2 ^ 64 := by
  omega

theorem ensured_size (block : List IEEE) (r : ℕ) (h4 : 4 * (r / 4) = r) :
    4 * (if 4 * block.length < r then AudioCapture.realloc block r else block).length
      = if 4 * block.length < r then r else 4 * block.length := by
  split_ifs
  · rw [realloc_length, h4]
  · rfl

theorem ensure_props (c r c1 : ℕ) (h : c1 = if c < r then r else c) :
    c ≤ c1 ∧ (r ≤ c → c1 = c) ∧ (c < r → c1 = r) := by
  split_ifs at h <;> refine ⟨by omega, fun _ => by omega, fun _ => by omega⟩

/-- C16: the `ensure` steps of `processData`, lines 322-330 for the decoded block and lines
380-388 for the resampled block, on a delivery that reaches them (callback installed, at least
one whole frame of a known encoding). The size requested for the decoded block is
`N * 8` bytes, the size requested for the resampled block is `maxOutputFrames * 8` reduced
modulo `2^64`. If `realloc` of the decoded block fails, `processData` returns with the session
unchanged and no callback. If `realloc` of the resampled block fails, it returns with that block
unchanged and no callback. With ratio 1.0 it returns. When it resamples it returns if the loop
meets its exit test after `m` frames and these fit the ensured block. Whenever it returns,
`mIsRecording` is as it was and no block has shrunk: with `c` the byte size before and `r` the
size requested, the size is `c` if `c >= r` and exactly `r` if `c < r` and `realloc`
succeeded. -/
theorem processData_ensure (self : AudioCapture) (fuel : Nat) (alloc : AllocOutcome)
    (data : RawData) (size : Nat) (inputFormat : media_raw_audio_format)
    (hcb : self.mUserCallback = true)
    (hch : 1 ≤ inputFormat.channel_count) (hbps : getSampleSize inputFormat.format ≠ 0)
    (hN : 1 ≤ size / (inputFormat.channel_count * getSampleSize inputFormat.format)) :
    (self.mDeviceFloatBufferSize
        < size / (inputFormat.channel_count * getSampleSize inputFormat.format) * (2 * 4) →
      alloc.deviceFloatBuffer = false →
      self.processData fuel alloc (some data) size inputFormat = .ok (self, [])) ∧
    (¬ (self.mDeviceFloatBufferSize
          < size / (inputFormat.channel_count * getSampleSize inputFormat.format) * (2 * 4)
        ∧ alloc.deviceFloatBuffer = false) →
      self.mResamplingRatio = 1 →
      ∃ (self1 : AudioCapture) (calls : List CallbackCall),
        self.processData fuel alloc (some data) size inputFormat = .ok (self1, calls)) ∧
    (¬ (self.mDeviceFloatBufferSize
          < size / (inputFormat.channel_count * getSampleSize inputFormat.format) * (2 * 4)
        ∧ alloc.deviceFloatBuffer = false) →
      self.mResamplingRatio ≠ 1 →
      ∀ M : ℕ, self.maxOutputFrames
          (size / (inputFormat.channel_count * getSampleSize inputFormat.format)) = .ok M →
        self.mResampledBufferSize < M * (2 * 4) % 2 ^ 64 → alloc.resampledBuffer = false →
        ∃ self1 : AudioCapture,
          self.processData fuel alloc (some data) size inputFormat = .ok (self1, []) ∧
          self1.mResampledBuffer = self.mResampledBuffer ∧
          self1.mIsRecording = self.mIsRecording) ∧
    (¬ (self.mDeviceFloatBufferSize
          < size / (inputFormat.channel_count * getSampleSize inputFormat.format) * (2 * 4)
        ∧ alloc.deviceFloatBuffer = false) →
      self.mResamplingRatio ≠ 1 →
      ∀ M m : ℕ, self.maxOutputFrames
          (size / (inputFormat.channel_count * getSampleSize inputFormat.format)) = .ok M →
        ¬ (self.mResampledBufferSize < M * (2 * 4) % 2 ^ 64
          ∧ alloc.resampledBuffer = false) →
        (∀ k : ℕ, k < m →
          Continues (size / (inputFormat.channel_count * getSampleSize inputFormat.format))
            (posSeq self.mResamplingRatio self.mInputBufferOffset k)) →
        Stops (size / (inputFormat.channel_count * getSampleSize inputFormat.format))
          (posSeq self.mResamplingRatio self.mInputBufferOffset m) →
        m * (2 * 4) ≤ max self.mResampledBufferSize (M * (2 * 4) % 2 ^ 64) → m < fuel →
        ∃ (self1 : AudioCapture) (calls : List CallbackCall),
          self.processData fuel alloc (some data) size inputFormat = .ok (self1, calls)) ∧
    (∀ (self1 : AudioCapture) (calls : List CallbackCall),
      self.processData fuel alloc (some data) size inputFormat = .ok (self1, calls) →
      self1.mIsRecording = self.mIsRecording ∧
      self.mDeviceFloatBufferSize ≤ self1.mDeviceFloatBufferSize ∧
      self.mResampledBufferSize ≤ self1.mResampledBufferSize ∧
      (size / (inputFormat.channel_count * getSampleSize inputFormat.format) * (2 * 4)
          ≤ self.mDeviceFloatBufferSize →
        self1.mDeviceFloatBufferSize = self.mDeviceFloatBufferSize) ∧
      (self.mDeviceFloatBufferSize
          < size / (inputFormat.channel_count * getSampleSize inputFormat.format) * (2 * 4) →
        alloc.deviceFloatBuffer = true →
        self1.mDeviceFloatBufferSize
          = size / (inputFormat.channel_count * getSampleSize inputFormat.format) * (2 * 4)) ∧
      (self.mDeviceFloatBufferSize
          < size / (inputFormat.channel_count * getSampleSize inputFormat.format) * (2 * 4) →
        alloc.deviceFloatBuffer = false → self1 = self ∧ calls = []) ∧
      (self.mResamplingRatio = 1 → self1.mResampledBuffer = self.mResampledBuffer) ∧
      (self.mResamplingRatio ≠ 1 →
        ¬ (self.mDeviceFloatBufferSize
            < size / (inputFormat.channel_count * getSampleSize inputFormat.format) * (2 * 4)
          ∧ alloc.deviceFloatBuffer = false) →
        ∃ M : ℕ, self.maxOutputFrames
            (size / (inputFormat.channel_count * getSampleSize inputFormat.format)) = .ok M ∧
          (M * (2 * 4) % 2 ^ 64 ≤ self.mResampledBufferSize →
            self1.mResampledBufferSize = self.mResampledBufferSize) ∧
          (self.mResampledBufferSize < M * (2 * 4) % 2 ^ 64 →
            alloc.resampledBuffer = true →
            self1.mResampledBufferSize = M * (2 * 4) % 2 ^ 64) ∧
          (self.mResampledBufferSize < M * (2 * 4) % 2 ^ 64 →
            alloc.resampledBuffer = false →
            self1.mResampledBuffer = self.mResampledBuffer ∧ calls = []))) := by
  generalize hNdef : size / (inputFormat.channel_count * getSampleSize inputFormat.format) = N
    at hN ⊢
  have hens := ensure_length self.mDeviceFloatBuffer N
  have hdevlen : ∀ tail : List IEEE,
      (decodedFrames inputFormat data
        (inputFormat.channel_count * getSampleSize inputFormat.format) 0 N
        ++ (if 4 * self.mDeviceFloatBuffer.length < N * (2 * 4) then
            AudioCapture.realloc self.mDeviceFloatBuffer (N * (2 * 4))
          else self.mDeviceFloatBuffer).drop (N * 2)).length
      = (if 4 * self.mDeviceFloatBuffer.length < N * (2 * 4) then
            AudioCapture.realloc self.mDeviceFloatBuffer (N * (2 * 4))
          else self.mDeviceFloatBuffer).length := by
    intro _
    rw [List.length_append, decodedFrames_length, List.length_drop]
    omega
  have hdevsize := ensured_size self.mDeviceFloatBuffer (N * (2 * 4)) (by omega)
  unfold AudioCapture.mDeviceFloatBufferSize AudioCapture.mResampledBufferSize
  refine ⟨?_, ?_, ?_, ?_, ?_⟩
  · intro hlt ha
    exact processData_device_alloc_failure self fuel alloc data size inputFormat
      (by rw [hNdef]; exact hlt) ha
  · intro hdev hr
    exact ⟨_, _, processData_passthrough_eq self fuel alloc data size inputFormat N _ _ rfl
      hNdef hcb hch hbps hN hdev rfl hr⟩
  · intro hdev hr M hM hlt ha
    have heq := processData_resample_eq self fuel alloc data size inputFormat N _ _ rfl
      hNdef hcb hch hbps hN hdev rfl hr
    rw [hM] at heq
    simp only at heq
    rw [if_pos ⟨hlt, ha⟩] at heq
    exact ⟨_, heq, rfl, rfl⟩
  · intro hdev hr M m hM hres hcont hstop hcap hfuel
    have heq := processData_resampling self fuel alloc data size inputFormat N _ M _ _ rfl
      hNdef hcb hch hbps hN hdev rfl hr hM hres rfl
    have hres1 := ensured_size self.mResampledBuffer (M * (2 * 4) % 2 ^ 64)
      (wrapped_size_div M)
    have hm2 : m * 2 ≤ (if 4 * self.mResampledBuffer.length < M * (2 * 4) % 2 ^ 64 then
        AudioCapture.realloc self.mResampledBuffer (M * (2 * 4) % 2 ^ 64)
      else self.mResampledBuffer).length := by
      have hmax : max (4 * self.mResampledBuffer.length) (M * (2 * 4) % 2 ^ 64)
          = if 4 * self.mResampledBuffer.length < M * (2 * 4) % 2 ^ 64 then
              M * (2 * 4) % 2 ^ 64 else 4 * self.mResampledBuffer.length := by
        split_ifs with h
        · exact max_eq_right h.le
        · exact max_eq_left (not_lt.1 h)
      rw [hmax, ← hres1] at hcap
      omega
    have hl := linearResample_run
      ({ self with
        mDeviceFloatBuffer := decodedFrames inputFormat data
          (inputFormat.channel_count * getSampleSize inputFormat.format) 0 N
          ++ (if 4 * self.mDeviceFloatBuffer.length < N * (2 * 4) then
              AudioCapture.realloc self.mDeviceFloatBuffer (N * (2 * 4))
            else self.mDeviceFloatBuffer).drop (N * 2)
        mResampledBuffer :=
          if 4 * self.mResampledBuffer.length < M * (2 * 4) % 2 ^ 64 then
            AudioCapture.realloc self.mResampledBuffer (M * (2 * 4) % 2 ^ 64)
          else self.mResampledBuffer } : AudioCapture) fuel
      (if 4 * self.mResampledBuffer.length < M * (2 * 4) % 2 ^ 64 then
        AudioCapture.realloc self.mResampledBuffer (M * (2 * 4) % 2 ^ 64)
      else self.mResampledBuffer)
      (decodedFrames inputFormat data
        (inputFormat.channel_count * getSampleSize inputFormat.format) 0 N
        ++ (if 4 * self.mDeviceFloatBuffer.length < N * (2 * 4) then
            AudioCapture.realloc self.mDeviceFloatBuffer (N * (2 * 4))
          else self.mDeviceFloatBuffer).drop (N * 2))
      N m (by omega) (by rw [hdevlen []]; exact hens) hcont hstop hm2 hfuel
    rw [hl] at heq
    simp only at heq
    split_ifs at heq <;> exact ⟨_, _, heq⟩
  · intro self1 calls hrun
    by_cases hdev : 4 * self.mDeviceFloatBuffer.length < N * (2 * 4)
        ∧ alloc.deviceFloatBuffer = false
    · have := processData_device_alloc_failure self fuel alloc data size inputFormat
        (by rw [hNdef]; exact hdev.1) hdev.2
      rw [this] at hrun
      simp only [Except.ok.injEq, Prod.mk.injEq] at hrun
      obtain ⟨h1, h2⟩ := hrun
      subst h1
      subst h2
      refine ⟨rfl, le_refl _, le_refl _, fun _ => rfl, fun _ h => ?_, fun _ _ => ⟨rfl, rfl⟩,
        fun _ => rfl, fun _ h => absurd hdev h⟩
      rw [hdev.2] at h
      exact Bool.noConfusion h
    · -- the decoded block after a delivery that got past the first `ensure`
      have hdevprops : ∀ buf : List IEEE,
          buf = decodedFrames inputFormat data
            (inputFormat.channel_count * getSampleSize inputFormat.format) 0 N
            ++ (if 4 * self.mDeviceFloatBuffer.length < N * (2 * 4) then
                AudioCapture.realloc self.mDeviceFloatBuffer (N * (2 * 4))
              else self.mDeviceFloatBuffer).drop (N * 2) →
          4 * self.mDeviceFloatBuffer.length ≤ 4 * buf.length ∧
          (N * (2 * 4) ≤ 4 * self.mDeviceFloatBuffer.length →
            4 * buf.length = 4 * self.mDeviceFloatBuffer.length) ∧
          (4 * self.mDeviceFloatBuffer.length < N * (2 * 4) →
            4 * buf.length = N * (2 * 4)) := by
        intro s hs
        apply ensure_props
        rw [hs, hdevlen [], hdevsize]
      by_cases hr : self.mResamplingRatio = 1
      · have := processData_passthrough_eq self fuel alloc data size inputFormat N _ _ rfl
          hNdef hcb hch hbps hN hdev rfl hr
        rw [this] at hrun
        simp only [Except.ok.injEq, Prod.mk.injEq] at hrun
        obtain ⟨h1, -⟩ := hrun
        subst h1
        obtain ⟨p1, p2, p3⟩ := hdevprops _ rfl
        exact ⟨rfl, p1, le_refl _, p2, fun hlt _ => p3 hlt,
          fun hlt ha => absurd ⟨hlt, ha⟩ hdev, fun _ => rfl, fun hne => absurd hr hne⟩
      · have heq := processData_resample_eq self fuel alloc data size inputFormat N _ _ rfl
          hNdef hcb hch hbps hN hdev rfl hr
        cases hM : self.maxOutputFrames N with
        | error e =>
          rw [hM] at heq
          simp only at heq
          rw [heq] at hrun
          exact absurd hrun (by simp)
        | ok M =>
          have hres1 := ensured_size self.mResampledBuffer (M * (2 * 4) % 2 ^ 64)
            (wrapped_size_div M)
          by_cases hres : 4 * self.mResampledBuffer.length < M * (2 * 4) % 2 ^ 64
              ∧ alloc.resampledBuffer = false
          · rw [hM] at heq
            simp only at heq
            rw [if_pos hres, hrun] at heq
            simp only [Except.ok.injEq, Prod.mk.injEq] at heq
            obtain ⟨h1, h2⟩ := heq
            subst h1
            subst h2
            obtain ⟨p1, p2, p3⟩ := hdevprops _ rfl
            refine ⟨rfl, p1, le_refl _, p2, fun hlt _ => p3 hlt,
              fun hlt ha => absurd ⟨hlt, ha⟩ hdev, fun h => absurd h hr,
              fun _ _ => ⟨M, rfl, fun _ => rfl, fun _ ha => ?_, fun _ _ => ⟨rfl, rfl⟩⟩⟩
            rw [hres.2] at ha
            exact Bool.noConfusion ha
          · have heq2 := processData_resampling self fuel alloc data size inputFormat N _ M _
              _ rfl hNdef hcb hch hbps hN hdev rfl hr hM hres rfl
            rw [hrun] at heq2
            generalize hl : AudioCapture.linearResample _ fuel _ _ N = lr at heq2
            cases lr with
            | error e => simp at heq2
            | ok v =>
              obtain ⟨s, out, cnt⟩ := v
              have hf := linearResample_fields _ _ _ _ _ _ _ _ hl
              have hlen := linearResample_length _ _ _ _ _ _ _ _ hl
              simp only at heq2 hf hlen
              have hs1 : self1 = { s with mResampledBuffer := out } := by
                split_ifs at heq2 <;>
                  · simp only [Except.ok.injEq, Prod.mk.injEq] at heq2
                    exact heq2.1
              subst hs1
              obtain ⟨p1, p2, p3⟩ := hdevprops s.mDeviceFloatBuffer hf.2.2.2.2.2
              obtain ⟨q1, q2, q3⟩ := ensure_props (4 * self.mResampledBuffer.length)
                (M * (2 * 4) % 2 ^ 64) (4 * out.length) (by rw [hlen.1, hres1])
              exact ⟨hf.2.1, p1, q1, p2, fun hlt _ => p3 hlt,
                fun hlt ha => absurd ⟨hlt, ha⟩ hdev, fun h => absurd h hr,
                fun _ _ => ⟨M, rfl, q2, fun hlt _ => q3 hlt,
                  fun hlt ha => absurd ⟨hlt, ha⟩ hres⟩⟩

theorem processData_ensure_witness :
    (sessionWith 2 0).mUserCallback = true ∧ 1 ≤ stereoShort.channel_count ∧
    getSampleSize stereoShort.format ≠ 0 ∧
    1 ≤ 8 / (stereoShort.channel_count * getSampleSize stereoShort.format) ∧
    (sessionWith 2 0).mDeviceFloatBufferSize = 0 ∧ (sessionWith 2 0).mResampledBufferSize = 0 ∧
    (sessionWith 2 0).maxOutputFrames 2 = .ok 3 ∧
    ∃ (self1 : AudioCapture) (calls : List CallbackCall),
      (sessionWith 2 0).processData 2 ⟨true, true⟩ (some rampData) 8 stereoShort
        = .ok (self1, calls) ∧
      self1.mIsRecording = true ∧
      self1.mDeviceFloatBufferSize = 16 ∧ self1.mResampledBufferSize = 24 := by
  have hmax : (sessionWith 2 0).maxOutputFrames 2 = .ok 3 := by
    have h1 : IEEE.add .roundDouble (IEEE.ofSizeT 2) (.fin 0) = .fin 2 := by
      rw [IEEE.ofSizeT_of_lt 2 (by norm_num)]
      simp only [IEEE.add]
      have := IEEE.roundDouble_natCast 2 (by norm_num)
      simpa using this
    have h2 : IEEE.div .roundDouble (.fin 2) (.fin 2) = .fin 1 := by
      simp only [IEEE.div]
      rw [if_neg (by norm_num)]
      have := IEEE.roundDouble_natCast 1 (by norm_num)
      simpa using this
    have h3 : (IEEE.ceil (.fin 1)).toSizeT = .ok 1 := by
      simp only [IEEE.ceil, IEEE.toSizeT, Int.ceil_one]
      rw [if_pos ⟨by norm_num, by norm_num⟩]
      simp
    show (do
      let frames ← (IEEE.ceil (IEEE.div .roundDouble
        (IEEE.add .roundDouble (IEEE.ofSizeT 2) (.fin 0)) (.fin 2))).toSizeT
      Except.ok ((frames + 2) % 2 ^ 64)) = _
    rw [h1, h2, h3]
    rfl
  have hp1 : posSeq (.fin 2) (.fin 0) 1 = .fin 2 := by
    simpa using posSeq_natCast 2 0 1 (by norm_num)
  have hcont : ∀ k : ℕ, k < 1 → Continues 2 (posSeq (.fin 2) (.fin 0) k) := by
    intro k hk
    obtain rfl : k = 0 := by omega
    simpa [posSeq] using continues_natCast 2 0 (by omega) (by norm_num)
  have hstop : Stops 2 (posSeq (.fin 2) (.fin 0) 1) := by
    rw [hp1]
    simpa using stops_natCast 2 2 (by omega) (by norm_num)
  have hne : (sessionWith 2 0).mResamplingRatio ≠ 1 := by
    intro h
    have : (.fin 2 : IEEE) = .fin 1 := h
    injection this with this
    norm_num at this
  obtain ⟨-, -, -, hd, he⟩ := processData_ensure (sessionWith 2 0) 2 ⟨true, true⟩ rampData 8
    stereoShort rfl (by decide) (by decide) (by decide)
  obtain ⟨self1, calls, hrun⟩ := hd (fun h => Bool.noConfusion h.2) hne 3 1 hmax
    (fun h => Bool.noConfusion h.2) hcont hstop (by decide) (by decide)
  obtain ⟨hrec, -, -, -, hdev, -, -, hres⟩ := he self1 calls hrun
  obtain ⟨M, hM, -, hgrow, -⟩ := hres hne (fun h => Bool.noConfusion h.2)
  have hM3 : M = 3 := by
    have := hM.symm.trans hmax
    injection this
  subst hM3
  exact ⟨rfl, by decide, by decide, by decide, rfl, rfl, hmax, self1, calls, hrun, hrec,
    hdev (by decide) rfl, hgrow (by decide) rfl⟩

/-! ### Termination -/

theorem posSeq_progress (ρ : ℚ) (N : ℕ) (hN : 1 ≤ N) (hρ : 0 < ρ)
    (hprog : (N : ℚ) + ρ ≤ ρ * 2 ^ 52) (h64 : (N : ℚ) + 2 * ρ ≤ 2 ^ 64) (off : IEEE) (k : ℕ)
    (hc : Continues N (posSeq (.fin ρ) off k)) :
    ∃ q q1 : ℚ, posSeq (.fin ρ) off k = .fin q ∧ posSeq (.fin ρ) off (k + 1) = .fin q1 ∧
      q + ρ / 2 ≤ q1 := by
  obtain ⟨E, hE, hEmin, hNE⟩ := exists_pow_le ρ N hN hρ hprog
  obtain ⟨q, hq, hq0, -, hqN⟩ := hc
  have hpN : q < (N : ℚ) - 1 := by
    have h2 : ((⌊q⌋₊ + 1 + 1 : ℕ) : ℚ) ≤ (N : ℚ) := by exact_mod_cast hqN
    push_cast at h2
    linarith [Nat.lt_floor_add_one q]
  have hx : |q + ρ| < 2 ^ (E + 53) := by
    rw [abs_of_nonneg (by linarith)]
    linarith
  have hb := fl64_add_bounds (q + ρ) E hEmin hx
  have hfin : |q + ρ| ≤ 2 ^ (1023 : ℤ) := by
    rw [abs_of_nonneg (by linarith)]
    have : (2 : ℚ) ^ 64 ≤ 2 ^ (1023 : ℤ) := by norm_num
    linarith
  refine ⟨q, fl64 (q + ρ), hq, ?_, by linarith [hb.1]⟩
  show IEEE.add .roundDouble (posSeq (.fin ρ) off k) (.fin ρ) = _
  rw [hq, IEEE.add_roundDouble_fin q ρ hfin]

theorem initializeDevice_failed_fields (self : AudioCapture) (host : DeviceHost)
    (h : (self.initializeDevice host).2 ≠ .B_OK) :
    (self.initializeDevice host).1.mResamplingRatio = self.mResamplingRatio ∧
    (self.initializeDevice host).1.mTargetSampleRate = self.mTargetSampleRate := by
  unfold AudioCapture.initializeDevice at h ⊢
  split_ifs at h ⊢ <;> first | exact ⟨rfl, rfl⟩ | exact absurd rfl h

theorem reachable_ratio_cases (host : DeviceHost) (callback : Bool) (target : IEEE)
    (s : AudioCapture) (hs : AudioCapture.Reachable host callback target s) :
    (s.mResamplingRatio = 1 ∨ ∃ d : IEEE, ResamplingWanted target d ∧
      s.mResamplingRatio = IEEE.div .roundDouble d target) ∧
    (s.mTargetSampleRate = 0 ∨ s.mTargetSampleRate = target) := by
  induction hs with
  | construct =>
    by_cases hst : ((AudioCapture.init callback target).initializeDevice host).2 = .B_OK
    · have hnew := new_initialized host callback target (new_flags host callback target hst).1
      by_cases hw : ResamplingWanted target host.format.frame_rate
      · exact ⟨Or.inr ⟨_, hw, (hnew.2.1 hw).1⟩, Or.inr (hnew.2.1 hw).2⟩
      · exact ⟨Or.inl (hnew.2.2 hw).1, Or.inl (hnew.2.2 hw).2⟩
    · have hf := initializeDevice_failed_fields (AudioCapture.init callback target) host hst
      have hnew : AudioCapture.new host callback target
          = { ((AudioCapture.init callback target).initializeDevice host).1 with
              mLastStatus := ((AudioCapture.init callback target).initializeDevice host).2 } := by
        unfold AudioCapture.new
        simp only [hst, if_false]
      rw [hnew]
      exact ⟨Or.inl hf.1, Or.inr hf.2⟩
  | start s answers _ ih =>
    by_cases hn : Negotiates s answers
    · obtain ⟨-, hch, hnc, -⟩ := Start_negotiated s answers hn
      by_cases hc : RateChanged s.mDeviceSampleRate answers.accepted.frame_rate
      · by_cases hw : ResamplingWanted s.mTargetSampleRate answers.accepted.frame_rate
        · have hres := (hch hc).1 hw
          rcases ih.2 with ht0 | ht
          · rw [ht0] at hw
            exact absurd hw (not_resamplingWanted_zero _)
          · rw [ht] at hw hres
            exact ⟨Or.inr ⟨_, hw, hres.1⟩, Or.inr hres.2⟩
        · exact ⟨Or.inl ((hch hc).2 hw).1, Or.inl ((hch hc).2 hw).2⟩
      · rw [(hnc hc).1, (hnc hc).2]
        exact ih
    · obtain ⟨h1, -, h3, -⟩ := Start_not_negotiated s answers hn
      rw [h1, h3]
      exact ih
  | stop s _ ih =>
    rw [(Stop_fields s).2.1, (Stop_fields s).2.2.2.1]
    exact ih
  | notify s willStop _ ih =>
    rw [(notifyCallbackC_fields s willStop).1, (notifyCallbackC_fields s willStop).2.2]
    exact ih
  | deliver s s1 fuel alloc data size formatIsRawAudio raw_audio calls _ hrun ih =>
    have hf := readCallbackC_fields _ _ _ _ _ _ _ _ _ hrun
    rw [hf.1, hf.2.2.1]
    exact ih

theorem float_quotient_pos (t δ : ℚ) (ht : (2 : ℚ) ^ (-149 : ℤ) ≤ t) (ht2 : t < 2 ^ 128)
    (hδ : (2 : ℚ) ^ (-149 : ℤ) ≤ δ) (hδ2 : δ < 2 ^ 128) :
    ∃ ρ : ℚ, IEEE.div .roundDouble (.fin δ) (.fin t) = .fin ρ ∧ 0 < ρ := by
  have htpos : 0 < t := lt_of_lt_of_le (by positivity) ht
  have hδpos : 0 < δ := lt_of_lt_of_le (by positivity) hδ
  have hlow : (2 : ℚ) ^ (-277 : ℤ) ≤ δ / t := by
    rw [le_div_iff₀ htpos]
    have h1 : (2 : ℚ) ^ (-277 : ℤ) * t ≤ 2 ^ (-277 : ℤ) * 2 ^ 128 :=
      mul_le_mul_of_nonneg_left ht2.le (by positivity)
    have h2 : (2 : ℚ) ^ (-277 : ℤ) * 2 ^ 128 = 2 ^ (-149 : ℤ) := by
      rw [show ((2 : ℚ) ^ 128) = 2 ^ (128 : ℤ) by norm_num, ← zpow_add₀ (by norm_num)]
      norm_num
    linarith
  have hhigh : δ / t ≤ 2 ^ (1023 : ℤ) := by
    rw [div_le_iff₀ htpos]
    have h1 : (2 : ℚ) ^ (1023 : ℤ) * 2 ^ (-149 : ℤ) ≤ 2 ^ (1023 : ℤ) * t :=
      mul_le_mul_of_nonneg_left ht (by positivity)
    have h2 : (2 : ℚ) ^ (128 : ℤ) ≤ 2 ^ (1023 : ℤ) * 2 ^ (-149 : ℤ) := by
      rw [← zpow_add₀ (by norm_num)]
      exact zpow_le_zpow_right₀ (by norm_num) (by norm_num)
    have h3 : δ < 2 ^ (128 : ℤ) := by
      have : (2 : ℚ) ^ 128 = 2 ^ (128 : ℤ) := by norm_num
      linarith
    linarith
  refine ⟨fl64 (δ / t), ?_, ?_⟩
  · simp only [IEEE.div]
    rw [if_neg (ne_of_gt htpos)]
    have habs : |δ / t| ≤ 2 ^ (1023 : ℤ) := by
      rw [abs_of_nonneg (div_nonneg hδpos.le htpos.le)]
      exact hhigh
    exact IEEE.roundDouble_of_abs_le _ habs
  · have := pow_le_roundTo 53 (-1074) (δ / t) (-277) (by norm_num) (by norm_num) hlow
    exact lt_of_lt_of_le (by positivity) this

/-- C20 (amended): the interpolation loop of `linearResample` terminates when the ratio `r`,
the frame count `N` and the carryover `p >= 0` satisfy `N + r <= r * 2^52`, `N + 2 r <= 2^64`
and `p < 2^64`: on blocks of sufficient size it returns after `m <= ceil(2 N / r)`
iterations, at each of which the position, accumulated in `double`, advanced by at least
`r / 2`, and the position it stops at has `floor(pos) + 1 >= N`. Every session reached from
the constructor by `Start`, `Stop`, the host notification and raw deliveries holds the ratio
1.0 or the `double` quotient `d / target` of a device rate `d > 0` and the target rate `> 0`,
and this quotient is finite and `> 0` when both rates are finite `float`s. -/
theorem resampler_terminates (ρ p : ℚ) (N fuel : Nat) (inBuffer outBuffer : List IEEE)
    (hρ : 0 < ρ) (hprog : (N : ℚ) + ρ ≤ ρ * 2 ^ 52) (h64 : (N : ℚ) + 2 * ρ ≤ 2 ^ 64)
    (h0 : 0 ≤ p) (hp : p < 2 ^ 64) (hlen : N * 2 ≤ inBuffer.length)
    (hcap : ⌈2 * (N : ℚ) / ρ⌉₊ * 2 ≤ outBuffer.length)
    (hfuel : ⌈2 * (N : ℚ) / ρ⌉₊ < fuel) :
    (∃ (m : ℕ) (out1 : List IEEE) (pos : ℚ), m ≤ ⌈2 * (N : ℚ) / ρ⌉₊ ∧
      AudioCapture.resampleLoop (.fin ρ) inBuffer N fuel (.fin p) outBuffer 0
        = .ok (out1, m, .fin pos) ∧
      posSeq (.fin ρ) (.fin p) m = .fin pos ∧ N ≤ ⌊pos⌋₊ + 1 ∧
      ∀ k : ℕ, k < m → ∃ q q1 : ℚ, posSeq (.fin ρ) (.fin p) k = .fin q ∧
        posSeq (.fin ρ) (.fin p) (k + 1) = .fin q1 ∧ ⌊q⌋₊ + 1 < N ∧ q + ρ / 2 ≤ q1) ∧
    (∀ (host : DeviceHost) (callback : Bool) (target : IEEE) (s : AudioCapture),
      AudioCapture.Reachable host callback target s →
      s.mResamplingRatio = 1 ∨ ∃ d : IEEE, ResamplingWanted target d ∧
        s.mResamplingRatio = IEEE.div .roundDouble d target) ∧
    (∀ t δ : ℚ, (2 : ℚ) ^ (-149 : ℤ) ≤ t → t < 2 ^ 128 → (2 : ℚ) ^ (-149 : ℤ) ≤ δ →
      δ < 2 ^ 128 → ∃ r : ℚ, IEEE.div .roundDouble (.fin δ) (.fin t) = .fin r ∧ 0 < r) := by
  refine ⟨?_, fun host callback target s hs => (reachable_ratio_cases host callback target s
    hs).1, float_quotient_pos⟩
  obtain ⟨m, hm, hcont, hstop⟩ := posSeq_terminates ρ p N hρ hprog h64 h0 hp
  have hloop := resampleLoop_run (.fin ρ) inBuffer N hlen m fuel (.fin p) [] outBuffer 0
    hcont hstop rfl (by omega) (by omega)
  simp only [List.nil_append, Nat.zero_add] at hloop
  obtain ⟨pos, hpos, -, -, hpN⟩ := hstop
  refine ⟨m, _, pos, hm, by rw [hloop, hpos], hpos, hpN, ?_⟩
  intro k hk
  have hc := hcont k hk
  have hN1 : 1 ≤ N := by
    obtain ⟨q, -, -, -, hq⟩ := hc
    omega
  obtain ⟨q, q1, hq, hq1, hadv⟩ := posSeq_progress ρ N hN1 hρ hprog h64 (.fin p) k hc
  obtain ⟨q', hq', -, -, hqN⟩ := hc
  have : q = q' := by
    have := hq.symm.trans hq'
    injection this
  subst this
  exact ⟨q, q1, hq, hq1, hqN, hadv⟩

theorem resampler_terminates_witness :
    (0 : ℚ) < 2 ∧ ((3 : ℕ) : ℚ) + 2 ≤ 2 * 2 ^ 52 ∧
    ∃ (m : ℕ) (out1 : List IEEE) (pos : ℚ), m ≤ ⌈2 * ((3 : ℕ) : ℚ) / 2⌉₊ ∧
      AudioCapture.resampleLoop (.fin 2) [1, 2, 3, 4, 5, 6] 3 4 (.fin 0) [0, 0, 0, 0, 0, 0] 0
        = .ok (out1, m, .fin pos) ∧ 3 ≤ ⌊pos⌋₊ + 1 := by
  have c3 : ⌈2 * ((3 : ℕ) : ℚ) / 2⌉₊ ≤ 3 := Nat.ceil_le.2 (by norm_num)
  obtain ⟨⟨m, out1, pos, hm, hrun, -, hpos, -⟩, -⟩ :=
    resampler_terminates 2 0 3 4 [1, 2, 3, 4, 5, 6] [0, 0, 0, 0, 0, 0] (by norm_num)
      (by norm_num) (by norm_num) (le_refl _) (by norm_num) (by decide)
      (by
        show ⌈2 * ((3 : ℕ) : ℚ) / 2⌉₊ * 2 ≤ 6
        omega)
      (by omega)
  exact ⟨by norm_num, by norm_num, m, out1, pos, hm, hrun, hpos⟩

theorem stagnant_step :
    IEEE.add .roundDouble (.fin (1 / 2)) (.fin (1 / 1152921504606846976)) = .fin (1 / 2) := by
  simp only [IEEE.add]
  exact IEEE.roundDouble_eq _ _
    (fl64_eval _ (-1) (-53) 4503599627370496 _ (by decide) (by norm_num [abs_of_pos])
      (by norm_num [abs_of_pos]) (by norm_num [abs_lt]) (by norm_num))
    (by norm_num [abs_of_pos])

theorem stagnant_loop :
    ∀ (fuel : ℕ) (outBuffer : List IEEE) (cnt : ℕ) (res : List IEEE × ℕ × IEEE),
      AudioCapture.resampleLoop (.fin (1 / 1152921504606846976)) [1, 2, 3, 4] 2 fuel
        (.fin (1 / 2)) outBuffer cnt ≠ .ok res := by
  intro fuel
  induction fuel with
  | zero =>
    intro outBuffer cnt res h
    simp [AudioCapture.resampleLoop] at h
  | succ f ih =>
    intro outBuffer cnt res h
    unfold AudioCapture.resampleLoop at h
    rw [toSizeT_floor (1 / 2) (by norm_num) (by norm_num)] at h
    have hfl : ⌊(1 / 2 : ℚ)⌋₊ = 0 := Nat.floor_eq_zero.2 (by norm_num)
    rw [hfl] at h
    simp only [bind, Except.bind, ge_iff_le] at h
    rw [if_neg (by decide)] at h
    rw [readAt_ok _ _ (by decide), readAt_ok _ _ (by decide), readAt_ok _ _ (by decide),
      readAt_ok _ _ (by decide)] at h
    simp only at h
    generalize hw1 : writeAt outBuffer (cnt * 2 + 0) _ = w1 at h
    cases w1 with
    | error e => simp at h
    | ok b1 =>
      simp only at h
      generalize hw2 : writeAt b1 (cnt * 2 + 1) _ = w2 at h
      cases w2 with
      | error e => simp at h
      | ok b2 =>
        simp only at h
        rw [stagnant_step] at h
        exact ih _ _ _ h

/-- C20, as stated, fails. With ratio `2^-60 > 0`, carryover `1/2` and two input frames the
addition `pos += ratio` returns `pos` itself, so the position never advances and the loop
returns for no amount of fuel and no output block. And a session constructed with the target
rate `+inf` on a 48 kHz device is initialised with the ratio `48000 / inf = 0`. -/
theorem resampler_stagnates :
    (0 : ℚ) < 1 / 1152921504606846976 ∧
    IEEE.add .roundDouble (.fin (1 / 2)) (.fin (1 / 1152921504606846976)) = .fin (1 / 2) ∧
    (∀ (fuel : ℕ) (outBuffer : List IEEE) (res : List IEEE × ℕ × IEEE),
      AudioCapture.resampleLoop (.fin (1 / 1152921504606846976)) [1, 2, 3, 4] 2 fuel
        (.fin (1 / 2)) outBuffer 0 ≠ .ok res) ∧
    (AudioCapture.new (okDeviceHost 48000) true (.inf false)).mIsInitialized = true ∧
    (AudioCapture.new (okDeviceHost 48000) true (.inf false)).mResamplingRatio = .fin 0 := by
  have hf := new_flags (okDeviceHost 48000) true (.inf false)
    (initializeDevice_okDeviceHost _ _)
  have hn := new_initialized (okDeviceHost 48000) true (.inf false) hf.1
  have hw : ResamplingWanted (.inf false) (okDeviceHost 48000).format.frame_rate := by
    refine ⟨rfl, ?_, ?_⟩
    · show IEEE.lt 0 (48000 : IEEE) = true
      simp [IEEE.zero_eq, IEEE.ofNat_eq, IEEE.lt]
    · show IEEE.lt epsilon (IEEE.abs (IEEE.sub .roundFloat (.inf false) (48000 : IEEE))) = true
      simp [IEEE.ofNat_eq, IEEE.sub, IEEE.neg, IEEE.add, IEEE.abs, IEEE.lt, epsilon]
  refine ⟨by norm_num, stagnant_step, fun fuel outBuffer res => stagnant_loop fuel outBuffer 0
    res, hf.1, ?_⟩
  rw [(hn.2.1 hw).1]
  rfl

/-! ### The video ring -/

theorem findSlot_ring (b0 b1 b2 b3 : BBuffer) (id : Int) :
    VideoConsumer.findSlot [some b0, some b1, some b2, some b3] id kBufferCount 0
      = .ok (if id = b0.id then 0 else if id = b1.id then 1 else if id = b2.id then 2
          else if id = b3.id then 3 else 4) := by
  simp only [VideoConsumer.findSlot, kBufferCount, List.getElem?_cons_zero,
    List.getElem?_cons_succ]
  split_ifs <;> rfl

theorem handleBuffer_owned (self : VideoConsumer) (now : Int) (buffer : BBuffer)
    (b0 b1 b2 b3 : BBuffer) (k : Nat)
    (hrun : self.runState = .B_STARTED) (hconn : self.fConnectionActive = true)
    (hmap : self.fBufferMap = [some b0, some b1, some b2, some b3])
    (hlast : -1 ≤ self.fLastBufferIndex ∧ self.fLastBufferIndex ≤ 3)
    (hk : k < 4)
    (hfind : VideoConsumer.findSlot [some b0, some b1, some b2, some b3] buffer.id
      kBufferCount 0 = .ok k) :
    self._HandleBuffer now buffer
      = .ok ({ self with fOurBuffers := true, fLastBufferIndex := (k : Int) },
          (if buffer.start_time - now > 3000 then [VideoAction.snooze (buffer.start_time - now)]
            else [])
          ++ (if self.fFrameCallback then [VideoAction.frameCallback k] else [])
          ++ (if self.fLastBufferIndex ≥ 0 then
                [VideoAction.recycleSlot self.fLastBufferIndex.toNat
                  ([b0, b1, b2, b3].getD self.fLastBufferIndex.toNat b0).id]
              else [])) := by
  have hk4 : k ≠ kBufferCount := by unfold kBufferCount; omega
  unfold VideoConsumer._HandleBuffer
  rw [if_neg (by simp [hrun, hconn]), hmap, hfind]
  simp only [bind, Except.bind, hk4, if_false, Bool.true_eq_false, if_true]
  obtain h | h | h | h | h : self.fLastBufferIndex = -1 ∨ self.fLastBufferIndex = 0 ∨
      self.fLastBufferIndex = 1 ∨ self.fLastBufferIndex = 2 ∨ self.fLastBufferIndex = 3 := by
    omega
  all_goals simp [h]

theorem handleBuffer_foreign (self : VideoConsumer) (now : Int) (buffer : BBuffer)
    (b0 b1 b2 b3 : BBuffer) (m0 m1 m2 m3 : BBitmap)
    (hrun : self.runState = .B_STARTED) (hconn : self.fConnectionActive = true)
    (hmap : self.fBufferMap = [some b0, some b1, some b2, some b3])
    (hbmp : self.fBitmap = [some m0, some m1, some m2, some m3])
    (hlast : -1 ≤ self.fLastBufferIndex ∧ self.fLastBufferIndex ≤ 3)
    (hfind : VideoConsumer.findSlot [some b0, some b1, some b2, some b3] buffer.id
      kBufferCount 0 = .ok 4) :
    self._HandleBuffer now buffer
      = .ok ({ self with
              fOurBuffers := false
              fLastBufferIndex := (self.fLastBufferIndex + 1) % 4 },
          [VideoAction.memcpy ((self.fLastBufferIndex + 1) % 4).toNat
            ([m0, m1, m2, m3].getD ((self.fLastBufferIndex + 1) % 4).toNat m0).bitsLength]
          ++ (if buffer.start_time - now > 3000 then
                [VideoAction.snooze (buffer.start_time - now)]
              else [])
          ++ (if self.fFrameCallback then
                [VideoAction.frameCallback ((self.fLastBufferIndex + 1) % 4).toNat]
              else [])
          ++ [VideoAction.recycle buffer.id]) := by
  unfold VideoConsumer._HandleBuffer
  rw [if_neg (by simp [hrun, hconn]), hmap, hbmp, hfind]
  simp only [bind, Except.bind, kBufferCount, if_true, Bool.false_eq_true, if_false]
  obtain h | h | h | h | h : self.fLastBufferIndex = -1 ∨ self.fLastBufferIndex = 0 ∨
      self.fLastBufferIndex = 1 ∨ self.fLastBufferIndex = 2 ∨ self.fLastBufferIndex = 3 := by
    omega
  all_goals simp [h]

theorem ring_match_cases (b0 b1 b2 b3 : BBuffer) (id : Int) :
    (∃ k : Nat, k < 4 ∧
      VideoConsumer.findSlot [some b0, some b1, some b2, some b3] id kBufferCount 0 = .ok k ∧
      [b0.id, b1.id, b2.id, b3.id][k]? = some id ∧
      ∀ i : Nat, i < k → [b0.id, b1.id, b2.id, b3.id][i]? ≠ some id) ∨
    (VideoConsumer.findSlot [some b0, some b1, some b2, some b3] id kBufferCount 0 = .ok 4 ∧
      ∀ j : Nat, [b0.id, b1.id, b2.id, b3.id][j]? ≠ some id) := by
  rw [findSlot_ring]
  by_cases e0 : id = b0.id
  · left
    refine ⟨0, by omega, by simp [e0], by simp [e0], ?_⟩
    intro i hi; omega
  by_cases e1 : id = b1.id
  · left
    refine ⟨1, by omega, by rw [if_neg e0, if_pos e1], by simp [e1], ?_⟩
    intro i hi
    interval_cases i
    simpa using Ne.symm e0
  by_cases e2 : id = b2.id
  · left
    refine ⟨2, by omega, by rw [if_neg e0, if_neg e1, if_pos e2], by simp [e2], ?_⟩
    intro i hi
    interval_cases i
    · simpa using Ne.symm e0
    · simpa using Ne.symm e1
  by_cases e3 : id = b3.id
  · left
    refine ⟨3, by omega, by rw [if_neg e0, if_neg e1, if_neg e2, if_pos e3], by simp [e3], ?_⟩
    intro i hi
    interval_cases i
    · simpa using Ne.symm e0
    · simpa using Ne.symm e1
    · simpa using Ne.symm e2
  · right
    refine ⟨by rw [if_neg e0, if_neg e1, if_neg e2, if_neg e3], ?_⟩
    intro j
    rcases j with _ | _ | _ | _ | j
    · simpa using Ne.symm e0
    · simpa using Ne.symm e1
    · simpa using Ne.symm e2
    · simpa using Ne.symm e3
    · simp

theorem first_match_unique (ids : List Int) (id : Int) (j k : Nat)
    (hj : ids[j]? = some id) (hjmin : ∀ i : Nat, i < j → ids[i]? ≠ some id)
    (hk : ids[k]? = some id) (hkmin : ∀ i : Nat, i < k → ids[i]? ≠ some id) : j = k := by
  rcases Nat.lt_trichotomy j k with h | h | h
  · exact absurd hj (hkmin j h)
  · exact h
  · exact absurd hk (hjmin k h)

/-- C10: a frame delivered while the node is started and connected, with the ring of four
slots constructed. If the identity of the delivered buffer equals that of slot `j` and of no
earlier slot, slot `j` is selected (it becomes `fLastBufferIndex`, and the callback, when
installed, gets its surface) and no `memcpy` is made. If it equals the identity of no slot, the
selected slot is `(fLastBufferIndex + 1) mod 4`, which is 0 when `fLastBufferIndex` is -1, and
exactly one `memcpy` is made, into that slot and of the byte length of its surface. -/
theorem handleBuffer_slot_selection (self : VideoConsumer) (now : Int) (buffer : BBuffer)
    (b0 b1 b2 b3 : BBuffer) (m0 m1 m2 m3 : BBitmap)
    (hrun : self.runState = .B_STARTED) (hconn : self.fConnectionActive = true)
    (hmap : self.fBufferMap = [some b0, some b1, some b2, some b3])
    (hbmp : self.fBitmap = [some m0, some m1, some m2, some m3])
    (hlast : -1 ≤ self.fLastBufferIndex ∧ self.fLastBufferIndex ≤ 3) :
    ∃ (s1 : VideoConsumer) (acts : List VideoAction),
      self._HandleBuffer now buffer = .ok (s1, acts) ∧
      (self.fFrameCallback = true →
        VideoAction.frameCallback s1.fLastBufferIndex.toNat ∈ acts) ∧
      (∀ j : Nat, [b0.id, b1.id, b2.id, b3.id][j]? = some buffer.id →
        (∀ i : Nat, i < j → [b0.id, b1.id, b2.id, b3.id][i]? ≠ some buffer.id) →
        s1.fLastBufferIndex = j ∧ acts.filter VideoAction.isMemcpy = []) ∧
      ((∀ j : Nat, [b0.id, b1.id, b2.id, b3.id][j]? ≠ some buffer.id) →
        s1.fLastBufferIndex = (self.fLastBufferIndex + 1) % 4 ∧
        (self.fLastBufferIndex = -1 → s1.fLastBufferIndex = 0) ∧
        ∃ m : BBitmap, [m0, m1, m2, m3][s1.fLastBufferIndex.toNat]? = some m ∧
          acts.filter VideoAction.isMemcpy
            = [VideoAction.memcpy s1.fLastBufferIndex.toNat m.bitsLength]) := by
  rcases ring_match_cases b0 b1 b2 b3 buffer.id with ⟨k, hk, hfind, hmatch, hmin⟩ | ⟨hfind, hno⟩
  · refine ⟨_, _, handleBuffer_owned self now buffer b0 b1 b2 b3 k hrun hconn hmap hlast hk
      hfind, ?_, ?_, ?_⟩
    · intro hcb
      simp [hcb]
    · intro j hj hjmin
      have hjk := first_match_unique _ _ j k hj hjmin hmatch hmin
      subst hjk
      refine ⟨rfl, ?_⟩
      simp only [List.filter_append]
      split_ifs <;> simp [VideoAction.isMemcpy]
    · intro hall
      exact absurd hmatch (hall k)
  · refine ⟨_, _, handleBuffer_foreign self now buffer b0 b1 b2 b3 m0 m1 m2 m3 hrun hconn hmap
      hbmp hlast hfind, ?_, ?_, ?_⟩
    · intro hcb
      simp [hcb]
    · intro j hj
      exact absurd hj (hno j)
    · intro _
      refine ⟨rfl, fun h => by simp [h], ?_⟩
      refine ⟨[m0, m1, m2, m3].getD ((self.fLastBufferIndex + 1) % 4).toNat m0, ?_, ?_⟩
      · obtain h | h | h | h | h : self.fLastBufferIndex = -1 ∨ self.fLastBufferIndex = 0 ∨
            self.fLastBufferIndex = 1 ∨ self.fLastBufferIndex = 2 ∨
            self.fLastBufferIndex = 3 := by omega
        all_goals simp [h]
      · simp only [List.filter_append]
        split_ifs <;> simp [VideoAction.isMemcpy]

theorem findSlot_ring_eval (b0 b1 b2 b3 : BBuffer) (id : Int) (k : Nat)
    (h : (if id = b0.id then 0 else if id = b1.id then 1 else if id = b2.id then 2
          else if id = b3.id then 3 else 4) = k) :
    VideoConsumer.findSlot [some b0, some b1, some b2, some b3] id kBufferCount 0 = .ok k := by
  rw [findSlot_ring, h]

theorem handleBuffer_slot_selection_witness :
    (ringNode (-1) false).runState = .B_STARTED ∧
    (ringNode (-1) false).fConnectionActive = true ∧
    (-1 ≤ (ringNode (-1) false).fLastBufferIndex ∧ (ringNode (-1) false).fLastBufferIndex ≤ 3) ∧
    ∃ (s1 : VideoConsumer) (acts : List VideoAction),
      (ringNode (-1) false)._HandleBuffer 0 ⟨101, 0⟩ = .ok (s1, acts) ∧
      s1.fLastBufferIndex = 1 ∧ acts.filter VideoAction.isMemcpy = [] := by
  obtain ⟨s1, acts, hrun, -, howned, -⟩ :=
    handleBuffer_slot_selection (ringNode (-1) false) 0 ⟨101, 0⟩ ⟨100, 0⟩ ⟨101, 0⟩ ⟨102, 0⟩
      ⟨103, 0⟩ ⟨1024⟩ ⟨1024⟩ ⟨1024⟩ ⟨1024⟩ rfl rfl rfl rfl (by decide)
  have h := howned 1 (by decide) (by
    intro i hi
    interval_cases i
    decide)
  exact ⟨rfl, rfl, by decide, s1, acts, hrun, h.1, h.2⟩

/-- C11 at a failing input: the node is constructed, connected (its ring holds the buffers 100
to 103) and started; it dispatches the foreign buffer 7, which is copied into slot 0 and leaves
`fLastBufferIndex = 0`, and then the ring buffer 100, the buffer of slot 0. The second dispatch
invokes the callback on slot 0 and then runs `fBufferMap[0]->Recycle()`: the buffer given back
to the host is the delivered buffer 100 itself, which the node goes on displaying. -/
theorem recycle_releases_delivered_buffer :
    VideoConsumer.handleEvents (ringNode (-1) false) [(0, .B_HANDLE_BUFFER ⟨7, 0⟩)]
      = .ok (ringNode 0 false, [.memcpy 0 1024, .frameCallback 0, .recycle 7]) ∧
    (ringNode 0 false)._HandleBuffer 0 ⟨100, 0⟩
      = .ok (ringNode 0 true, [.frameCallback 0, .recycleSlot 0 100]) ∧
    [.frameCallback 0, VideoAction.recycleSlot 0 100].filterMap VideoAction.released = [100] :=
  ⟨rfl, rfl, rfl⟩

/-- C12 at a failing input: the node is constructed, connected (its ring holds the buffers 100
to 103) and started; it handles the foreign buffer 7, the ring buffer 101, the foreign buffer 8
and then the stop event. The buffers given back to the host are 7, 100 and 8: the delivered ring
buffer 101 is never released, and the ring buffer 100, which was never delivered, is. -/
theorem ring_leak_on_mixed_frames :
    ringNode (-1) false
      = { ((VideoConsumer.new.SetFrameCallback true).Connected okCreateHost).1 with
          runState := .B_STARTED } ∧
    ∃ (s : VideoConsumer) (acts : List VideoAction),
      VideoConsumer.handleEvents (ringNode (-1) false)
        [(0, .B_HANDLE_BUFFER ⟨7, 0⟩), (0, .B_HANDLE_BUFFER ⟨101, 0⟩),
          (0, .B_HANDLE_BUFFER ⟨8, 0⟩), (0, .B_STOP 0)] = .ok (s, acts) ∧
      s.fLastBufferIndex = -1 ∧
      acts.filterMap VideoAction.released = [7, 100, 8] :=
  ⟨rfl, _, _, rfl, rfl, rfl⟩

theorem handleBuffer_not_running (self : VideoConsumer) (now : Int) (buffer : BBuffer)
    (h : self.runState ≠ .B_STARTED ∨ self.fConnectionActive = false) :
    self._HandleBuffer now buffer = .ok (self, [.recycle buffer.id]) := by
  unfold VideoConsumer._HandleBuffer
  rw [if_pos h]

/-- C19 at a failing input: the node is constructed, connected (ring built) and started; a
format change whose `CreateBuffers` fails at the buffer group's `InitCheck` tears the ring down
and leaves `fConnectionActive` set. The next delivered frame is not released: the search loop
dereferences `fBufferMap[0]`, which has no live pointee. -/
theorem handleBuffer_after_failed_format_change :
    ringNode (-1) false
      = { ((VideoConsumer.new.SetFrameCallback true).Connected okCreateHost).1 with
          runState := .B_STARTED } ∧
    ((ringNode (-1) false).FormatChanged true true failedCreateHost).2 = .B_ERROR ∧
    ((ringNode (-1) false).FormatChanged true true failedCreateHost).1.runState
      = .B_STARTED ∧
    ((ringNode (-1) false).FormatChanged true true failedCreateHost).1.fConnectionActive
      = true ∧
    ((ringNode (-1) false).FormatChanged true true failedCreateHost).1.fBitmap
      = [none, none, none, none] ∧
    ((ringNode (-1) false).FormatChanged true true failedCreateHost).1.fBufferMap
      = [none, none, none, none] ∧
    ((ringNode (-1) false).FormatChanged true true failedCreateHost).1._HandleBuffer 0
      ⟨101, 0⟩ = .error .nullDereference :=
  ⟨rfl, rfl, rfl, rfl, rfl, rfl, rfl⟩

theorem drawBitmap_flag_ne_zero : B_VIEWS_SUPPORT_DRAW_BITMAP ≠ 0 := by decide

theorem AcceptFormat_raw_video (bitmaps_support_space : color_space → Bool × Nat)
    (space : color_space) :
    VideoConsumer.AcceptFormat true bitmaps_support_space ⟨.B_MEDIA_RAW_VIDEO, space⟩
      = (⟨.B_MEDIA_RAW_VIDEO, space⟩,
          if space ≠ .wildcard ∧ (bitmaps_support_space space).1 = false then
            .B_MEDIA_BAD_FORMAT
          else .B_OK) := by
  unfold VideoConsumer.AcceptFormat
  simp only [if_neg drawBitmap_flag_ne_zero, Nat.and_zero]
  by_cases hw : space = .wildcard
  · simp [hw]
  · cases hs : (bitmaps_support_space space).1 <;> simp [hw, hs]

/-- C21 at a failing input: the destination is the node's own, the format is raw video with a
colour space that is not the wildcard, `bitmaps_support_space` reports the space as supported
and stores flags 0, so the flags lack `B_VIEWS_SUPPORT_DRAW_BITMAP`. `AcceptFormat` returns
`B_OK`. It does so for every flags value: on its own destination and a raw-video format the
status is `B_MEDIA_BAD_FORMAT` exactly when the colour space is not the wildcard and is
unsupported for bitmaps. -/
theorem acceptFormat_ignores_draw_flag :
    (0 &&& B_VIEWS_SUPPORT_DRAW_BITMAP = 0 ∧
      (color_space.space 5) ≠ .wildcard ∧
      (undrawableSupport (.space 5)).1 = true ∧ (undrawableSupport (.space 5)).2 = 0 ∧
      VideoConsumer.AcceptFormat true undrawableSupport ⟨.B_MEDIA_RAW_VIDEO, .space 5⟩
        = (⟨.B_MEDIA_RAW_VIDEO, .space 5⟩, .B_OK)) ∧
    ∀ (bitmaps_support_space : color_space → Bool × Nat) (space : color_space),
      ((VideoConsumer.AcceptFormat true bitmaps_support_space
          ⟨.B_MEDIA_RAW_VIDEO, space⟩).2 = .B_MEDIA_BAD_FORMAT
        ↔ space ≠ .wildcard ∧ (bitmaps_support_space space).1 = false) ∧
      ((VideoConsumer.AcceptFormat true bitmaps_support_space
          ⟨.B_MEDIA_RAW_VIDEO, space⟩).2 = .B_OK
        ↔ ¬ (space ≠ .wildcard ∧ (bitmaps_support_space space).1 = false)) := by
  refine ⟨⟨by decide, by decide, rfl, rfl, by decide⟩, ?_⟩
  intro bitmaps_support_space space
  rw [AcceptFormat_raw_video]
  by_cases h : space ≠ .wildcard ∧ (bitmaps_support_space space).1 = false
  · simp only [if_pos h, h, and_self, not_true_eq_false, iff_false, true_and]
    simp
  · simp only [if_neg h, h, not_false_eq_true, iff_true, iff_false]
    simp

